import Mathlib

/-!
Verification of the loomnodes document store (src/lib/stores/graph.svelte.ts)
and streaming generation orchestrator (src/lib/stores/generation.svelte.ts).

The TypeScript code is shallowly embedded as pure Lean functions over an
explicit state record.  JavaScript `Map` objects are modelled as association
lists with insert-or-replace semantics; the `setTimeout`-based debounced
persistence and the `queueMicrotask`-based coalesced structure-version bump
are modelled as explicit pending flags on the state, together with functions
(`firePersistTimer`, `runMicrotasks`) that model the scheduler delivering the
queued callback.  `createId()` (src/lib/utils/id.js, not part of the snapshot)
is modelled as an oracle: the fresh id is passed in as an explicit argument,
and theorems hypothesise freshness where the source relies on collision
resistance.
-/

set_option maxHeartbeats 1000000

/-- Node payload (source: src/lib/types/node.ts, `interface LoomNodeData`). -/
structure LoomNodeData where
  id : String
  text : String
  parentId : Option String
  childIds : List String
  isRoot : Bool
  isGenerating : Bool
  generatedTextStart : Nat
  error : Option String := none
deriving Repr, DecidableEq

/-- Graph node as constructed in graph.svelte.ts (`Node<LoomNodeData>` from
@xyflow/svelte).  Layout coordinates are modelled as an integer pair, since
they are ephemeral and no claim inspects them. -/
structure Node where
  id : String
  type : String
  position : Int × Int
  data : LoomNodeData
  width : Nat := 280
  height : Nat := 160
deriving Repr, DecidableEq

/-- Graph edge (source: `Edge` as constructed in graph.svelte.ts). -/
structure Edge where
  id : String
  source : String
  target : String
  type : String
deriving Repr, DecidableEq

/-- A JavaScript `Map` with string keys is modelled as an association list
whose keys are unique (JS maps cannot hold a key twice); `Map.set` replaces
the existing binding in place or appends a fresh one. -/
def mapSet {α : Type} : List (String × α) → String → α → List (String × α)
  | [], k, v => [(k, v)]
  | p :: rest, k, v =>
    if p.1 == k then (k, v) :: rest else p :: mapSet rest k v

/-- `Map.get`: the value bound to `k`, if any. -/
def mapGet {α : Type} : List (String × α) → String → Option α
  | [], _ => none
  | p :: rest, k => if p.1 == k then some p.2 else mapGet rest k

/-- Full state of the graph store closure in `createGraphStore()`.
`persistTimerPending`/`persistedGraph` model the `setTimeout` debounce and the
`localStorage` snapshot written by `saveGraph`; `structureScheduled` models the
microtask queued by `incrementStructure`. -/
structure GraphState where
  nodes : List Node
  edges : List Edge
  nodeDataMap : List (String × LoomNodeData)
  nodeIndexMap : List (String × Nat)
  structureVersion : Nat
  structureScheduled : Bool
  persistTimerPending : Bool
  persistedGraph : Option (List Node × List Edge)
deriving Repr, DecidableEq

/-- The `dataMap` built by the loop in `rebuildIndex` (id → node data,
later entries overwrite earlier ones, exactly as `Map.set` does). -/
def buildDataMap : List Node → List (String × LoomNodeData) →
    List (String × LoomNodeData)
  | [], acc => acc
  | n :: rest, acc => buildDataMap rest (mapSet acc n.id n.data)

/-- The `idxMap` built by the loop in `rebuildIndex` (id → array index). -/
def buildIndexMap : List Node → Nat → List (String × Nat) →
    List (String × Nat)
  | [], _, acc => acc
  | n :: rest, i, acc => buildIndexMap rest (i + 1) (mapSet acc n.id i)

/-- `rebuildIndex()` from graph.svelte.ts. -/
def rebuildIndex (s : GraphState) : GraphState :=
  { s with nodeDataMap := buildDataMap s.nodes []
           nodeIndexMap := buildIndexMap s.nodes 0 [] }

/-- `persist()`: clears any running timer and starts a fresh 500 ms debounce
timer.  Modelled as setting the pending flag (restart of an already pending
timer is idempotent in this model). -/
def persist (s : GraphState) : GraphState :=
  { s with persistTimerPending := true }

/-- `persistImmediate()`: cancels the debounce timer and writes the snapshot
`{ nodes, edges }` through `saveGraph` at once. -/
def persistImmediate (s : GraphState) : GraphState :=
  { s with persistTimerPending := false
           persistedGraph := some (s.nodes, s.edges) }

/-- The scheduler firing a pending debounced persistence timer. -/
def firePersistTimer (s : GraphState) : GraphState :=
  if s.persistTimerPending then
    { s with persistTimerPending := false
             persistedGraph := some (s.nodes, s.edges) }
  else s

/-- `incrementStructure()`: queues (at most) one microtask that will bump
`structureVersion`; the guard makes re-entry a no-op. -/
def incrementStructure (s : GraphState) : GraphState :=
  if s.structureScheduled then s else { s with structureScheduled := true }

/-- The scheduler draining the microtask queue at the end of the current turn:
the single queued callback resets the flag and bumps `structureVersion`. -/
def runMicrotasks (s : GraphState) : GraphState :=
  if s.structureScheduled then
    { s with structureScheduled := false
             structureVersion := s.structureVersion + 1 }
  else s

/-- `Partial<LoomNodeData>` restricted to the fields the source ever patches
(`text` via updateText/updateTextSilent, `isGenerating` via setGenerating,
`error` via setError; an explicit `undefined` for `error` clears it, hence the
nested option). -/
structure NodePatch where
  text : Option String := none
  isGenerating : Option Bool := none
  error : Option (Option String) := none

/-- The object spread `{ ...node.data, ...patchData }`. -/
def applyPatch (d : LoomNodeData) (p : NodePatch) : LoomNodeData :=
  { d with text := p.text.getD d.text
           isGenerating := p.isGenerating.getD d.isGenerating
           error := p.error.getD d.error }

/-- `patchNode(nodeId, patchData)`: silently returns when the id is not in the
index; otherwise replaces the single array slot and the single `nodeDataMap`
entry.  The source indexes `nodes[idx]` unconditionally; the index always
points into the array because every structural change rebuilds it, so the
defensive `none` branch on the array access is unreachable in any state the
store produces. -/
def patchNode (s : GraphState) (nodeId : String) (p : NodePatch) : GraphState :=
  match mapGet s.nodeIndexMap nodeId with
  | none => s
  | some idx =>
    match s.nodes[idx]? with
    | none => s
    | some node =>
      let updatedNode : Node := { node with data := applyPatch node.data p }
      { s with nodes := s.nodes.set idx updatedNode
               nodeDataMap := mapSet s.nodeDataMap nodeId updatedNode.data }

/-- `createRootNode()`, with the generated id passed explicitly. -/
def createRootNode (id : String) : Node :=
  { id := id
    type := "loomNode"
    position := (0, 0)
    data := { id := id, text := "", parentId := none, childIds := [],
              isRoot := true, isGenerating := false,
              generatedTextStart := 0 }
    width := 280
    height := 160 }

/-- The persisted blob `{ nodes, edges }` (graph.svelte.ts `SerializedGraph`),
at the level of the already-parsed JSON value. -/
structure SerializedGraph where
  nodes : List Node
  edges : List Edge
deriving Repr, DecidableEq

/-- `init()`: load the saved graph if present and non-empty (forcing each
node's `isGenerating` to false and its `type` to `loomNode`), otherwise start
from a fresh root. -/
def init (s : GraphState) (saved : Option SerializedGraph) (rootId : String) :
    GraphState :=
  let s :=
    match saved with
    | some g =>
      if g.nodes.length > 0 then
        { s with nodes := g.nodes.map (fun n =>
            { n with type := "loomNode"
                     data := { n.data with isGenerating := false } })
                 edges := g.edges }
      else
        { s with nodes := [createRootNode rootId], edges := [] }
    | none => { s with nodes := [createRootNode rootId], edges := [] }
  incrementStructure (rebuildIndex s)

/-- `addChild(parentId, text, generatedTextStart)`: returns `""` when the
parent is missing; otherwise appends the child node and edge, appends the new
id to the parent's `childIds`, rebuilds the index, persists immediately and
queues a structure bump.  The generated child id is the `childId` argument. -/
def addChild (s : GraphState) (parentId text : String)
    (generatedTextStart : Nat) (childId : String) : GraphState × String :=
  match s.nodes.find? (fun n => n.id == parentId) with
  | none => (s, "")
  | some _ =>
    let childNode : Node :=
      { id := childId
        type := "loomNode"
        position := (0, 0)
        data := { id := childId, text := text, parentId := some parentId,
                  childIds := [], isRoot := false, isGenerating := false,
                  generatedTextStart := generatedTextStart }
        width := 280
        height := 160 }
    let newEdge : Edge :=
      { id := "e-" ++ parentId ++ "-" ++ childId
        source := parentId
        target := childId
        type := "default" }
    let updatedNodes := s.nodes.map (fun n =>
      if n.id == parentId then
        { n with data := { n.data with childIds := n.data.childIds ++ [childId] } }
      else n)
    let s := { s with nodes := updatedNodes ++ [childNode]
                      edges := s.edges ++ [newEdge] }
    (incrementStructure (persistImmediate (rebuildIndex s)), childId)

/-- `addChildStreaming(parentId, initialText, generatedTextStart)`: same
construction as `addChild` but the child starts with `isGenerating = true`,
and it calls the debounced `persist()` instead of `persistImmediate()`. -/
def addChildStreaming (s : GraphState) (parentId initialText : String)
    (generatedTextStart : Nat) (childId : String) : GraphState × String :=
  match s.nodes.find? (fun n => n.id == parentId) with
  | none => (s, "")
  | some _ =>
    let childNode : Node :=
      { id := childId
        type := "loomNode"
        position := (0, 0)
        data := { id := childId, text := initialText, parentId := some parentId,
                  childIds := [], isRoot := false, isGenerating := true,
                  generatedTextStart := generatedTextStart }
        width := 280
        height := 160 }
    let newEdge : Edge :=
      { id := "e-" ++ parentId ++ "-" ++ childId
        source := parentId
        target := childId
        type := "default" }
    let updatedNodes := s.nodes.map (fun n =>
      if n.id == parentId then
        { n with data := { n.data with childIds := n.data.childIds ++ [childId] } }
      else n)
    let s := { s with nodes := updatedNodes ++ [childNode]
                      edges := s.edges ++ [newEdge] }
    (incrementStructure (persist (rebuildIndex s)), childId)

/-- `updateTextSilent(nodeId, text)`: patch without persistence. -/
def updateTextSilent (s : GraphState) (nodeId text : String) : GraphState :=
  patchNode s nodeId { text := some text }

/-- `updateText(nodeId, text)`: patch plus debounced persistence. -/
def updateText (s : GraphState) (nodeId text : String) : GraphState :=
  persist (patchNode s nodeId { text := some text })

/-- `setGenerating(nodeId, isGenerating)`. -/
def setGenerating (s : GraphState) (nodeId : String) (isGenerating : Bool) :
    GraphState :=
  patchNode s nodeId { isGenerating := some isGenerating }

/-- `setError(nodeId, error)` (`undefined` clears the field). -/
def setError (s : GraphState) (nodeId : String) (error : Option String) :
    GraphState :=
  patchNode s nodeId { error := some error }

/-- `getPrompt(nodeId)`: a node's full accumulated text via `nodeDataMap`. -/
def getPrompt (s : GraphState) (nodeId : String) : String :=
  ((mapGet s.nodeDataMap nodeId).map (·.text)).getD ""

/-- `toDelete.add(x)` on the JS `Set`, modelled as append-if-absent. -/
def setInsert (l : List String) (x : String) : List String :=
  if l.contains x then l else l ++ [x]

/-- The `while (queue.length > 0)` descendant traversal in `deleteNode`.  The
JS array is used as a stack (`pop` from the end, `push(...childIds)` at the
end), so a freshly pushed child list is consumed last-child-first; we keep the
stack top at the head, pushing `childIds.reverse`.  The collected set is
identical.  The source loop would run forever on a cyclic `childIds` graph;
the model returns the partial set when fuel runs out, and fuel
`nodes.length + 1` is proved sufficient on well-formed trees. -/
def collectToDelete (nodes : List Node) :
    Nat → List String → List String → List String
  | 0, _, acc => acc
  | _ + 1, [], acc => acc
  | fuel + 1, current :: rest, acc =>
    let acc := setInsert acc current
    let queue :=
      match nodes.find? (fun n => n.id == current) with
      | some cn => cn.data.childIds.reverse ++ rest
      | none => rest
    collectToDelete nodes fuel queue acc

/-- `deleteNode(nodeId)`: no-op for missing or root nodes, otherwise removes
the node and every transitive descendant (following `childIds`), drops edges
touching any removed node, strips the id from its former parent's `childIds`,
rebuilds indices, persists immediately and queues a structure bump. -/
def deleteNode (s : GraphState) (nodeId : String) : GraphState :=
  match s.nodes.find? (fun n => n.id == nodeId) with
  | none => s
  | some node =>
    if node.data.isRoot then s
    else
      let toDelete := collectToDelete s.nodes (s.nodes.length + 1) [nodeId] []
      let parentId := node.data.parentId
      let newNodes :=
        (s.nodes.filter (fun n => !(toDelete.contains n.id))).map (fun n =>
          if some n.id == parentId then
            { n with data := { n.data with
                childIds := n.data.childIds.filter (fun c => c != nodeId) } }
          else n)
      let newEdges := s.edges.filter (fun e =>
        !(toDelete.contains e.source) && !(toDelete.contains e.target))
      let s := { s with nodes := newNodes, edges := newEdges }
      incrementStructure (persistImmediate (rebuildIndex s))

/-- `clearAll()`: replace the whole document with a single fresh root. -/
def clearAll (s : GraphState) (rootId : String) : GraphState :=
  let s := { s with nodes := [createRootNode rootId], edges := [] }
  incrementStructure (persistImmediate (rebuildIndex s))

/-- Raw node data as found in a parsed import file, before validation.
`text = none` models a missing or non-string `text` field (the
`typeof n.data.text !== 'string'` check). -/
structure RawNodeData where
  id : String
  text : Option String
  parentId : Option String
  childIds : List String
  isRoot : Bool
  isGenerating : Bool
  generatedTextStart : Nat
  error : Option String := none
deriving Repr, DecidableEq

/-- Raw node of a parsed import file.  `id = ""` models a missing id (the
`!n.id` falsiness check) and `data = none` a missing `data` object. -/
structure RawNode where
  id : String
  type : String
  position : Int × Int
  data : Option RawNodeData
  width : Nat := 280
  height : Nat := 160
deriving Repr, DecidableEq

/-- A parsed import JSON value.  `nodes = none` / `edges = none` model a
missing field or one that fails `Array.isArray`. -/
structure ImportDoc where
  nodes : Option (List RawNode)
  edges : Option (List Edge)
deriving Repr, DecidableEq

/-- The spread `{ ...n, type: 'loomNode', data: { ...n.data, isGenerating: false } }`
used by `importGraph` on a node that passed validation (so `data` and `text`
are present; the defaults are dead code under the validation guard). -/
def rawToNode (n : RawNode) : Node :=
  let d := n.data.getD
    { id := "", text := none, parentId := none, childIds := [],
      isRoot := false, isGenerating := false, generatedTextStart := 0 }
  { id := n.id
    type := "loomNode"
    position := n.position
    data := { id := d.id, text := d.text.getD "", parentId := d.parentId,
              childIds := d.childIds, isRoot := d.isRoot,
              isGenerating := false, generatedTextStart := d.generatedTextStart,
              error := d.error }
    width := n.width
    height := n.height }

/-- The parsed form of the JSON string produced by `exportGraph()`
(`JSON.stringify({ nodes, edges })`); the export/import pair is modelled at
the level of the parsed value, with stringify-then-parse of plain data taken
as the identity. -/
def nodeToRaw (n : Node) : RawNode :=
  { id := n.id
    type := n.type
    position := n.position
    data := some { id := n.data.id, text := some n.data.text,
                   parentId := n.data.parentId, childIds := n.data.childIds,
                   isRoot := n.data.isRoot, isGenerating := n.data.isGenerating,
                   generatedTextStart := n.data.generatedTextStart,
                   error := n.data.error }
    width := n.width
    height := n.height }

/-- `exportGraph()`, at the level of the parsed JSON value. -/
def exportGraph (s : GraphState) : ImportDoc :=
  { nodes := some (s.nodes.map nodeToRaw), edges := some s.edges }

/-- `importGraph(json)`: full validation in source order, then whole-document
replacement forcing every `isGenerating` to false.  A `throw` is modelled as
returning the untouched state paired with `.error msg`, mirroring that the
source throws before any assignment to `nodes`/`edges`. -/
def importGraph (s : GraphState) (d : ImportDoc) :
    GraphState × Except String Unit :=
  match d.nodes, d.edges with
  | some ns, some es =>
    if ns.length = 0 then
      (s, .error "Invalid graph: no nodes")
    else if !(ns.any (fun n => (n.data.map (·.isRoot)).getD false)) then
      (s, .error "Invalid graph: no root node")
    else if ns.any (fun n =>
        n.id == "" || n.data.isNone ||
        (n.data.map (fun d' => d'.text.isNone)).getD true) then
      (s, .error "Invalid graph: malformed node data")
    else
      let s := { s with nodes := ns.map rawToNode, edges := es }
      (incrementStructure (persistImmediate (rebuildIndex s)), .ok ())
  | _, _ => (s, .error "Invalid graph format: missing nodes or edges arrays")

/-!
The streaming generation orchestrator, src/lib/stores/generation.svelte.ts.
`runBatchGeneration` is embedded as: a synchronous placeholder-creation phase,
then a transition system driven by the transport events
(`token` / `done` / `error`) and by animation frames (`frame`), then the
orphan-resolution sweep that runs after the transport call returns.  The
`await fetchCompletionStreamBatch(...)` call itself performs no state change
beyond invoking the callbacks, so a whole batch run is the fold of the event
script.  The auto-embedding hook in `markDone` calls the (out-of-scope)
embedding store and touches none of the modelled state, so it is omitted.
-/

/-- The events delivered while a batch is in flight: the three transport
callbacks, plus an animation frame running every callback queued through
`requestAnimationFrame`. -/
inductive GenEvent where
  | token (id tok : String)
  | done (id : String)
  | error (id msg : String)
  | frame
deriving Repr, DecidableEq

/-- The state of one `runBatchGeneration` call: the graph store plus the
closure-local `buffers`, `prompts`, `rafScheduled` and `completed`
collections, the store-level `activeRequests` counter, and the queue of
callbacks waiting for the next animation frame. -/
structure BatchState where
  graph : GraphState
  buffers : List (String × String)
  prompts : List (String × String)
  rafScheduled : List (String × Bool)
  completed : List String
  activeRequests : Int
  rafQueue : List String
deriving Repr, DecidableEq

/-- `markError(id, message)`: terminal-state guard, then restore the prompt if
no tokens arrived (buffer no longer than the prompt) or keep the streamed
buffer, record the error, clear generating, decrement the counter. -/
def markError (b : BatchState) (id msg : String) : BatchState :=
  if b.completed.contains id then b
  else
    let buf := (mapGet b.buffers id).getD ""
    let prompt := (mapGet b.prompts id).getD ""
    let g :=
      if buf.length ≤ prompt.length then updateTextSilent b.graph id prompt
      else updateTextSilent b.graph id buf
    let g := setGenerating (setError g id (some msg)) id false
    { b with completed := b.completed ++ [id]
             rafScheduled := mapSet b.rafScheduled id false
             graph := g
             activeRequests := b.activeRequests - 1 }

/-- `markDone(id)`: terminal-state guard, then write the final buffer, clear
generating, decrement the counter. -/
def markDone (b : BatchState) (id : String) : BatchState :=
  if b.completed.contains id then b
  else
    let g :=
      match mapGet b.buffers id with
      | some buf => updateTextSilent b.graph id buf
      | none => b.graph
    let g := setGenerating g id false
    { b with completed := b.completed ++ [id]
             rafScheduled := mapSet b.rafScheduled id false
             graph := g
             activeRequests := b.activeRequests - 1 }

/-- The body of the callback passed to `requestAnimationFrame` in `onToken`:
reset the flag and flush the current buffer into the store. -/
def flushCallback (b : BatchState) (id : String) : BatchState :=
  let b := { b with rafScheduled := mapSet b.rafScheduled id false }
  match mapGet b.buffers id with
  | some cur => { b with graph := updateTextSilent b.graph id cur }
  | none => b

/-- The `onToken` callback: append to the id's buffer (ignoring ids that were
never registered) and schedule at most one flush per id. -/
def onToken (b : BatchState) (id tok : String) : BatchState :=
  match mapGet b.buffers id with
  | none => b
  | some buf =>
    let b := { b with buffers := mapSet b.buffers id (buf ++ tok) }
    if (mapGet b.rafScheduled id).getD false then b
    else { b with rafScheduled := mapSet b.rafScheduled id true
                  rafQueue := b.rafQueue ++ [id] }

/-- One event step of a live batch.  `onDone`/`onError` call
`graphStore.persist()` after the mark, unconditionally; a frame runs every
queued callback in scheduling order. -/
def stepEvent (b : BatchState) : GenEvent → BatchState
  | .token id tok => onToken b id tok
  | .done id =>
    let b := markDone b id
    { b with graph := persist b.graph }
  | .error id msg =>
    let b := markError b id msg
    { b with graph := persist b.graph }
  | .frame => (b.rafQueue.foldl flushCallback { b with rafQueue := [] })

/-- Folding a whole event script. -/
def runEvents (b : BatchState) (evs : List GenEvent) : BatchState :=
  evs.foldl stepEvent b

/-- One entry of the `entries` argument of `runBatchGeneration`. -/
structure BatchEntry where
  parentId : String
  prompt : String
  count : Nat
deriving Repr, DecidableEq

/-- The inner placeholder-creation loop (`for i in 0..count`) for one entry;
`supply` provides the ids `createId()` would generate, indexed from `k`.
Returns the grown graph, the accumulated `requests` list (id, prompt), and
the next unused supply index. -/
def createForEntry (g : GraphState) (e : BatchEntry) (supply : Nat → String) :
    Nat → Nat → List (String × String) → GraphState × List (String × String) × Nat
  | k, 0, reqs => (g, reqs, k)
  | k, c + 1, reqs =>
    let r := addChildStreaming g e.parentId e.prompt e.prompt.length (supply k)
    let reqs := if r.2 ≠ "" then reqs ++ [(r.2, e.prompt)] else reqs
    createForEntry r.1 e supply (k + 1) c reqs

/-- The outer placeholder-creation loop over all entries. -/
def createAll (g : GraphState) (entries : List BatchEntry)
    (supply : Nat → String) (k : Nat) (reqs : List (String × String)) :
    GraphState × List (String × String) × Nat :=
  match entries with
  | [] => (g, reqs, k)
  | e :: rest =>
    let r := createForEntry g e supply k e.count reqs
    createAll r.1 rest supply r.2.2 r.2.1

/-- `runBatchGeneration(entries, settings)` for a transport call that returns
normally after delivering the event script `evs` (the `catch` branch is the
same `markError`-sweep with the thrown message): create the placeholders,
seed the per-id collections, bump `activeRequests`, fold the events, then
force-resolve every id that never reached a terminal state and persist once
if any such orphan existed. -/
def runBatchGeneration (g : GraphState) (entries : List BatchEntry)
    (supply : Nat → String) (evs : List GenEvent) : BatchState :=
  let c := createAll g entries supply 0 []
  let reqs := c.2.1
  if reqs.isEmpty then
    { graph := c.1, buffers := [], prompts := [], rafScheduled := [],
      completed := [], activeRequests := 0, rafQueue := [] }
  else
    let b0 : BatchState :=
      { graph := c.1
        buffers := reqs.foldl (fun m r => mapSet m r.1 r.2) []
        prompts := reqs.foldl (fun m r => mapSet m r.1 r.2) []
        rafScheduled := reqs.foldl (fun m r => mapSet m r.1 false) []
        completed := []
        activeRequests := reqs.length
        rafQueue := [] }
    let b1 := runEvents b0 evs
    let hadOrphans := reqs.any (fun r => !(b1.completed.contains r.1))
    let b2 := reqs.foldl (fun b r =>
      if b.completed.contains r.1 then b
      else markError b r.1 "Stream ended without response") b1
    if hadOrphans then { b2 with graph := persist b2.graph } else b2

/-- The settings fields `generateForNode` reads (src/lib/types/settings.ts). -/
structure LoomSettings where
  apiKey : String
  apiBaseUrl : String
  numGenerations : Nat
deriving Repr, DecidableEq

/-- `generateForNode(nodeId)`: precondition checks (missing key on the default
endpoint, blank prompt), mark the source generating and clear its error, run
the single-entry batch, then clear the source's generating flag. -/
def generateForNode (g : GraphState) (settings : LoomSettings)
    (nodeId : String) (supply : Nat → String) (evs : List GenEvent) :
    Except String BatchState :=
  if settings.apiKey = "" && settings.apiBaseUrl = "https://api.openai.com/v1" then
    .error "API key is required"
  else
    let prompt := getPrompt g nodeId
    if prompt.trim = "" then
      .error "Node has no text to generate from"
    else
      let g := setGenerating g nodeId true
      let g := setError g nodeId none
      let b := runBatchGeneration g
        [{ parentId := nodeId, prompt := prompt,
           count := settings.numGenerations }] supply evs
      .ok { b with graph := setGenerating b.graph nodeId false }

/-! ### Infrastructure lemmas: the map model and single-node patching -/

/-- The list of node ids, in array order. -/
def nodeIds (nodes : List Node) : List String := nodes.map (·.id)

/-- Looking up a node by id, as `nodes.find(n => n.id === id)` does. -/
def findNode (nodes : List Node) (id : String) : Option Node :=
  nodes.find? (fun n => n.id == id)

/-- The canonical shape of a single-node patch at the array level: every node
carrying the patched id (unique in well-formed states) is updated in place. -/
def patchNodes (nodes : List Node) (id : String) (p : NodePatch) : List Node :=
  nodes.map (fun n =>
    if n.id == id then { n with data := applyPatch n.data p } else n)

theorem mapGet_mapSet_self {α : Type} (m : List (String × α)) (k : String)
    (v : α) : mapGet (mapSet m k v) k = some v := by
  induction m with
  | nil => simp [mapSet, mapGet]
  | cons p rest ih =>
    by_cases h : p.1 = k
    · simp [mapSet, mapGet, h]
    · simp [mapSet, mapGet, h, ih]

theorem mapGet_mapSet_ne {α : Type} (m : List (String × α)) {k k' : String}
    (v : α) (h : k' ≠ k) : mapGet (mapSet m k v) k' = mapGet m k' := by
  have h' : k ≠ k' := Ne.symm h
  induction m with
  | nil => simp [mapSet, mapGet, h']
  | cons p rest ih =>
    by_cases hpk : p.1 = k
    · simp [mapSet, mapGet, hpk, h']
    · by_cases hpk' : p.1 = k'
      · simp [mapSet, mapGet, hpk, hpk', h]
      · simp [mapSet, mapGet, hpk, hpk', ih]

theorem mapSet_mapSet_self {α : Type} (m : List (String × α)) (k : String)
    (v1 v2 : α) : mapSet (mapSet m k v1) k v2 = mapSet m k v2 := by
  induction m with
  | nil => simp [mapSet]
  | cons p rest ih =>
    by_cases h : p.1 = k
    · simp [mapSet, h]
    · simp [mapSet, h, ih]

/-- `Map.set` on two distinct keys commutes provided the first key is already
bound (both orders then replace in place / append at the same position). -/
theorem mapSet_comm_of_mem {α : Type} {m : List (String × α)} {k1 k2 : String}
    (v1 v2 : α) (hm : (mapGet m k1).isSome) (h : k1 ≠ k2) :
    mapSet (mapSet m k1 v1) k2 v2 = mapSet (mapSet m k2 v2) k1 v1 := by
  induction m with
  | nil => simp [mapGet] at hm
  | cons p rest ih =>
    by_cases h1 : p.1 = k1
    · simp [mapSet, h1, h, Ne.symm h]
    · by_cases h2 : p.1 = k2
      · simp [mapSet, h1, h2, h, Ne.symm h]
      · have hm' : (mapGet rest k1).isSome := by
          simpa [mapGet, show (p.1 == k1) = false by simp [h1]] using hm
        simp [mapSet, h1, h2, ih hm']

/-- Setting one key leaves the presence of any key unchanged or adds it. -/
theorem mapGet_mapSet_isSome {α : Type} (m : List (String × α))
    {k : String} (k' : String) (v : α) (hm : (mapGet m k).isSome) :
    (mapGet (mapSet m k' v) k).isSome := by
  by_cases h : k = k'
  · subst h; simp [mapGet_mapSet_self]
  · rwa [mapGet_mapSet_ne m v h]

theorem findNode_some_id {nodes : List Node} {id : String} {n : Node}
    (h : findNode nodes id = some n) : n.id = id := by
  have := List.find?_some h
  simpa using this

theorem findNode_mem {nodes : List Node} {id : String} {n : Node}
    (h : findNode nodes id = some n) : n ∈ nodes :=
  List.mem_of_find?_eq_some h

theorem findNode_isSome_of_mem {nodes : List Node} {n : Node} (hn : n ∈ nodes) :
    (findNode nodes n.id).isSome := by
  rw [findNode, List.find?_isSome]
  exact ⟨n, hn, by simp⟩

theorem findNode_map_of_id (f : Node → Node) (hf : ∀ n, (f n).id = n.id)
    (nodes : List Node) (i : String) :
    findNode (nodes.map f) i = (findNode nodes i).map f := by
  induction nodes with
  | nil => simp [findNode]
  | cons n rest ih =>
    simp only [findNode, List.map_cons, List.find?_cons] at *
    rw [hf n]
    by_cases h : n.id = i
    · rw [show (n.id == i) = true by simp [h]]
      rfl
    · rw [show (n.id == i) = false by simp [h]]
      exact ih

theorem findNode_append (nodes₁ nodes₂ : List Node) (i : String) :
    findNode (nodes₁ ++ nodes₂) i =
      (findNode nodes₁ i).or (findNode nodes₂ i) := by
  simp [findNode, List.find?_append]

theorem patchNodes_preserves_id (id : String) (p : NodePatch) :
    ∀ n : Node, ((fun n : Node => if n.id == id then
      { n with data := applyPatch n.data p } else n) n).id = n.id := by
  intro n
  by_cases h : n.id = id <;> simp [h]

theorem findNode_patchNodes_self {nodes : List Node} {id : String}
    {n : Node} (p : NodePatch) (h : findNode nodes id = some n) :
    findNode (patchNodes nodes id p) id =
      some { n with data := applyPatch n.data p } := by
  rw [patchNodes, findNode_map_of_id _ (patchNodes_preserves_id id p), h]
  simp [findNode_some_id h]

theorem findNode_patchNodes_ne (nodes : List Node) {id id' : String}
    (p : NodePatch) (h : id' ≠ id) :
    findNode (patchNodes nodes id p) id' = findNode nodes id' := by
  rw [patchNodes, findNode_map_of_id _ (patchNodes_preserves_id id p)]
  cases hf : findNode nodes id' with
  | none => simp
  | some n =>
    have := findNode_some_id hf
    simp [this, h]

theorem patchNodes_of_not_mem {nodes : List Node} {id : String}
    (p : NodePatch) (h : ∀ n ∈ nodes, n.id ≠ id) :
    patchNodes nodes id p = nodes := by
  induction nodes with
  | nil => rfl
  | cons n rest ih =>
    have hn : (n.id == id) = false := by simp [h n (by simp)]
    have ih' := ih (fun m hm => h m (by simp [hm]))
    simp only [patchNodes, List.map_cons, hn, Bool.false_eq_true, if_false]
    rw [show List.map _ rest = patchNodes rest id p from rfl, ih']

theorem patchNodes_map_id (nodes : List Node) (id : String) (p : NodePatch) :
    (patchNodes nodes id p).map (·.id) = nodes.map (·.id) := by
  rw [patchNodes, List.map_map]
  congr 1
  funext n
  exact patchNodes_preserves_id id p n

theorem mapGet_buildDataMap_of_not_mem {nodes : List Node} {id : String}
    (acc : List (String × LoomNodeData)) (h : ∀ n ∈ nodes, n.id ≠ id) :
    mapGet (buildDataMap nodes acc) id = mapGet acc id := by
  induction nodes generalizing acc with
  | nil => rfl
  | cons n rest ih =>
    rw [buildDataMap, ih _ (fun m hm => h m (by simp [hm])),
      mapGet_mapSet_ne _ _ (Ne.symm (h n (by simp)))]

theorem mapGet_buildDataMap_of_mem {nodes : List Node} {id : String}
    {n0 : Node} (hnd : (nodes.map (·.id)).Nodup) (hn : n0 ∈ nodes)
    (hid : n0.id = id) (acc : List (String × LoomNodeData)) :
    mapGet (buildDataMap nodes acc) id = some n0.data := by
  induction nodes generalizing acc with
  | nil => simp at hn
  | cons n rest ih =>
    rw [List.map_cons, List.nodup_cons] at hnd
    rcases List.mem_cons.mp hn with h | h
    · subst h
      have hrest : ∀ m ∈ rest, m.id ≠ id := by
        intro m hm he
        exact hnd.1 (hid ▸ he ▸ List.mem_map_of_mem (·.id) hm)
      rw [buildDataMap, mapGet_buildDataMap_of_not_mem _ hrest, ← hid,
        mapGet_mapSet_self]
    · have hne : n.id ≠ id := by
        intro he
        exact hnd.1 (he ▸ hid ▸ List.mem_map_of_mem (·.id) h)
      rw [buildDataMap]
      exact ih hnd.2 h _

theorem mapGet_buildIndexMap_of_not_mem {nodes : List Node} {id : String}
    (i : Nat) (acc : List (String × Nat)) (h : ∀ n ∈ nodes, n.id ≠ id) :
    mapGet (buildIndexMap nodes i acc) id = mapGet acc id := by
  induction nodes generalizing i acc with
  | nil => rfl
  | cons n rest ih =>
    rw [buildIndexMap, ih _ _ (fun m hm => h m (by simp [hm])),
      mapGet_mapSet_ne _ _ (Ne.symm (h n (by simp)))]

theorem mapGet_buildIndexMap_getElem {nodes : List Node} {id : String}
    {j : Nat} (hnd : (nodes.map (·.id)).Nodup) (hj : j < nodes.length)
    (hid : nodes[j].id = id) (i : Nat) (acc : List (String × Nat)) :
    mapGet (buildIndexMap nodes i acc) id = some (i + j) := by
  induction nodes generalizing i j acc with
  | nil => simp at hj
  | cons n rest ih =>
    rw [List.map_cons, List.nodup_cons] at hnd
    cases j with
    | zero =>
      simp only [List.getElem_cons_zero] at hid
      have hrest : ∀ m ∈ rest, m.id ≠ id := by
        intro m hm he
        exact hnd.1 (hid ▸ he ▸ List.mem_map_of_mem (·.id) hm)
      rw [buildIndexMap, mapGet_buildIndexMap_of_not_mem _ _ hrest, ← hid,
        mapGet_mapSet_self]
      simp
    | succ j' =>
      simp only [List.getElem_cons_succ] at hid
      have hj' : j' < rest.length := by simpa using hj
      have hmem : rest[j'] ∈ rest := List.getElem_mem hj'
      have hne : n.id ≠ id := by
        intro he
        exact hnd.1 (he ▸ hid ▸ List.mem_map_of_mem (·.id) hmem)
      rw [buildIndexMap, ih hnd.2 hj' hid (i + 1) _]
      congr 1
      omega

theorem buildIndexMap_congr {nodes₁ nodes₂ : List Node}
    (h : nodes₁.map (·.id) = nodes₂.map (·.id)) (i : Nat)
    (acc : List (String × Nat)) :
    buildIndexMap nodes₁ i acc = buildIndexMap nodes₂ i acc := by
  induction nodes₁ generalizing nodes₂ i acc with
  | nil =>
    cases nodes₂ with
    | nil => rfl
    | cons m rest₂ => simp at h
  | cons n rest ih =>
    cases nodes₂ with
    | nil => simp at h
    | cons m rest₂ =>
      simp only [List.map_cons, List.cons.injEq] at h
      rw [buildIndexMap, buildIndexMap, h.1, ih h.2]

theorem buildDataMap_mapSet_of_not_mem {nodes : List Node} {id : String}
    (h : ∀ n ∈ nodes, n.id ≠ id) (v : LoomNodeData)
    {acc : List (String × LoomNodeData)} (hacc : (mapGet acc id).isSome) :
    buildDataMap nodes (mapSet acc id v) =
      mapSet (buildDataMap nodes acc) id v := by
  induction nodes generalizing acc with
  | nil => rfl
  | cons n rest ih =>
    rw [buildDataMap, buildDataMap,
      mapSet_comm_of_mem _ _ hacc (Ne.symm (h n (by simp))),
      ih (fun m hm => h m (by simp [hm])) (mapGet_mapSet_isSome _ _ _ hacc)]

theorem buildDataMap_patchNodes {nodes : List Node} {id : String} {n0 : Node}
    (p : NodePatch) (hnd : (nodes.map (·.id)).Nodup) (hn : n0 ∈ nodes)
    (hid : n0.id = id) (acc : List (String × LoomNodeData)) :
    buildDataMap (patchNodes nodes id p) acc =
      mapSet (buildDataMap nodes acc) id (applyPatch n0.data p) := by
  induction nodes generalizing acc with
  | nil => simp at hn
  | cons n rest ih =>
    rw [List.map_cons, List.nodup_cons] at hnd
    rcases List.mem_cons.mp hn with h | h
    · subst h
      have hrest : ∀ m ∈ rest, m.id ≠ id := by
        intro m hm he
        exact hnd.1 (hid ▸ he ▸ List.mem_map_of_mem (·.id) hm)
      have hhead : (n0.id == id) = true := by simp [hid]
      simp only [patchNodes, List.map_cons, hhead, if_true]
      rw [show List.map _ rest = patchNodes rest id p from rfl,
        patchNodes_of_not_mem p hrest, buildDataMap, buildDataMap]
      have hacc : (mapGet (mapSet acc n0.id n0.data) id).isSome := by
        rw [hid, mapGet_mapSet_self]; rfl
      rw [← buildDataMap_mapSet_of_not_mem hrest _ hacc]
      congr 1
      rw [hid, mapSet_mapSet_self]
    · have hne : n.id ≠ id := by
        intro he
        exact hnd.1 (he ▸ hid ▸ List.mem_map_of_mem (·.id) h)
      have hhead : (n.id == id) = false := by simp [hne]
      simp only [patchNodes, List.map_cons, hhead, Bool.false_eq_true, if_false]
      rw [show List.map _ rest = patchNodes rest id p from rfl, buildDataMap,
        buildDataMap]
      exact ih hnd.2 h _

theorem set_eq_patchNodes {nodes : List Node} {id : String} {j : Nat}
    {n : Node} (p : NodePatch) (hnd : (nodes.map (·.id)).Nodup)
    (hj : nodes[j]? = some n) (hid : n.id = id) :
    nodes.set j { n with data := applyPatch n.data p } =
      patchNodes nodes id p := by
  induction nodes generalizing j with
  | nil => simp at hj
  | cons m rest ih =>
    rw [List.map_cons, List.nodup_cons] at hnd
    cases j with
    | zero =>
      simp only [List.getElem?_cons_zero, Option.some.injEq] at hj
      obtain rfl := hj
      have hrest : ∀ x ∈ rest, x.id ≠ id := by
        intro x hx he
        exact hnd.1 (hid ▸ he ▸ List.mem_map_of_mem (·.id) hx)
      have hhead : (m.id == id) = true := by simp [hid]
      simp only [patchNodes, List.map_cons, hhead, if_true, List.set_cons_zero]
      rw [show List.map _ rest = patchNodes rest id p from rfl,
        patchNodes_of_not_mem p hrest]
    | succ j' =>
      simp only [List.getElem?_cons_succ] at hj
      have hmem : n ∈ rest := by
        rcases List.getElem?_eq_some_iff.mp hj with ⟨hlt, hg⟩
        exact hg ▸ List.getElem_mem hlt
      have hne : m.id ≠ id := by
        intro he
        exact hnd.1 (he ▸ hid ▸ List.mem_map_of_mem (·.id) hmem)
      have hhead : (m.id == id) = false := by simp [hne]
      simp only [patchNodes, List.map_cons, hhead, Bool.false_eq_true, if_false,
        List.set_cons_succ]
      rw [show List.map _ rest = patchNodes rest id p from rfl, ih hnd.2 hj]

/-- The store's maps are exactly what `rebuildIndex` derives from the node
array — the invariant every store-produced state satisfies, since every
structural mutation ends in `rebuildIndex()` and `patchNode` updates both in
lock step. -/
def StoreOk (s : GraphState) : Prop :=
  s.nodeDataMap = buildDataMap s.nodes [] ∧
    s.nodeIndexMap = buildIndexMap s.nodes 0 []

instance (s : GraphState) : Decidable (StoreOk s) := by
  unfold StoreOk
  infer_instance

/-- The initial values of the `$state` fields in `createGraphStore()`. -/
def initialState : GraphState :=
  { nodes := [], edges := [], nodeDataMap := [], nodeIndexMap := [],
    structureVersion := 0, structureScheduled := false,
    persistTimerPending := false, persistedGraph := none }

theorem storeOk_rebuildIndex (s : GraphState) : StoreOk (rebuildIndex s) := by
  constructor <;> rfl

theorem patchNode_absent {s : GraphState} {id : String} (p : NodePatch)
    (hok : StoreOk s) (h : ∀ n ∈ s.nodes, n.id ≠ id) :
    patchNode s id p = s := by
  have hidx : mapGet s.nodeIndexMap id = none := by
    rw [hok.2, mapGet_buildIndexMap_of_not_mem _ _ h]; rfl
  simp [patchNode, hidx]

theorem patchNode_present {s : GraphState} {id : String} {n0 : Node}
    (p : NodePatch) (hok : StoreOk s) (hnd : (s.nodes.map (·.id)).Nodup)
    (hn : n0 ∈ s.nodes) (hid : n0.id = id) :
    patchNode s id p =
      { s with nodes := patchNodes s.nodes id p
               nodeDataMap := mapSet s.nodeDataMap id (applyPatch n0.data p) } := by
  obtain ⟨j, hj, hje⟩ := List.mem_iff_getElem.mp hn
  have hidx : mapGet s.nodeIndexMap id = some j := by
    rw [hok.2, mapGet_buildIndexMap_getElem hnd hj (hje ▸ hid) 0 []]
    simp
  have hget : s.nodes[j]? = some n0 := by
    rw [List.getElem?_eq_some_iff]
    exact ⟨hj, hje⟩
  simp only [patchNode, hidx, hget]
  rw [set_eq_patchNodes p hnd hget hid]

theorem storeOk_patchNode {s : GraphState} {id : String} (p : NodePatch)
    (hok : StoreOk s) (hnd : (s.nodes.map (·.id)).Nodup) :
    StoreOk (patchNode s id p) := by
  by_cases h : ∃ n0 ∈ s.nodes, n0.id = id
  · obtain ⟨n0, hn, hid⟩ := h
    rw [patchNode_present p hok hnd hn hid]
    constructor
    · show mapSet s.nodeDataMap id _ = buildDataMap (patchNodes s.nodes id p) []
      rw [buildDataMap_patchNodes p hnd hn hid [], hok.1]
    · show s.nodeIndexMap = buildIndexMap (patchNodes s.nodes id p) 0 []
      rw [buildIndexMap_congr (patchNodes_map_id s.nodes id p) 0 [], hok.2]
  · push_neg at h
    rw [patchNode_absent p hok h]
    exact hok

theorem patchNode_untouched_fields (s : GraphState) (id : String)
    (p : NodePatch) :
    (patchNode s id p).edges = s.edges ∧
    (patchNode s id p).structureVersion = s.structureVersion ∧
    (patchNode s id p).structureScheduled = s.structureScheduled ∧
    (patchNode s id p).persistTimerPending = s.persistTimerPending ∧
    (patchNode s id p).persistedGraph = s.persistedGraph ∧
    (patchNode s id p).nodeIndexMap = s.nodeIndexMap := by
  rcases h1 : mapGet s.nodeIndexMap id with _ | idx
  · simp [patchNode, h1]
  · rcases h2 : s.nodes[idx]? with _ | node <;> simp [patchNode, h1, h2]

theorem patchNode_ids {s : GraphState} {id : String} (p : NodePatch)
    (hok : StoreOk s) (hnd : (s.nodes.map (·.id)).Nodup) :
    (patchNode s id p).nodes.map (·.id) = s.nodes.map (·.id) := by
  by_cases h : ∃ n0 ∈ s.nodes, n0.id = id
  · obtain ⟨n0, hn, hid⟩ := h
    rw [patchNode_present p hok hnd hn hid]
    exact patchNodes_map_id s.nodes id p
  · push_neg at h
    rw [patchNode_absent p hok h]

/-- The data the store's `nodeDataMap` should associate to an id, read from
the node array itself. -/
def nodeData (s : GraphState) (id : String) : Option LoomNodeData :=
  (findNode s.nodes id).map (·.data)

theorem mapGet_dataMap_eq_findNode {s : GraphState} (id : String)
    (hok : StoreOk s) (hnd : (s.nodes.map (·.id)).Nodup) :
    mapGet s.nodeDataMap id = nodeData s id := by
  cases hf : findNode s.nodes id with
  | none =>
    have h : ∀ n ∈ s.nodes, n.id ≠ id := by
      intro n hn he
      have := List.find?_eq_none.mp hf n hn
      simp [he] at this
    rw [hok.1, mapGet_buildDataMap_of_not_mem _ h, nodeData, hf]
    rfl
  | some n0 =>
    rw [hok.1,
      mapGet_buildDataMap_of_mem hnd (findNode_mem hf) (findNode_some_id hf),
      nodeData, hf]
    rfl

theorem nodeData_patchNode_self {s : GraphState} {id : String} (p : NodePatch)
    (hok : StoreOk s) (hnd : (s.nodes.map (·.id)).Nodup) :
    nodeData (patchNode s id p) id = (nodeData s id).map (applyPatch · p) := by
  by_cases h : ∃ n0 ∈ s.nodes, n0.id = id
  · obtain ⟨n0, hn, hid⟩ := h
    have hf : (findNode s.nodes id).isSome := by
      have := findNode_isSome_of_mem hn
      rwa [hid] at this
    obtain ⟨n1, hn1⟩ := Option.isSome_iff_exists.mp hf
    rw [patchNode_present p hok hnd hn hid]
    show nodeData _ id = _
    rw [nodeData, nodeData, hn1]
    show (findNode (patchNodes s.nodes id p) id).map _ = _
    rw [findNode_patchNodes_self p hn1]
    rfl
  · push_neg at h
    rw [patchNode_absent p hok h, nodeData]
    cases hf : findNode s.nodes id with
    | none => rfl
    | some n0 => exact absurd (findNode_some_id hf) (h n0 (findNode_mem hf))

theorem nodeData_patchNode_ne {s : GraphState} {id id' : String} (p : NodePatch)
    (hok : StoreOk s) (hnd : (s.nodes.map (·.id)).Nodup) (h : id' ≠ id) :
    nodeData (patchNode s id p) id' = nodeData s id' := by
  by_cases hex : ∃ n0 ∈ s.nodes, n0.id = id
  · obtain ⟨n0, hn, hid⟩ := hex
    rw [patchNode_present p hok hnd hn hid]
    show (findNode (patchNodes s.nodes id p) id').map _ = _
    rw [findNode_patchNodes_ne s.nodes p h]
    rfl
  · push_neg at hex
    rw [patchNode_absent p hok hex]

/-- C10 helper: the four single-node patch entry points of the store. -/
theorem patch_ops_are_patchNode (s : GraphState) (nodeId t : String)
    (bgen : Bool) (e : Option String) :
    updateTextSilent s nodeId t = patchNode s nodeId { text := some t } ∧
    setGenerating s nodeId bgen = patchNode s nodeId { isGenerating := some bgen } ∧
    setError s nodeId e = patchNode s nodeId { error := some e } ∧
    updateText s nodeId t = persist (patchNode s nodeId { text := some t }) :=
  ⟨rfl, rfl, rfl, rfl⟩

/-- C10: for a nodeId not present in the document, `updateText`,
`updateTextSilent`, `setGenerating` and `setError` are silent no-ops: none of
them throws (they are total functions), and each leaves every node, every
edge, both indices and the structural version unchanged (`updateText` still
restarts the text-persistence debounce timer, which is not among the
observables the claim lists). -/
theorem c10_missing_id_patches_are_noops (s : GraphState) (nodeId t : String)
    (bgen : Bool) (e : Option String) (hok : StoreOk s)
    (h : ∀ n ∈ s.nodes, n.id ≠ nodeId) :
    updateTextSilent s nodeId t = s ∧
    setGenerating s nodeId bgen = s ∧
    setError s nodeId e = s ∧
    (updateText s nodeId t).nodes = s.nodes ∧
    (updateText s nodeId t).edges = s.edges ∧
    (updateText s nodeId t).nodeDataMap = s.nodeDataMap ∧
    (updateText s nodeId t).nodeIndexMap = s.nodeIndexMap ∧
    (updateText s nodeId t).structureVersion = s.structureVersion := by
  have habs : ∀ p : NodePatch, patchNode s nodeId p = s := fun p =>
    patchNode_absent p hok h
  refine ⟨habs _, habs _, habs _, ?_, ?_, ?_, ?_, ?_⟩ <;>
    rw [updateText, habs _] <;> rfl

/-- C10 witness: concrete fresh store (root only), patched at the absent id
`"x"`. -/
theorem c10_witness :
    updateTextSilent (init initialState none "r") "x" "hi" =
      init initialState none "r" ∧
    setGenerating (init initialState none "r") "x" true =
      init initialState none "r" ∧
    setError (init initialState none "r") "x" (some "e") =
      init initialState none "r" ∧
    (updateText (init initialState none "r") "x" "hi").nodes =
      (init initialState none "r").nodes ∧
    (updateText (init initialState none "r") "x" "hi").edges =
      (init initialState none "r").edges ∧
    (updateText (init initialState none "r") "x" "hi").nodeDataMap =
      (init initialState none "r").nodeDataMap ∧
    (updateText (init initialState none "r") "x" "hi").nodeIndexMap =
      (init initialState none "r").nodeIndexMap ∧
    (updateText (init initialState none "r") "x" "hi").structureVersion =
      (init initialState none "r").structureVersion :=
  c10_missing_id_patches_are_noops _ _ _ _ _ (by decide) (by decide)

theorem incrementStructure_scheduled (s : GraphState) :
    (incrementStructure s).structureScheduled = true := by
  by_cases h : s.structureScheduled <;> simp [incrementStructure, h]

theorem incrementStructure_version (s : GraphState) :
    (incrementStructure s).structureVersion = s.structureVersion := by
  by_cases h : s.structureScheduled <;> simp [incrementStructure, h]

theorem addChildStreaming_version (s : GraphState) (p t : String) (g : Nat)
    (c : String) :
    ((addChildStreaming s p t g c).1).structureVersion = s.structureVersion := by
  rcases h : s.nodes.find? (fun n => n.id == p) with _ | q <;>
    simp [addChildStreaming, h, incrementStructure_version, persist,
      rebuildIndex]

theorem addChildStreaming_sched_mono (s : GraphState) (p t : String) (g : Nat)
    (c : String) (h : s.structureScheduled = true) :
    ((addChildStreaming s p t g c).1).structureScheduled = true := by
  rcases hf : s.nodes.find? (fun n => n.id == p) with _ | q
  · simpa [addChildStreaming, hf] using h
  · simp [addChildStreaming, hf, incrementStructure_scheduled]

theorem addChildStreaming_scheduled (s : GraphState) (p t : String) (g : Nat)
    (c : String) (h : (findNode s.nodes p).isSome) :
    ((addChildStreaming s p t g c).1).structureScheduled = true := by
  obtain ⟨q, hq⟩ := Option.isSome_iff_exists.mp h
  simp [addChildStreaming, show s.nodes.find? (fun n => n.id == p) = some q
    from hq, incrementStructure_scheduled]

theorem addChildStreaming_parent_kept (s : GraphState) (p t : String) (g : Nat)
    (c : String) (h : (findNode s.nodes p).isSome) :
    (findNode ((addChildStreaming s p t g c).1).nodes p).isSome := by
  obtain ⟨q, hq⟩ := Option.isSome_iff_exists.mp h
  simp only [addChildStreaming, show s.nodes.find? (fun n => n.id == p) = some q
    from hq]
  have hid : ∀ n : Node, ((fun n : Node => if n.id == p then
      { n with data := { n.data with childIds := n.data.childIds ++ [c] } }
      else n) n).id = n.id := by
    intro n
    by_cases hh : n.id = p <;> simp [hh]
  show (findNode ((incrementStructure (persist (rebuildIndex _))).nodes) p).isSome
  rw [show ∀ s' : GraphState, (incrementStructure s').nodes = s'.nodes from ?_]
  · show (findNode (List.map _ s.nodes ++ [_]) p).isSome
    rw [findNode_append, findNode_map_of_id _ hid s.nodes p, hq]
    rfl
  · intro s'
    by_cases hh : s'.structureScheduled <;> simp [incrementStructure, hh]

/-- 20 (or `n`) sequential `addChildStreaming` calls issued in one scheduling
turn, before any microtask runs. -/
def addStreamingN (s : GraphState) (parentId : String) (supply : Nat → String) :
    Nat → GraphState
  | 0 => s
  | k + 1 =>
    addStreamingN ((addChildStreaming s parentId "" 0 (supply k)).1) parentId
      supply k

theorem addStreamingN_spec (p : String) (supply : Nat → String) :
    ∀ (n : Nat) (s : GraphState), (findNode s.nodes p).isSome →
      (addStreamingN s p supply n).structureVersion = s.structureVersion ∧
      (findNode (addStreamingN s p supply n).nodes p).isSome ∧
      (s.structureScheduled = true →
        (addStreamingN s p supply n).structureScheduled = true) ∧
      (1 ≤ n → (addStreamingN s p supply n).structureScheduled = true)
  | 0, s, h => ⟨rfl, h, fun hs => hs, fun h1 => absurd h1 (by omega)⟩
  | n + 1, s, h => by
    have step := addStreamingN_spec p supply n
      ((addChildStreaming s p "" 0 (supply n)).1)
      (addChildStreaming_parent_kept s p "" 0 (supply n) h)
    refine ⟨?_, step.2.1, ?_, ?_⟩
    · rw [show addStreamingN s p supply (n + 1) =
        addStreamingN ((addChildStreaming s p "" 0 (supply n)).1) p supply n
        from rfl, step.1, addChildStreaming_version]
    · intro hs
      exact step.2.2.1 (addChildStreaming_sched_mono s p "" 0 (supply n) hs)
    · intro _
      exact step.2.2.1 (addChildStreaming_scheduled s p "" 0 (supply n) h)

/-- C8: any number `n ≥ 1` of `addChildStreaming` calls issued within one
scheduling turn leave the externally observable `structureVersion` untouched
during the turn, and draining the microtask queue once control returns to the
scheduler increments it exactly once. -/
theorem c8_structural_version_coalesced (s : GraphState) (p : String)
    (supply : Nat → String) (n : Nat) (h1 : (findNode s.nodes p).isSome)
    (h3 : 1 ≤ n) :
    (addStreamingN s p supply n).structureVersion = s.structureVersion ∧
    (runMicrotasks (addStreamingN s p supply n)).structureVersion =
      s.structureVersion + 1 := by
  obtain ⟨hv, _, _, hs⟩ := addStreamingN_spec p supply n s h1
  exact ⟨hv, by simp [runMicrotasks, hs h3, hv]⟩

/-- C8 witness: 20 streaming child additions on a freshly initialised store. -/
theorem c8_witness :
    (addStreamingN (init initialState none "r") "r"
      (fun i => "c" ++ toString i) 20).structureVersion =
      (init initialState none "r").structureVersion ∧
    (runMicrotasks (addStreamingN (init initialState none "r") "r"
      (fun i => "c" ++ toString i) 20)).structureVersion =
      (init initialState none "r").structureVersion + 1 :=
  c8_structural_version_coalesced _ _ _ _ (by decide) (by decide)

theorem incrementStructure_nodes (s : GraphState) :
    (incrementStructure s).nodes = s.nodes := by
  by_cases h : s.structureScheduled <;> simp [incrementStructure, h]

theorem incrementStructure_edges (s : GraphState) :
    (incrementStructure s).edges = s.edges := by
  by_cases h : s.structureScheduled <;> simp [incrementStructure, h]

theorem incrementStructure_nodeDataMap (s : GraphState) :
    (incrementStructure s).nodeDataMap = s.nodeDataMap := by
  by_cases h : s.structureScheduled <;> simp [incrementStructure, h]

theorem incrementStructure_nodeIndexMap (s : GraphState) :
    (incrementStructure s).nodeIndexMap = s.nodeIndexMap := by
  by_cases h : s.structureScheduled <;> simp [incrementStructure, h]

theorem incrementStructure_persistTimerPending (s : GraphState) :
    (incrementStructure s).persistTimerPending = s.persistTimerPending := by
  by_cases h : s.structureScheduled <;> simp [incrementStructure, h]

theorem incrementStructure_persistedGraph (s : GraphState) :
    (incrementStructure s).persistedGraph = s.persistedGraph := by
  by_cases h : s.structureScheduled <;> simp [incrementStructure, h]

theorem map_if_id_of_not_mem {nodes : List Node} {c : String} (f : Node → Node)
    (h : ∀ n ∈ nodes, n.id ≠ c) :
    nodes.map (fun n => if n.id == c then f n else n) = nodes := by
  induction nodes with
  | nil => rfl
  | cons n rest ih =>
    have hn : (n.id == c) = false := by simp [h n (by simp)]
    simp only [List.map_cons, hn, Bool.false_eq_true, if_false,
      ih (fun m hm => h m (by simp [hm]))]

/-- C4 (amended): `addChildStreaming` is identical to `addChild` except that
the created child starts with `isGenerating = true` — the node arrays agree
up to flipping that one flag on the new child, the edges, version signal and
returned id agree exactly, and both leave the maps consistent — but its
persistence differs: `addChild` writes the snapshot immediately, while
`addChildStreaming` only restarts the 500 ms debounce timer and writes
nothing until that timer fires. -/
theorem c4_addChildStreaming_vs_addChild (s : GraphState) (p t : String)
    (g : Nat) (c : String)
    (hp : (s.nodes.find? (fun n => n.id == p)).isSome)
    (hc : ∀ n ∈ s.nodes, n.id ≠ c) :
    (addChildStreaming s p t g c).2 = (addChild s p t g c).2 ∧
    (addChildStreaming s p t g c).1.nodes =
      (addChild s p t g c).1.nodes.map (fun n =>
        if n.id == c then { n with data := { n.data with isGenerating := true } }
        else n) ∧
    (addChildStreaming s p t g c).1.edges = (addChild s p t g c).1.edges ∧
    (addChildStreaming s p t g c).1.structureVersion =
      (addChild s p t g c).1.structureVersion ∧
    (addChildStreaming s p t g c).1.structureScheduled =
      (addChild s p t g c).1.structureScheduled ∧
    StoreOk (addChild s p t g c).1 ∧
    StoreOk (addChildStreaming s p t g c).1 ∧
    (addChild s p t g c).1.persistTimerPending = false ∧
    (addChild s p t g c).1.persistedGraph =
      some ((addChild s p t g c).1.nodes, (addChild s p t g c).1.edges) ∧
    (addChildStreaming s p t g c).1.persistTimerPending = true ∧
    (addChildStreaming s p t g c).1.persistedGraph = s.persistedGraph ∧
    (firePersistTimer (addChildStreaming s p t g c).1).persistedGraph =
      some ((addChildStreaming s p t g c).1.nodes,
        (addChildStreaming s p t g c).1.edges) := by
  obtain ⟨q, hq⟩ := Option.isSome_iff_exists.mp hp
  have hupd : ∀ n ∈ s.nodes.map (fun n =>
      if n.id == p then
        { n with data := { n.data with childIds := n.data.childIds ++ [c] } }
      else n), n.id ≠ c := by
    intro n hn
    obtain ⟨m, hm, hme⟩ := List.mem_map.mp hn
    have : n.id = m.id := by
      subst hme
      by_cases hh : m.id = p <;> simp [hh]
    rw [this]
    exact hc m hm
  have hnodes : (addChildStreaming s p t g c).1.nodes =
      (addChild s p t g c).1.nodes.map (fun n =>
        if n.id == c then { n with data := { n.data with isGenerating := true } }
        else n) := by
    simp only [addChild, addChildStreaming, hq, incrementStructure_nodes,
      persist, persistImmediate, rebuildIndex]
    rw [List.map_append, map_if_id_of_not_mem _ hupd]
    simp
  refine ⟨by simp [addChild, addChildStreaming, hq], hnodes, ?_, ?_, ?_,
    ?_, ?_, ?_, ?_, ?_, ?_, ?_⟩ <;>
    simp only [addChild, addChildStreaming, hq, incrementStructure_nodes,
      incrementStructure_edges, incrementStructure_nodeDataMap,
      incrementStructure_nodeIndexMap, incrementStructure_persistTimerPending,
      incrementStructure_persistedGraph, incrementStructure_version,
      incrementStructure_scheduled, StoreOk, firePersistTimer,
      persist, persistImmediate, rebuildIndex] <;> simp

/-- C4 witness: concrete store with root `"r"`, streaming child `"c"`. -/
theorem c4_witness :
    (addChildStreaming (init initialState none "r") "r" "t" 0 "c").2 =
      (addChild (init initialState none "r") "r" "t" 0 "c").2 ∧
    (addChildStreaming (init initialState none "r") "r" "t" 0 "c").1.nodes =
      (addChild (init initialState none "r") "r" "t" 0 "c").1.nodes.map (fun n =>
        if n.id == "c" then { n with data := { n.data with isGenerating := true } }
        else n) ∧
    (addChildStreaming (init initialState none "r") "r" "t" 0 "c").1.edges =
      (addChild (init initialState none "r") "r" "t" 0 "c").1.edges ∧
    (addChildStreaming (init initialState none "r") "r" "t" 0 "c").1.structureVersion =
      (addChild (init initialState none "r") "r" "t" 0 "c").1.structureVersion ∧
    (addChildStreaming (init initialState none "r") "r" "t" 0 "c").1.structureScheduled =
      (addChild (init initialState none "r") "r" "t" 0 "c").1.structureScheduled ∧
    StoreOk (addChild (init initialState none "r") "r" "t" 0 "c").1 ∧
    StoreOk (addChildStreaming (init initialState none "r") "r" "t" 0 "c").1 ∧
    (addChild (init initialState none "r") "r" "t" 0 "c").1.persistTimerPending = false ∧
    (addChild (init initialState none "r") "r" "t" 0 "c").1.persistedGraph =
      some ((addChild (init initialState none "r") "r" "t" 0 "c").1.nodes,
        (addChild (init initialState none "r") "r" "t" 0 "c").1.edges) ∧
    (addChildStreaming (init initialState none "r") "r" "t" 0 "c").1.persistTimerPending = true ∧
    (addChildStreaming (init initialState none "r") "r" "t" 0 "c").1.persistedGraph =
      (init initialState none "r").persistedGraph ∧
    (firePersistTimer (addChildStreaming (init initialState none "r") "r" "t" 0 "c").1).persistedGraph =
      some ((addChildStreaming (init initialState none "r") "r" "t" 0 "c").1.nodes,
        (addChildStreaming (init initialState none "r") "r" "t" 0 "c").1.edges) :=
  c4_addChildStreaming_vs_addChild _ _ _ _ _ (by decide) (by decide)

/-- C4 counterexample: the claim says `addChildStreaming` "persists the
document immediately with no debounce"; on a fresh store (no snapshot ever
written) the call leaves the persisted snapshot empty and merely arms the
debounce timer, so the freshly added child is not yet persisted. -/
theorem c4_counterexample :
    (addChildStreaming (init initialState none "r") "r" "t" 0 "c").1.persistedGraph =
      none ∧
    (addChildStreaming (init initialState none "r") "r" "t" 0 "c").1.persistedGraph ≠
      some ((addChildStreaming (init initialState none "r") "r" "t" 0 "c").1.nodes,
        (addChildStreaming (init initialState none "r") "r" "t" 0 "c").1.edges) ∧
    (addChildStreaming (init initialState none "r") "r" "t" 0 "c").1.persistTimerPending =
      true := by
  refine ⟨by decide, ?_, by decide⟩
  intro h
  rw [show (addChildStreaming (init initialState none "r") "r" "t" 0 "c").1.persistedGraph =
    none from by decide] at h
  exact Option.noConfusion h

/-- C5: importing `{nodes: [], edges: []}` fails with a message containing
"no nodes"; importing a non-empty document in which no node has
`isRoot = true` fails with a message containing "no root"; and every
validation failure (missing arrays, empty nodes, no root, malformed node)
returns with the prior document — nodes and edges included — completely
unchanged, because the source throws before assigning anything. -/
theorem c5_import_validation_failures (s : GraphState) (d : ImportDoc) :
    importGraph s { nodes := some [], edges := some [] } =
      (s, .error "Invalid graph: no nodes") ∧
    List.IsInfix "no nodes".data "Invalid graph: no nodes".data ∧
    ((∃ ns es, d.nodes = some ns ∧ d.edges = some es ∧ ns ≠ [] ∧
        ∀ n ∈ ns, (n.data.map (·.isRoot)).getD false = false) →
      importGraph s d = (s, .error "Invalid graph: no root node")) ∧
    List.IsInfix "no root".data "Invalid graph: no root node".data ∧
    (∀ e, (importGraph s d).2 = .error e → (importGraph s d).1 = s) := by
  refine ⟨by simp [importGraph], by decide, ?_, by decide, ?_⟩
  · rintro ⟨ns, es, hn, he, hne, hroot⟩
    have hlen : ¬ns.length = 0 := by
      simpa [List.length_eq_zero] using hne
    have hany : ns.any (fun n => (n.data.map (·.isRoot)).getD false) = false := by
      rw [List.any_eq_false]
      intro n hn'
      simp [hroot n hn']
    simp [importGraph, hn, he, hlen, hany]
  · intro e h
    rcases hn : d.nodes with _ | ns <;> rcases he : d.edges with _ | es <;>
      simp only [importGraph, hn, he]
    split
    · rfl
    · split
      · rfl
      · split
        · rfl
        · simp only [importGraph, hn, he] at h
          rw [if_neg (by assumption), if_neg (by assumption),
            if_neg (by assumption)] at h
          exact absurd h (by simp)

/-- A raw import node that is not a root. -/
def noRootRawNode : RawNode :=
  { id := "a", type := "loomNode", position := (0, 0),
    data := some { id := "a", text := some "x", parentId := none,
                   childIds := [], isRoot := false, isGenerating := false,
                   generatedTextStart := 0 } }

/-- An import document with one non-root node and no root. -/
def noRootDoc : ImportDoc :=
  { nodes := some [noRootRawNode], edges := some [] }

/-- C5 witness: the empty-document and no-root rejections on a concrete
store. -/
theorem c5_witness :
    importGraph (init initialState none "r") { nodes := some [], edges := some [] } =
      (init initialState none "r", .error "Invalid graph: no nodes") ∧
    importGraph (init initialState none "r") noRootDoc =
      (init initialState none "r", .error "Invalid graph: no root node") ∧
    (importGraph (init initialState none "r") noRootDoc).1 =
      init initialState none "r" := by
  have thm := c5_import_validation_failures (init initialState none "r") noRootDoc
  have himp := thm.2.2.1 ⟨[noRootRawNode], [], rfl, rfl, by decide, by decide⟩
  exact ⟨thm.1, himp,
    thm.2.2.2.2 "Invalid graph: no root node" (by rw [himp])⟩

/-- The transformation `importGraph` applies to every accepted node. -/
def importedNode (n : Node) : Node :=
  { n with type := "loomNode", data := { n.data with isGenerating := false } }

theorem rawToNode_nodeToRaw (n : Node) :
    rawToNode (nodeToRaw n) = importedNode n := rfl

/-- C6: exporting any valid document (non-empty, with a root, ids non-empty)
and importing the export succeeds, commits exactly the exported nodes with
`isGenerating` forced to false, preserves the edges verbatim (hence node
count, edge count, root text and every parent/child link), and leaves the
store indices consistent. -/
theorem c6_export_import_round_trip (s s' : GraphState)
    (h1 : s.nodes ≠ []) (h2 : ∃ n ∈ s.nodes, n.data.isRoot = true)
    (h3 : ∀ n ∈ s.nodes, n.id ≠ "") :
    (importGraph s' (exportGraph s)).2 = .ok () ∧
    (importGraph s' (exportGraph s)).1.nodes = s.nodes.map importedNode ∧
    (importGraph s' (exportGraph s)).1.edges = s.edges ∧
    (importGraph s' (exportGraph s)).1.nodes.length = s.nodes.length ∧
    (∀ m ∈ (importGraph s' (exportGraph s)).1.nodes,
      m.data.isGenerating = false) ∧
    (∀ n ∈ s.nodes, ∃ m ∈ (importGraph s' (exportGraph s)).1.nodes,
      m.id = n.id ∧ m.data.text = n.data.text ∧
      m.data.parentId = n.data.parentId ∧
      m.data.childIds = n.data.childIds ∧ m.data.isRoot = n.data.isRoot ∧
      m.data.generatedTextStart = n.data.generatedTextStart) ∧
    StoreOk (importGraph s' (exportGraph s)).1 := by
  have hlen : ¬(s.nodes.map nodeToRaw).length = 0 := by
    intro h0
    rw [List.length_map] at h0
    exact h1 (List.length_eq_zero.mp h0)
  have hany : (s.nodes.map nodeToRaw).any
      (fun n => (n.data.map (·.isRoot)).getD false) = true := by
    rw [List.any_eq_true]
    obtain ⟨n, hn, hr⟩ := h2
    exact ⟨nodeToRaw n, List.mem_map_of_mem _ hn, by simp [nodeToRaw, hr]⟩
  have hmal : (s.nodes.map nodeToRaw).any (fun n =>
      n.id == "" || n.data.isNone ||
      (n.data.map (fun d' => d'.text.isNone)).getD true) = false := by
    rw [List.any_eq_false]
    intro n hn
    obtain ⟨m, hm, hme⟩ := List.mem_map.mp hn
    subst hme
    simp [nodeToRaw, h3 m hm]
  have hres : importGraph s' (exportGraph s) =
      (incrementStructure (persistImmediate (rebuildIndex
        { s' with nodes := (s.nodes.map nodeToRaw).map rawToNode
                  edges := s.edges })), .ok ()) := by
    simp [importGraph, exportGraph, hlen, hany, hmal, h1]
  have hmm : (s.nodes.map nodeToRaw).map rawToNode =
      s.nodes.map importedNode := by
    rw [List.map_map]
    exact List.map_congr_left (fun n _ => rawToNode_nodeToRaw n)
  have hnodes : (importGraph s' (exportGraph s)).1.nodes =
      s.nodes.map importedNode := by
    rw [hres]
    show (incrementStructure _).nodes = _
    rw [incrementStructure_nodes]
    simpa [persistImmediate, rebuildIndex] using hmm
  have hedges : (importGraph s' (exportGraph s)).1.edges = s.edges := by
    rw [hres]
    show (incrementStructure _).edges = _
    rw [incrementStructure_edges]
    simp [persistImmediate, rebuildIndex]
  refine ⟨by rw [hres], hnodes, hedges, by rw [hnodes]; simp, ?_, ?_, ?_⟩
  · intro m hm
    rw [hnodes] at hm
    obtain ⟨n, _, hne⟩ := List.mem_map.mp hm
    subst hne
    rfl
  · intro n hn
    refine ⟨importedNode n, ?_, rfl, rfl, rfl, rfl, rfl, rfl⟩
    rw [hnodes]
    exact List.mem_map_of_mem _ hn
  · rw [hres]
    constructor
    · show (incrementStructure _).nodeDataMap =
        buildDataMap (incrementStructure _).nodes []
      rw [incrementStructure_nodeDataMap, incrementStructure_nodes]
      rfl
    · show (incrementStructure _).nodeIndexMap =
        buildIndexMap (incrementStructure _).nodes 0 []
      rw [incrementStructure_nodeIndexMap, incrementStructure_nodes]
      rfl

/-- C6 witness: round trip of a two-node document (root `"r"` with text via
`updateText`, child `"c"`). -/
theorem c6_witness :
    (importGraph initialState (exportGraph
      (addChild (updateText (init initialState none "r") "r" "Once upon")
        "r" "Once upon a time" 9 "c").1)).2 = .ok () ∧
    (importGraph initialState (exportGraph
      (addChild (updateText (init initialState none "r") "r" "Once upon")
        "r" "Once upon a time" 9 "c").1)).1.nodes =
      (addChild (updateText (init initialState none "r") "r" "Once upon")
        "r" "Once upon a time" 9 "c").1.nodes.map importedNode ∧
    (importGraph initialState (exportGraph
      (addChild (updateText (init initialState none "r") "r" "Once upon")
        "r" "Once upon a time" 9 "c").1)).1.edges =
      (addChild (updateText (init initialState none "r") "r" "Once upon")
        "r" "Once upon a time" 9 "c").1.edges := by
  have thm := c6_export_import_round_trip
    (addChild (updateText (init initialState none "r") "r" "Once upon")
      "r" "Once upon a time" 9 "c").1 initialState
    (by decide) (by decide) (by decide)
  exact ⟨thm.1, thm.2.1, thm.2.2.1⟩

theorem contains_eq_false_of_not_mem {l : List String} {x : String}
    (h : x ∉ l) : l.contains x = false := by
  simpa using h

theorem contains_eq_true_of_mem {l : List String} {x : String}
    (h : x ∈ l) : l.contains x = true := by
  simpa using h

theorem findNode_eq_of_mem_nodup {nodes : List Node} {n0 : Node} {id : String}
    (hnd : (nodes.map (·.id)).Nodup) (hn : n0 ∈ nodes) (hid : n0.id = id) :
    findNode nodes id = some n0 := by
  induction nodes with
  | nil => simp at hn
  | cons n rest ih =>
    rw [List.map_cons, List.nodup_cons] at hnd
    rcases List.mem_cons.mp hn with h | h
    · subst h
      simp [findNode, hid]
    · have hne : n.id ≠ id := by
        intro he
        exact hnd.1 (he ▸ hid ▸ List.mem_map_of_mem (·.id) h)
      rw [findNode, List.find?_cons, show (n.id == id) = false by simp [hne]]
      exact ih hnd.2 h

/-- C2 (amended): when `markError` fires for a not-yet-terminal id whose
buffer is no longer than the prompt, the node's text is restored to exactly
the prompt; when tokens were received (buffer strictly longer), the node
keeps exactly the partial streamed buffer — nothing is appended to the text.
In both cases the supplied error message (exactly as supplied, be it empty)
is recorded in the node's separate `error` field, the generating flag is
cleared, the id becomes terminal, every other node is untouched, and the
live-request counter is decremented by one. -/
theorem c2_markError_prompt_restore_or_partial_keep (b : BatchState)
    (id msg : String) {n0 : Node} {buf prompt : String}
    (hnc : id ∉ b.completed)
    (hbuf : mapGet b.buffers id = some buf)
    (hpr : mapGet b.prompts id = some prompt)
    (hok : StoreOk b.graph) (hnd : (b.graph.nodes.map (·.id)).Nodup)
    (hn : n0 ∈ b.graph.nodes) (hid : n0.id = id) :
    nodeData (markError b id msg).graph id =
      some { n0.data with
        text := if buf.length ≤ prompt.length then prompt else buf,
        error := some msg, isGenerating := false } ∧
    (∀ id', id' ≠ id →
      nodeData (markError b id msg).graph id' = nodeData b.graph id') ∧
    (markError b id msg).activeRequests = b.activeRequests - 1 ∧
    (markError b id msg).completed = b.completed ++ [id] ∧
    StoreOk (markError b id msg).graph := by
  have hc : b.completed.contains id = false := contains_eq_false_of_not_mem hnc
  have hfn : findNode b.graph.nodes id = some n0 :=
    findNode_eq_of_mem_nodup hnd hn hid
  have hdata : nodeData b.graph id = some n0.data := by
    rw [nodeData, hfn]; rfl
  have hg1ok : StoreOk (updateTextSilent b.graph id
      (if buf.length ≤ prompt.length then prompt else buf)) :=
    storeOk_patchNode _ hok hnd
  have hg1nd : ((updateTextSilent b.graph id
      (if buf.length ≤ prompt.length then prompt else buf)).nodes.map
        (·.id)).Nodup := by
    rw [updateTextSilent, patchNode_ids _ hok hnd]
    exact hnd
  have hg2ok : StoreOk (setError (updateTextSilent b.graph id
      (if buf.length ≤ prompt.length then prompt else buf)) id (some msg)) :=
    storeOk_patchNode _ hg1ok hg1nd
  have hg2nd : (((setError (updateTextSilent b.graph id
      (if buf.length ≤ prompt.length then prompt else buf)) id
        (some msg))).nodes.map (·.id)).Nodup := by
    rw [setError, patchNode_ids _ hg1ok hg1nd]
    exact hg1nd
  have hgraph : (markError b id msg).graph =
      setGenerating (setError (updateTextSilent b.graph id
        (if buf.length ≤ prompt.length then prompt else buf)) id (some msg))
        id false := by
    rw [markError, if_neg (by simpa using hnc)]
    simp only [hbuf, hpr, Option.getD_some]
    by_cases hle : buf.length ≤ prompt.length <;> simp [hle]
  refine ⟨?_, ?_, ?_, ?_, ?_⟩
  · rw [hgraph, setGenerating, nodeData_patchNode_self _ hg2ok hg2nd,
      setError, nodeData_patchNode_self _ hg1ok hg1nd,
      updateTextSilent, nodeData_patchNode_self _ hok hnd, hdata]
    rfl
  · intro id' hne
    rw [hgraph, setGenerating, nodeData_patchNode_ne _ hg2ok hg2nd hne,
      setError, nodeData_patchNode_ne _ hg1ok hg1nd hne,
      updateTextSilent, nodeData_patchNode_ne _ hok hnd hne]
  · rw [markError, if_neg (by simpa using hnc)]
  · rw [markError, if_neg (by simpa using hnc)]
  · rw [hgraph, setGenerating]
    apply storeOk_patchNode _ hg2ok hg2nd

/-- The graph of a single-request batch: root `"r"`, streaming child `"c"`
seeded with prompt `"P"` (`generatedTextStart = 1`). -/
def sampleGraph : GraphState :=
  (addChildStreaming (init initialState none "r") "r" "P" 1 "c").1

/-- The batch state `runBatchGeneration` builds for that single request,
just before any transport event arrives. -/
def sampleBatch : BatchState :=
  { graph := sampleGraph
    buffers := [("c", "P")]
    prompts := [("c", "P")]
    rafScheduled := [("c", false)]
    completed := []
    activeRequests := 1
    rafQueue := [] }

/-- The streaming child node of `sampleGraph`. -/
def sampleChild : Node :=
  { id := "c", type := "loomNode", position := (0, 0),
    data := { id := "c", text := "P", parentId := some "r", childIds := [],
              isRoot := false, isGenerating := true,
              generatedTextStart := 1 },
    width := 280, height := 160 }

/-- C2 witness: a zero-token failure on the sample batch restores the prompt
`"P"` and records the message. -/
theorem c2_witness :
    nodeData (markError sampleBatch "c" "boom").graph "c" =
      some { sampleChild.data with text := "P", error := some "boom",
                                   isGenerating := false } ∧
    (markError sampleBatch "c" "boom").activeRequests =
      sampleBatch.activeRequests - 1 ∧
    (markError sampleBatch "c" "boom").completed = ["c"] := by
  have thm := @c2_markError_prompt_restore_or_partial_keep sampleBatch "c"
    "boom" sampleChild "P" "P"
    (by decide) (by decide) (by decide) (by decide) (by decide)
    (by decide) (by decide)
  exact ⟨thm.1, thm.2.2.1, thm.2.2.2.1⟩

/-- C2 counterexample: the claim says a node that received tokens keeps the
partial text "with a visible error marker appended to the text".  In the code
nothing is ever appended: after streaming `"ab"` (buffer `"Pab"`) and an
error event, the node's final text is exactly `"P" ++ "ab"` — the buffer
verbatim — and the error message lives only in the separate `error` field. -/
theorem c2_counterexample :
    (nodeData (runEvents sampleBatch
      [GenEvent.token "c" "ab", GenEvent.error "c" "boom"]).graph "c").map
        (·.text) = some ("P" ++ "ab") ∧
    (nodeData (runEvents sampleBatch
      [GenEvent.token "c" "ab", GenEvent.error "c" "boom"]).graph "c").map
        (·.error) = some (some "boom") := by
  decide

/-- C3 (amended): once an id is terminal (in `completed`), subsequent `done`
and `error` events are fully ignored — `markDone`/`markError` return the
state unchanged, so text, generating flag, error field and the live-request
counter all stay put (their callbacks still call the debounced
`graphStore.persist()`).  A subsequent `token` event, however, is NOT ignored:
it leaves the graph, the counter and the terminal set unchanged at the moment
it arrives, but it still appends to the id's buffer and schedules a flush
that will overwrite the node's text at the next animation frame. -/
theorem c3_terminal_idempotence (b : BatchState) (id msg tok : String)
    (h : id ∈ b.completed) :
    markDone b id = b ∧
    markError b id msg = b ∧
    (stepEvent b (GenEvent.done id)).graph = persist b.graph ∧
    (stepEvent b (GenEvent.error id msg)).graph = persist b.graph ∧
    (stepEvent b (GenEvent.done id)).activeRequests = b.activeRequests ∧
    (stepEvent b (GenEvent.error id msg)).activeRequests = b.activeRequests ∧
    (onToken b id tok).graph = b.graph ∧
    (onToken b id tok).activeRequests = b.activeRequests ∧
    (onToken b id tok).completed = b.completed ∧
    (onToken b id tok).buffers =
      (match mapGet b.buffers id with
       | none => b.buffers
       | some buf => mapSet b.buffers id (buf ++ tok)) := by
  have hc : b.completed.contains id = true := contains_eq_true_of_mem h
  have hdone : markDone b id = b := by
    rw [markDone, if_pos (by simp [h])]
  have herr : markError b id msg = b := by
    rw [markError, if_pos (by simp [h])]
  have htok : (onToken b id tok).graph = b.graph ∧
      (onToken b id tok).activeRequests = b.activeRequests ∧
      (onToken b id tok).completed = b.completed ∧
      (onToken b id tok).buffers =
        (match mapGet b.buffers id with
         | none => b.buffers
         | some buf => mapSet b.buffers id (buf ++ tok)) := by
    rcases hb : mapGet b.buffers id with _ | buf
    · simp [onToken, hb]
    · by_cases hr : (mapGet b.rafScheduled id).getD false <;>
        simp [onToken, hb, hr]
  exact ⟨hdone, herr, by simp [stepEvent, hdone], by simp [stepEvent, herr],
    by simp [stepEvent, hdone, persist], by simp [stepEvent, herr, persist],
    htok.1, htok.2.1, htok.2.2.1, htok.2.2.2⟩

/-- C3 witness: on the sample batch whose id `"c"` has just been marked done,
late `done`/`error` events change nothing. -/
theorem c3_witness :
    markDone (stepEvent sampleBatch (GenEvent.done "c")) "c" =
      stepEvent sampleBatch (GenEvent.done "c") ∧
    markError (stepEvent sampleBatch (GenEvent.done "c")) "c" "late" =
      stepEvent sampleBatch (GenEvent.done "c") ∧
    (onToken (stepEvent sampleBatch (GenEvent.done "c")) "c" "X").graph =
      (stepEvent sampleBatch (GenEvent.done "c")).graph := by
  have thm := c3_terminal_idempotence (stepEvent sampleBatch (GenEvent.done "c"))
    "c" "late" "X" (by decide)
  exact ⟨thm.1, thm.2.1, thm.2.2.2.2.2.2.1⟩

/-- C3 counterexample: the claim says every post-terminal event for an id is
ignored and causes no further change to the node's text.  Concretely: after
`done("c")` the node's text is the final buffer `"P"` and the id is terminal,
yet a late `token("c","X")` followed by the scheduled animation-frame flush
rewrites the node's text to `"PX"`. -/
theorem c3_counterexample :
    "c" ∈ (stepEvent sampleBatch (GenEvent.done "c")).completed ∧
    (nodeData (stepEvent sampleBatch (GenEvent.done "c")).graph "c").map
      (·.text) = some "P" ∧
    (nodeData (runEvents (stepEvent sampleBatch (GenEvent.done "c"))
      [GenEvent.token "c" "X", GenEvent.frame]).graph "c").map
        (·.text) = some "PX" := by
  decide

/-! ### The childIds/parentId consistency invariant (claim C1) -/

/-- The stored `childIds` lists agree with the relation derived from
`parentId` links: a node `m` lists `n` as parent exactly when `n` lists `m`
as child, every child id and every parent id resolves to an existing node,
and no child is listed twice. -/
def ChildLinkOk (nodes : List Node) : Prop :=
  (∀ n ∈ nodes, ∀ m ∈ nodes,
    (m.data.parentId = some n.id ↔ m.id ∈ n.data.childIds)) ∧
  (∀ n ∈ nodes, ∀ c ∈ n.data.childIds, ∃ m ∈ nodes, m.id = c) ∧
  (∀ m ∈ nodes, m.data.parentId = none ∨
    ∃ n ∈ nodes, some n.id = m.data.parentId) ∧
  (∀ n ∈ nodes, n.data.childIds.Nodup)

instance (nodes : List Node) : Decidable (ChildLinkOk nodes) := by
  unfold ChildLinkOk
  infer_instance

/-- Transport of `ChildLinkOk` along a per-node map that does not change ids
or links. -/
theorem childLinkOk_map {nodes : List Node} (f : Node → Node)
    (hid : ∀ n, (f n).id = n.id)
    (hpar : ∀ n, (f n).data.parentId = n.data.parentId)
    (hch : ∀ n, (f n).data.childIds = n.data.childIds)
    (hok : ChildLinkOk nodes) : ChildLinkOk (nodes.map f) := by
  obtain ⟨h1, h2, h3, h4⟩ := hok
  refine ⟨?_, ?_, ?_, ?_⟩
  · intro n hn m hm
    obtain ⟨n0, hn0, rfl⟩ := List.mem_map.mp hn
    obtain ⟨m0, hm0, rfl⟩ := List.mem_map.mp hm
    rw [hid, hpar, hch, hid]
    exact h1 n0 hn0 m0 hm0
  · intro n hn c hc
    obtain ⟨n0, hn0, rfl⟩ := List.mem_map.mp hn
    rw [hch] at hc
    obtain ⟨m, hm, hme⟩ := h2 n0 hn0 c hc
    exact ⟨f m, List.mem_map_of_mem f hm, (hid m).trans hme⟩
  · intro m hm
    obtain ⟨m0, hm0, rfl⟩ := List.mem_map.mp hm
    rw [hpar]
    rcases h3 m0 hm0 with h | ⟨n, hn, hne⟩
    · exact Or.inl h
    · exact Or.inr ⟨f n, List.mem_map_of_mem f hn, (congrArg some (hid n)).trans hne⟩
  · intro n hn
    obtain ⟨n0, hn0, rfl⟩ := List.mem_map.mp hn
    rw [hch]
    exact h4 n0 hn0

theorem childLinkOk_singleton_root (rid : String) :
    ChildLinkOk [createRootNode rid] := by
  refine ⟨?_, ?_, ?_, ?_⟩ <;> simp [createRootNode]

/-- Core of the `addChild`/`addChildStreaming` invariant preservation: the
updated array appends one fresh child under an existing parent. -/
theorem childLinkOk_append_child {nodes : List Node} {p c : String} (ch : Node)
    (hch_id : ch.id = c) (hch_par : ch.data.parentId = some p)
    (hch_children : ch.data.childIds = [])
    (hp : ∃ q ∈ nodes, q.id = p) (hc : ∀ n ∈ nodes, n.id ≠ c)
    (hok : ChildLinkOk nodes) :
    ChildLinkOk ((nodes.map (fun n =>
      if n.id == p then
        { n with data := { n.data with childIds := n.data.childIds ++ [c] } }
      else n)) ++ [ch]) := by
  obtain ⟨h1, h2, h3, h4⟩ := hok
  obtain ⟨q, hq, hqid⟩ := hp
  have hpc : p ≠ c := fun he => hc q hq (hqid.trans he)
  have hcnotchild : ∀ n ∈ nodes, c ∉ n.data.childIds := by
    intro n hn hmem
    obtain ⟨m, hm, hme⟩ := h2 n hn c hmem
    exact hc m hm hme
  set f : Node → Node := fun n =>
    if n.id == p then
      { n with data := { n.data with childIds := n.data.childIds ++ [c] } }
    else n with hf
  have hfid : ∀ n, (f n).id = n.id := by
    intro n
    by_cases h : n.id = p <;> simp [hf, h]
  have hfpar : ∀ n, (f n).data.parentId = n.data.parentId := by
    intro n
    by_cases h : n.id = p <;> simp [hf, h]
  have hfch : ∀ n, (f n).data.childIds =
      if n.id = p then n.data.childIds ++ [c] else n.data.childIds := by
    intro n
    by_cases h : n.id = p <;> simp [hf, h]
  have hmem_new : ∀ x, x ∈ nodes.map f ++ [ch] ↔
      (∃ x0 ∈ nodes, x = f x0) ∨ x = ch := by
    intro x
    simp only [List.mem_append, List.mem_map, List.mem_singleton]
    constructor
    · rintro (⟨x0, hx0, rfl⟩ | h)
      · exact Or.inl ⟨x0, hx0, rfl⟩
      · exact Or.inr h
    · rintro (⟨x0, hx0, rfl⟩ | h)
      · exact Or.inl ⟨x0, hx0, rfl⟩
      · exact Or.inr h
  refine ⟨?_, ?_, ?_, ?_⟩
  · intro n hn m hm
    rcases (hmem_new n).mp hn with ⟨n0, hn0, rfl⟩ | rfl <;>
      rcases (hmem_new m).mp hm with ⟨m0, hm0, rfl⟩ | rfl
    · rw [hfpar, hfid, hfid, hfch]
      by_cases hnp : n0.id = p
      · rw [if_pos hnp, List.mem_append, List.mem_singleton]
        constructor
        · intro hpar0
          exact Or.inl ((h1 n0 hn0 m0 hm0).mp hpar0)
        · rintro (hin | he)
          · exact (h1 n0 hn0 m0 hm0).mpr hin
          · exact absurd he (hc m0 hm0)
      · rw [if_neg hnp]
        exact h1 n0 hn0 m0 hm0
    · rw [hfid, hfch, hch_par]
      by_cases hnp : n0.id = p
      · rw [if_pos hnp, hnp, hch_id, List.mem_append, List.mem_singleton]
        simp
      · rw [if_neg hnp, hch_id]
        constructor
        · intro he
          have hpe : p = n0.id := by simpa using he
          exact absurd hpe.symm hnp
        · intro hin
          exact absurd hin (hcnotchild n0 hn0)
    · rw [hfid, hfpar, hch_children]
      rw [hch_id]
      constructor
      · intro hpar0
        rcases h3 m0 hm0 with hnone | ⟨n', hn', hne⟩
        · rw [hnone] at hpar0
          exact absurd hpar0 (by simp)
        · rw [← hne] at hpar0
          have : n'.id = c := by simpa using hpar0
          exact absurd this (hc n' hn')
      · intro hin
        exact absurd hin (List.not_mem_nil _)
    · rw [hch_par, hch_id, hch_children]
      constructor
      · intro he
        have : p = c := by simpa using he
        exact absurd this hpc
      · intro hin
        exact absurd hin (List.not_mem_nil _)
  · intro n hn c' hc'
    rcases (hmem_new n).mp hn with ⟨n0, hn0, rfl⟩ | rfl
    · rw [hfch] at hc'
      by_cases hnp : n0.id = p
      · rw [if_pos hnp, List.mem_append, List.mem_singleton] at hc'
        rcases hc' with hin | rfl
        · obtain ⟨m, hm, hme⟩ := h2 n0 hn0 c' hin
          exact ⟨f m, (hmem_new (f m)).mpr (Or.inl ⟨m, hm, rfl⟩),
            (hfid m).trans hme⟩
        · exact ⟨ch, (hmem_new ch).mpr (Or.inr rfl), hch_id⟩
      · rw [if_neg hnp] at hc'
        obtain ⟨m, hm, hme⟩ := h2 n0 hn0 c' hc'
        exact ⟨f m, (hmem_new (f m)).mpr (Or.inl ⟨m, hm, rfl⟩),
          (hfid m).trans hme⟩
    · rw [hch_children] at hc'
      exact absurd hc' (List.not_mem_nil _)
  · intro m hm
    rcases (hmem_new m).mp hm with ⟨m0, hm0, rfl⟩ | rfl
    · rw [hfpar]
      rcases h3 m0 hm0 with hnone | ⟨n', hn', hne⟩
      · exact Or.inl hnone
      · exact Or.inr ⟨f n', (hmem_new (f n')).mpr (Or.inl ⟨n', hn', rfl⟩),
          (congrArg some (hfid n')).trans hne⟩
    · rw [hch_par]
      exact Or.inr ⟨f q, (hmem_new (f q)).mpr (Or.inl ⟨q, hq, rfl⟩),
        by rw [hfid, hqid]⟩
  · intro n hn
    rcases (hmem_new n).mp hn with ⟨n0, hn0, rfl⟩ | rfl
    · rw [hfch]
      by_cases hnp : n0.id = p
      · rw [if_pos hnp]
        exact List.Nodup.append (h4 n0 hn0) (List.nodup_singleton c)
          (by simpa using hcnotchild n0 hn0)
      · rw [if_neg hnp]
        exact h4 n0 hn0
    · rw [hch_children]
      exact List.nodup_nil

theorem childLinkOk_addChild {s : GraphState} {p c : String} (t : String)
    (g : Nat) (hc : ∀ n ∈ s.nodes, n.id ≠ c) (hok : ChildLinkOk s.nodes) :
    ChildLinkOk ((addChild s p t g c).1).nodes := by
  rcases hq : s.nodes.find? (fun n => n.id == p) with _ | q
  · simpa [addChild, hq] using hok
  · have hqmem : q ∈ s.nodes := List.mem_of_find?_eq_some hq
    have hqid : q.id = p := by simpa using List.find?_some hq
    simp only [addChild, hq, incrementStructure_nodes, persistImmediate,
      rebuildIndex]
    exact childLinkOk_append_child _ rfl rfl rfl ⟨q, hqmem, hqid⟩ hc hok

theorem childLinkOk_addChildStreaming {s : GraphState} {p c : String}
    (t : String) (g : Nat) (hc : ∀ n ∈ s.nodes, n.id ≠ c)
    (hok : ChildLinkOk s.nodes) :
    ChildLinkOk ((addChildStreaming s p t g c).1).nodes := by
  rcases hq : s.nodes.find? (fun n => n.id == p) with _ | q
  · simpa [addChildStreaming, hq] using hok
  · have hqmem : q ∈ s.nodes := List.mem_of_find?_eq_some hq
    have hqid : q.id = p := by simpa using List.find?_some hq
    simp only [addChildStreaming, hq, incrementStructure_nodes,
      persistImmediate, rebuildIndex]
    exact childLinkOk_append_child _ rfl rfl rfl ⟨q, hqmem, hqid⟩ hc hok

/-! ### Rootedness and the descendant traversal (claims C1 and C7) -/

/-- Length of the `parentId` chain from `id` up to the root, if it reaches a
root node within `fuel` lookups.  A document is connected and acyclic in the
tree sense exactly when every node has such a finite chain. -/
def parentDepth (nodes : List Node) : Nat → String → Option Nat
  | 0, _ => none
  | fuel + 1, id =>
    (findNode nodes id).bind (fun n =>
      if n.data.isRoot then some 0
      else n.data.parentId.bind (fun p =>
        (parentDepth nodes fuel p).map (· + 1)))

/-- Every node's parent chain reaches the root within `nodes.length` steps:
the decidable form of "the tree is connected and acyclic". -/
def Rooted (nodes : List Node) : Prop :=
  ∀ n ∈ nodes, (parentDepth nodes nodes.length n.id).isSome

instance (nodes : List Node) : Decidable (Rooted nodes) := by
  unfold Rooted
  infer_instance

/-- The `isRoot` flag agrees with a null `parentId`. -/
def RootFlagOk (nodes : List Node) : Prop :=
  ∀ n ∈ nodes, n.data.isRoot = true ↔ n.data.parentId = none

instance (nodes : List Node) : Decidable (RootFlagOk nodes) := by
  unfold RootFlagOk
  infer_instance

theorem parentDepth_mono {nodes : List Node} :
    ∀ {f f' : Nat} {id : String} {d : Nat}, f ≤ f' →
      parentDepth nodes f id = some d → parentDepth nodes f' id = some d
  | 0, _, _, _, _, h => by simp [parentDepth] at h
  | f + 1, f' + 1, id, d, hle, h => by
    rcases hfn : findNode nodes id with _ | n
    · rw [parentDepth, hfn] at h
      exact absurd h (by simp)
    · rw [parentDepth, hfn, Option.some_bind] at h
      rw [parentDepth, hfn, Option.some_bind]
      by_cases hr : n.data.isRoot = true
      · rwa [if_pos hr] at h ⊢
      · rw [if_neg hr] at h ⊢
        rcases hp : n.data.parentId with _ | p
        · rw [hp] at h
          exact absurd h (by simp)
        · rw [hp, Option.some_bind] at h
          rw [Option.some_bind]
          obtain ⟨d', hd', rfl⟩ := Option.map_eq_some'.mp h
          rw [parentDepth_mono (Nat.le_of_succ_le_succ hle) hd']
          rfl

theorem parentDepth_unique {nodes : List Node} {f f' : Nat} {id : String}
    {d d' : Nat} (h : parentDepth nodes f id = some d)
    (h' : parentDepth nodes f' id = some d') : d = d' := by
  rcases Nat.le_total f f' with hle | hle
  · have h2 := parentDepth_mono hle h
    rw [h2] at h'
    exact Option.some.inj h'
  · have h2 := parentDepth_mono hle h'
    rw [h2] at h
    exact (Option.some.inj h).symm

/-- One parent→child step following `childIds`. -/
def childStep (nodes : List Node) (a b : String) : Prop :=
  ∃ n ∈ nodes, n.id = a ∧ b ∈ n.data.childIds

/-- `b` is `a` or a transitive descendant of `a`, following `childIds`. -/
def Reaches (nodes : List Node) (a b : String) : Prop :=
  Relation.ReflTransGen (childStep nodes) a b

/-- A child is one level deeper than its parent. -/
theorem depth_child {nodes : List Node} (hnd : (nodes.map (·.id)).Nodup)
    (hok : ChildLinkOk nodes) (hroot : RootFlagOk nodes) {n : Node} {c : String}
    (hn : n ∈ nodes) (hc : c ∈ n.data.childIds) {f : Nat} {d : Nat}
    (hd : parentDepth nodes f c = some d) :
    ∃ d', parentDepth nodes f n.id = some d' ∧ d = d' + 1 := by
  obtain ⟨mc, hmc, hmcid⟩ := hok.2.1 n hn c hc
  have hpar : mc.data.parentId = some n.id :=
    (hok.1 n hn mc hmc).mpr (hmcid ▸ hc)
  have hnr : mc.data.isRoot = false := by
    rcases hb : mc.data.isRoot with _ | _
    · rfl
    · have h0 := (hroot mc hmc).mp hb
      rw [h0] at hpar
      exact absurd hpar (by simp)
  rcases f with _ | f'
  · simp [parentDepth] at hd
  · rw [parentDepth, ← hmcid, findNode_eq_of_mem_nodup hnd hmc rfl,
      Option.some_bind, hnr] at hd
    simp only [Bool.false_eq_true, if_false] at hd
    rw [hpar, Option.some_bind] at hd
    obtain ⟨d', hd', rfl⟩ := Option.map_eq_some'.mp hd
    exact ⟨d', parentDepth_mono (Nat.le_succ f') hd', rfl⟩

/-- Walking down `childIds` from `a` can only increase the chain depth. -/
theorem reaches_depth {nodes : List Node} (hnd : (nodes.map (·.id)).Nodup)
    (hok : ChildLinkOk nodes) (hroot : RootFlagOk nodes) {a b : String}
    (h : Reaches nodes a b) {f : Nat} {db : Nat}
    (hdb : parentDepth nodes f b = some db) :
    ∃ da fa, parentDepth nodes fa a = some da ∧ da ≤ db := by
  induction h using Relation.ReflTransGen.head_induction_on with
  | refl => exact ⟨db, f, hdb, Nat.le_refl db⟩
  | head hstep _ ih =>
    obtain ⟨dc, fc, hdc, hle⟩ := ih
    obtain ⟨n, hn, hnid, hchild⟩ := hstep
    obtain ⟨d', hd', rfl⟩ := depth_child hnd hok hroot hn hchild hdc
    exact ⟨d', fc, hnid ▸ hd', Nat.le_trans (Nat.le_succ d') hle⟩

/-- No node lists itself as its own child (in a rooted document). -/
theorem not_self_child {nodes : List Node} (hnd : (nodes.map (·.id)).Nodup)
    (hok : ChildLinkOk nodes) (hroot : RootFlagOk nodes)
    (hrooted : Rooted nodes) {n : Node} (hn : n ∈ nodes) :
    n.id ∉ n.data.childIds := by
  intro hmem
  obtain ⟨d, hd⟩ := Option.isSome_iff_exists.mp (hrooted n hn)
  obtain ⟨d', hd', he⟩ := depth_child hnd hok hroot hn hmem hd
  rw [parentDepth_unique hd hd'] at he
  omega

/-- A node reachable from `a` never lists `a` among its children (no cycles
back to `a` in a rooted document). -/
theorem no_cycle_back {nodes : List Node} (hnd : (nodes.map (·.id)).Nodup)
    (hok : ChildLinkOk nodes) (hroot : RootFlagOk nodes)
    (hrooted : Rooted nodes) {a x : String} (hr : Reaches nodes a x)
    {nx : Node} (hnx : nx ∈ nodes) (hnxid : nx.id = x)
    (hmem : a ∈ nx.data.childIds) : False := by
  obtain ⟨ma, hma, hmaid⟩ := hok.2.1 nx hnx a hmem
  obtain ⟨da, hda⟩ := Option.isSome_iff_exists.mp (hrooted ma hma)
  rw [hmaid] at hda
  obtain ⟨dx, hdx, hex⟩ := depth_child hnd hok hroot hnx hmem hda
  obtain ⟨da', fa', hda', hle⟩ := reaches_depth hnd hok hroot hr (hnxid ▸ hdx)
  rw [parentDepth_unique hda' hda] at hle
  omega

theorem setInsert_eq_append {l : List String} {x : String} (h : x ∉ l) :
    setInsert l x = l ++ [x] := by
  rw [setInsert, if_neg (by simpa using h)]

theorem subset_setInsert (l : List String) (x : String) :
    l ⊆ setInsert l x := by
  by_cases h : x ∈ l
  · rw [setInsert, if_pos (by simpa using h)]
    exact List.Subset.refl l
  · rw [setInsert_eq_append h]
    exact List.subset_append_left l [x]

theorem mem_setInsert_self (l : List String) (x : String) :
    x ∈ setInsert l x := by
  by_cases h : x ∈ l
  · rw [setInsert, if_pos (by simpa using h)]
    exact h
  · rw [setInsert_eq_append h]
    simp

theorem collect_acc_subset (nodes : List Node) :
    ∀ (fuel : Nat) (queue acc : List String),
      acc ⊆ collectToDelete nodes fuel queue acc
  | 0, _, _ => List.Subset.refl _
  | _ + 1, [], _ => List.Subset.refl _
  | fuel + 1, cur :: rest, acc => by
    rw [collectToDelete]
    exact List.Subset.trans (subset_setInsert acc cur)
      (collect_acc_subset nodes fuel _ _)

theorem nodes_id_inj {nodes : List Node} (hnd : (nodes.map (·.id)).Nodup)
    {a b : Node} (ha : a ∈ nodes) (hb : b ∈ nodes) (he : a.id = b.id) :
    a = b :=
  List.inj_on_of_nodup_map hnd ha hb he

theorem nodup_length_le_ids {nodes : List Node} {l : List String}
    (hnd : l.Nodup) (hsub : ∀ y ∈ l, ∃ ny ∈ nodes, ny.id = y) :
    l.length ≤ nodes.length := by
  have h1 : l.toFinset.card = l.length := List.toFinset_card_of_nodup hnd
  have h2 : l.toFinset ⊆ (nodes.map (·.id)).toFinset := by
    intro y hy
    rw [List.mem_toFinset] at hy ⊢
    obtain ⟨ny, hny, hnye⟩ := hsub y hy
    exact hnye ▸ List.mem_map_of_mem (·.id) hny
  calc l.length = l.toFinset.card := h1.symm
    _ ≤ (nodes.map (·.id)).toFinset.card := Finset.card_le_card h2
    _ ≤ (nodes.map (·.id)).length := List.toFinset_card_le _
    _ = nodes.length := List.length_map ..

/-- The full specification of the `deleteNode` descendant traversal on a
well-formed document: given enough fuel, the collected set contains the
initial queue and accumulator, consists exactly of ids reachable from the
traversal roots, is closed under `childIds`, and has no duplicates. -/
theorem collect_main {nodes : List Node} (hnd : (nodes.map (·.id)).Nodup)
    (hok : ChildLinkOk nodes) (hroot : RootFlagOk nodes)
    (hrooted : Rooted nodes) (target : String) :
    ∀ (fuel : Nat) (queue acc : List String),
      (∀ y ∈ queue, Reaches nodes target y ∧ ∃ ny ∈ nodes, ny.id = y) →
      (∀ y ∈ acc, Reaches nodes target y ∧ ∃ ny ∈ nodes, ny.id = y) →
      (queue ++ acc).Nodup →
      (∀ y ∈ queue, y = target ∨
        ∃ x ∈ acc, ∃ nx ∈ nodes, nx.id = x ∧ y ∈ nx.data.childIds) →
      (∀ y ∈ acc, y = target ∨
        ∃ x ∈ acc, ∃ nx ∈ nodes, nx.id = x ∧ y ∈ nx.data.childIds) →
      (∀ y ∈ acc, ∀ ny ∈ nodes, ny.id = y →
        ∀ c ∈ ny.data.childIds, c ∈ acc ∨ c ∈ queue) →
      nodes.length + 1 ≤ fuel + acc.length →
      (acc ⊆ collectToDelete nodes fuel queue acc) ∧
      (queue ⊆ collectToDelete nodes fuel queue acc) ∧
      (∀ y ∈ collectToDelete nodes fuel queue acc,
        Reaches nodes target y ∧ ∃ ny ∈ nodes, ny.id = y) ∧
      (∀ y ∈ collectToDelete nodes fuel queue acc, ∀ ny ∈ nodes, ny.id = y →
        ∀ c ∈ ny.data.childIds, c ∈ collectToDelete nodes fuel queue acc) ∧
      (collectToDelete nodes fuel queue acc).Nodup := by
  intro fuel
  induction fuel with
  | zero =>
    intro queue acc _ hacc hnodup _ _ _ hbound
    exfalso
    have hlen : acc.length ≤ nodes.length :=
      nodup_length_le_ids (List.Nodup.of_append_right hnodup)
        (fun y hy => (hacc y hy).2)
    omega
  | succ fuel ih =>
    intro queue acc hq hacc hnodup hqgen haccgen hclose hbound
    match queue with
    | [] =>
      rw [show collectToDelete nodes (fuel + 1) [] acc = acc from rfl]
      refine ⟨List.Subset.refl _, by simp, hacc, ?_,
        List.Nodup.of_append_right hnodup⟩
      intro y hy ny hny hnye c hc
      rcases hclose y hy ny hny hnye c hc with h | h
      · exact h
      · exact absurd h (List.not_mem_nil c)
    | cur :: rest =>
      obtain ⟨hcur_reach, ncur, hncur, hncurid⟩ := hq cur (by simp)
      have hfind : findNode nodes cur = some ncur :=
        findNode_eq_of_mem_nodup hnd hncur hncurid
      have hcur_notin_acc : cur ∉ acc := by
        have := hnodup
        rw [List.cons_append, List.nodup_cons] at this
        exact fun hmem => this.1 (List.mem_append_right rest hmem)
      have hcur_notin_rest : cur ∉ rest := by
        have := hnodup
        rw [List.cons_append, List.nodup_cons] at this
        exact fun hmem => this.1 (List.mem_append_left acc hmem)
      have hacc' : setInsert acc cur = acc ++ [cur] :=
        setInsert_eq_append hcur_notin_acc
      have hstep : collectToDelete nodes (fuel + 1) (cur :: rest) acc =
          collectToDelete nodes fuel (ncur.data.childIds.reverse ++ rest)
            (setInsert acc cur) := by
        rw [collectToDelete]
        have : nodes.find? (fun n => n.id == cur) = some ncur := hfind
        rw [this]
      -- children of `cur` never collide with anything already seen
      have hchild_fresh : ∀ c ∈ ncur.data.childIds,
          c ∉ rest ∧ c ∉ acc ∧ c ≠ cur := by
        intro c hc
        have hcnot_target : c ≠ target := by
          intro he
          exact no_cycle_back hnd hok hroot hrooted hcur_reach hncur hncurid
            (he ▸ hc)
        obtain ⟨mc, hmc, hmcid⟩ := hok.2.1 ncur hncur c hc
        have hmc_par : mc.data.parentId = some ncur.id :=
          (hok.1 ncur hncur mc hmc).mpr (hmcid ▸ hc)
        have hgen_absurd : ∀ x ∈ acc, ∀ nx ∈ nodes, nx.id = x →
            c ∈ nx.data.childIds → False := by
          intro x hx nx hnx hnxid hcnx
          have hmc_par' : mc.data.parentId = some nx.id :=
            (hok.1 nx hnx mc hmc).mpr (hmcid ▸ hcnx)
          have : ncur.id = nx.id := by
            rw [hmc_par] at hmc_par'
            exact Option.some.inj hmc_par'
          have : cur = x := hncurid ▸ hnxid ▸ this
          exact hcur_notin_acc (this ▸ hx)
        refine ⟨?_, ?_, ?_⟩
        · intro hmem
          rcases hqgen c (by simp [hmem]) with he | ⟨x, hx, nx, hnx, hnxid, hcnx⟩
          · exact hcnot_target he
          · exact hgen_absurd x hx nx hnx hnxid hcnx
        · intro hmem
          rcases haccgen c hmem with he | ⟨x, hx, nx, hnx, hnxid, hcnx⟩
          · exact hcnot_target he
          · exact hgen_absurd x hx nx hnx hnxid hcnx
        · intro he
          exact not_self_child hnd hok hroot hrooted hncur (hncurid ▸ he ▸ hc)
      have hreach_child : ∀ c ∈ ncur.data.childIds, Reaches nodes target c := by
        intro c hc
        exact Relation.ReflTransGen.tail hcur_reach ⟨ncur, hncur, hncurid, hc⟩
      -- the recursive call's invariants
      have hq' : ∀ y ∈ ncur.data.childIds.reverse ++ rest,
          Reaches nodes target y ∧ ∃ ny ∈ nodes, ny.id = y := by
        intro y hy
        rcases List.mem_append.mp hy with hy | hy
        · rw [List.mem_reverse] at hy
          exact ⟨hreach_child y hy, hok.2.1 ncur hncur y hy⟩
        · exact hq y (by simp [hy])
      have hacc'mem : ∀ y, y ∈ setInsert acc cur ↔ y ∈ acc ∨ y = cur := by
        intro y
        rw [hacc']
        simp
      have haccinv' : ∀ y ∈ setInsert acc cur,
          Reaches nodes target y ∧ ∃ ny ∈ nodes, ny.id = y := by
        intro y hy
        rcases (hacc'mem y).mp hy with hy | rfl
        · exact hacc y hy
        · exact ⟨hcur_reach, ncur, hncur, hncurid⟩
      have hnodup' : ((ncur.data.childIds.reverse ++ rest) ++
          setInsert acc cur).Nodup := by
        rw [hacc']
        have hrestacc : (rest ++ acc).Nodup := by
          have := hnodup
          rw [List.cons_append, List.nodup_cons] at this
          exact this.2
        have hchild_nodup : ncur.data.childIds.reverse.Nodup :=
          List.nodup_reverse.mpr (hok.2.2.2 ncur hncur)
        rw [List.append_assoc, List.nodup_append]
        refine ⟨hchild_nodup, ?_, ?_⟩
        · rw [List.nodup_append]
          refine ⟨List.Nodup.of_append_left hrestacc, ?_, ?_⟩
          · rw [List.nodup_append]
            refine ⟨List.Nodup.of_append_right hrestacc,
              List.nodup_singleton cur, ?_⟩
            intro a ha hb
            rw [List.mem_singleton] at hb
            exact hcur_notin_acc (hb ▸ ha)
          · intro a ha hb
            rcases List.mem_append.mp hb with hb | hb
            · have h9 := hrestacc
              rw [List.nodup_append] at h9
              exact h9.2.2 ha hb
            · rw [List.mem_singleton] at hb
              exact hcur_notin_rest (hb ▸ ha)
        · intro a ha hb
          rw [List.mem_reverse] at ha
          obtain ⟨h1, h2, h3⟩ := hchild_fresh a ha
          rcases List.mem_append.mp hb with hb | hb
          · exact h1 hb
          · rcases List.mem_append.mp hb with hb | hb
            · exact h2 hb
            · rw [List.mem_singleton] at hb
              exact h3 hb
      have hqgen' : ∀ y ∈ ncur.data.childIds.reverse ++ rest, y = target ∨
          ∃ x ∈ setInsert acc cur, ∃ nx ∈ nodes,
            nx.id = x ∧ y ∈ nx.data.childIds := by
        intro y hy
        rcases List.mem_append.mp hy with hy | hy
        · rw [List.mem_reverse] at hy
          exact Or.inr ⟨cur, mem_setInsert_self acc cur, ncur, hncur,
            hncurid, hy⟩
        · rcases hqgen y (by simp [hy]) with he | ⟨x, hx, nx, hnx, hnxid, hyx⟩
          · exact Or.inl he
          · exact Or.inr ⟨x, subset_setInsert acc cur hx, nx, hnx, hnxid, hyx⟩
      have haccgen' : ∀ y ∈ setInsert acc cur, y = target ∨
          ∃ x ∈ setInsert acc cur, ∃ nx ∈ nodes,
            nx.id = x ∧ y ∈ nx.data.childIds := by
        intro y hy
        rcases (hacc'mem y).mp hy with hy | heq
        · rcases haccgen y hy with he | ⟨x, hx, nx, hnx, hnxid, hyx⟩
          · exact Or.inl he
          · exact Or.inr ⟨x, subset_setInsert acc cur hx, nx, hnx, hnxid, hyx⟩
        · rcases hqgen cur (by simp) with he | ⟨x, hx, nx, hnx, hnxid, hyx⟩
          · exact Or.inl (heq.trans he)
          · refine Or.inr ⟨x, subset_setInsert acc cur hx, nx, hnx, hnxid, ?_⟩
            rw [heq]
            exact hyx
      have hclose' : ∀ y ∈ setInsert acc cur, ∀ ny ∈ nodes, ny.id = y →
          ∀ c ∈ ny.data.childIds, c ∈ setInsert acc cur ∨
            c ∈ ncur.data.childIds.reverse ++ rest := by
        intro y hy ny hny hnye c hc
        rcases (hacc'mem y).mp hy with hy | heq
        · rcases hclose y hy ny hny hnye c hc with h | h
          · exact Or.inl (subset_setInsert acc cur h)
          · rcases List.mem_cons.mp h with h | h
            · exact Or.inl (h ▸ mem_setInsert_self acc cur)
            · exact Or.inr (List.mem_append_right _ h)
        · have h8 : ny = ncur :=
            nodes_id_inj hnd hny hncur ((hnye.trans heq).trans hncurid.symm)
          subst h8
          exact Or.inr (List.mem_append_left rest (List.mem_reverse.mpr hc))
      have hbound' : nodes.length + 1 ≤ fuel + (setInsert acc cur).length := by
        rw [hacc', List.length_append, List.length_singleton]
        omega
      obtain ⟨ra, rq, rsound, rclosed, rnodup⟩ := ih
        (ncur.data.childIds.reverse ++ rest) (setInsert acc cur)
        hq' haccinv' hnodup' hqgen' haccgen' hclose' hbound'
      rw [hstep]
      refine ⟨?_, ?_, rsound, rclosed, rnodup⟩
      · exact List.Subset.trans (subset_setInsert acc cur) ra
      · intro y hy
        rcases List.mem_cons.mp hy with rfl | hy
        · exact ra (mem_setInsert_self acc y)
        · exact rq (List.mem_append_right _ hy)

/-- The id set `deleteNode` collects for a target present in a well-formed
document is exactly the set of ids reachable from the target via `childIds`. -/
theorem collectD_spec {s : GraphState} {nodeId : String}
    (hnd : (s.nodes.map (·.id)).Nodup) (hok : ChildLinkOk s.nodes)
    (hroot : RootFlagOk s.nodes) (hrooted : Rooted s.nodes) {tn : Node}
    (htn : tn ∈ s.nodes) (htid : tn.id = nodeId) :
    (∀ y, y ∈ collectToDelete s.nodes (s.nodes.length + 1) [nodeId] [] ↔
      Reaches s.nodes nodeId y) ∧
    (collectToDelete s.nodes (s.nodes.length + 1) [nodeId] []).Nodup := by
  obtain ⟨_, rq, rsound, rclosed, rnodup⟩ :=
    collect_main hnd hok hroot hrooted nodeId (s.nodes.length + 1) [nodeId] []
      (fun y hy => by
        rw [List.mem_singleton] at hy
        subst hy
        exact ⟨Relation.ReflTransGen.refl, tn, htn, htid⟩)
      (by simp) (by simp) (fun y hy => Or.inl (by simpa using hy))
      (by simp) (by simp) (by simp)
  refine ⟨fun y => ⟨fun hy => (rsound y hy).1, fun hy => ?_⟩, rnodup⟩
  induction hy with
  | refl => exact rq (by simp)
  | tail hr hstep ih =>
    obtain ⟨n, hn, hnid, hc⟩ := hstep
    exact rclosed _ ih n hn hnid _ hc

/-- The set of ids `deleteNode` removes. -/
def deleteSet (s : GraphState) (nodeId : String) : List String :=
  collectToDelete s.nodes (s.nodes.length + 1) [nodeId] []

/-- The per-node fixup `deleteNode` applies to the surviving nodes: the
former parent loses the deleted id from its `childIds`. -/
def deleteFix (parentId : Option String) (nodeId : String) (n : Node) : Node :=
  if some n.id == parentId then
    { n with data := { n.data with
        childIds := n.data.childIds.filter (fun c => c != nodeId) } }
  else n

theorem deleteFix_id (pid : Option String) (nid : String) (n : Node) :
    (deleteFix pid nid n).id = n.id := by
  rw [deleteFix]
  split <;> rfl

theorem deleteFix_parentId (pid : Option String) (nid : String) (n : Node) :
    (deleteFix pid nid n).data.parentId = n.data.parentId := by
  rw [deleteFix]
  split <;> rfl

theorem deleteFix_isRoot (pid : Option String) (nid : String) (n : Node) :
    (deleteFix pid nid n).data.isRoot = n.data.isRoot := by
  rw [deleteFix]
  split <;> rfl

theorem deleteFix_text (pid : Option String) (nid : String) (n : Node) :
    (deleteFix pid nid n).data.text = n.data.text := by
  rw [deleteFix]
  split <;> rfl

theorem deleteFix_childIds (pid : Option String) (nid : String) (n : Node) :
    (deleteFix pid nid n).data.childIds =
      if some n.id == pid then n.data.childIds.filter (fun c => c != nid)
      else n.data.childIds := by
  rw [deleteFix]
  split <;> simp_all

theorem deleteNode_eq_of_found {s : GraphState} {nodeId : String} {tn : Node}
    (hfind : s.nodes.find? (fun n => n.id == nodeId) = some tn)
    (hnr : tn.data.isRoot = false) :
    deleteNode s nodeId = incrementStructure (persistImmediate (rebuildIndex
      { s with
          nodes := (s.nodes.filter
            (fun n => !((deleteSet s nodeId).contains n.id))).map
              (deleteFix tn.data.parentId nodeId)
          edges := s.edges.filter (fun e =>
            !((deleteSet s nodeId).contains e.source) &&
            !((deleteSet s nodeId).contains e.target)) })) := by
  simp only [deleteNode, hfind]
  rw [if_neg (by simp [hnr])]
  rfl

theorem deleteNode_missing {s : GraphState} {nodeId : String}
    (hfind : s.nodes.find? (fun n => n.id == nodeId) = none) :
    deleteNode s nodeId = s := by
  simp only [deleteNode, hfind]

theorem deleteNode_root {s : GraphState} {nodeId : String} {tn : Node}
    (hfind : s.nodes.find? (fun n => n.id == nodeId) = some tn)
    (hr : tn.data.isRoot = true) :
    deleteNode s nodeId = s := by
  simp only [deleteNode, hfind]
  rw [if_pos (by simp [hr])]

/-- Membership in the node array after a successful cascading delete. -/
theorem mem_deleteNode_nodes {s : GraphState} {nodeId : String} {tn : Node}
    (hnd : (s.nodes.map (·.id)).Nodup) (hok : ChildLinkOk s.nodes)
    (hroot : RootFlagOk s.nodes) (hrooted : Rooted s.nodes)
    (hfind : s.nodes.find? (fun n => n.id == nodeId) = some tn)
    (hnr : tn.data.isRoot = false) :
    ∀ m' : Node, m' ∈ (deleteNode s nodeId).nodes ↔
      ∃ m ∈ s.nodes, ¬Reaches s.nodes nodeId m.id ∧
        m' = deleteFix tn.data.parentId nodeId m := by
  have htn : tn ∈ s.nodes := List.mem_of_find?_eq_some hfind
  have htnid : tn.id = nodeId := by simpa using List.find?_some hfind
  have hiff := (collectD_spec hnd hok hroot hrooted htn htnid).1
  intro m'
  rw [deleteNode_eq_of_found hfind hnr, incrementStructure_nodes]
  show m' ∈ (s.nodes.filter _).map _ ↔ _
  rw [List.mem_map]
  constructor
  · rintro ⟨m, hm, rfl⟩
    rw [List.mem_filter] at hm
    refine ⟨m, hm.1, ?_, rfl⟩
    intro hreach
    have : m.id ∈ deleteSet s nodeId := (hiff m.id).mpr hreach
    simp [this] at hm
  · rintro ⟨m, hm, hnreach, rfl⟩
    refine ⟨m, ?_, rfl⟩
    rw [List.mem_filter]
    refine ⟨hm, ?_⟩
    have : m.id ∉ deleteSet s nodeId := fun hmem => hnreach ((hiff m.id).mp hmem)
    simp [this]

/-- In a consistent document a node has at most one parent. -/
theorem parent_unique {nodes : List Node} (hnd : (nodes.map (·.id)).Nodup)
    (hok : ChildLinkOk nodes) {n1 n2 mc : Node} (hn1 : n1 ∈ nodes)
    (hn2 : n2 ∈ nodes) (hmc : mc ∈ nodes) (h1 : mc.id ∈ n1.data.childIds)
    (h2 : mc.id ∈ n2.data.childIds) : n1 = n2 := by
  have p1 := (hok.1 n1 hn1 mc hmc).mpr h1
  have p2 := (hok.1 n2 hn2 mc hmc).mpr h2
  rw [p1] at p2
  exact nodes_id_inj hnd hn1 hn2 (Option.some.inj p2)

theorem reach_last_step {nodes : List Node} {a b : String}
    (h : Reaches nodes a b) :
    b = a ∨ ∃ y, Reaches nodes a y ∧ childStep nodes y b := by
  induction h with
  | refl => exact Or.inl rfl
  | tail hr hstep _ => exact Or.inr ⟨_, hr, hstep⟩

/-- If a deleted node is not the target itself, its (unique) parent is
deleted too. -/
theorem deleted_parent_deleted {s : GraphState} {nodeId : String}
    (hnd : (s.nodes.map (·.id)).Nodup) (hok : ChildLinkOk s.nodes)
    {m n : Node} (hm : m ∈ s.nodes) (hn : n ∈ s.nodes)
    (hchild : m.id ∈ n.data.childIds) (hreach : Reaches s.nodes nodeId m.id)
    (hne : m.id ≠ nodeId) : Reaches s.nodes nodeId n.id := by
  rcases reach_last_step hreach with he | ⟨y, hy, ny, hny, hnyid, hc⟩
  · exact absurd he hne
  · have : ny = n := parent_unique hnd hok hny hn hm hc hchild
    exact this ▸ hnyid ▸ hy

/-- The target's former parent survives the delete (no cycle back). -/
theorem target_parent_survives {s : GraphState} {nodeId : String}
    (hnd : (s.nodes.map (·.id)).Nodup) (hok : ChildLinkOk s.nodes)
    (hroot : RootFlagOk s.nodes) (hrooted : Rooted s.nodes) {tn n : Node}
    (htn : tn ∈ s.nodes) (htnid : tn.id = nodeId) (hn : n ∈ s.nodes)
    (hpar : tn.data.parentId = some n.id) : ¬Reaches s.nodes nodeId n.id := by
  intro hreach
  have hchild : tn.id ∈ n.data.childIds := (hok.1 n hn tn htn).mp hpar
  exact no_cycle_back hnd hok hroot hrooted hreach hn rfl (htnid ▸ hchild)

/-- The cascading delete preserves the childIds/parentId invariant. -/
theorem childLinkOk_deleteNode {s : GraphState} (nodeId : String)
    (hnd : (s.nodes.map (·.id)).Nodup) (hok : ChildLinkOk s.nodes)
    (hroot : RootFlagOk s.nodes) (hrooted : Rooted s.nodes) :
    ChildLinkOk ((deleteNode s nodeId).nodes) := by
  rcases hfind : s.nodes.find? (fun n => n.id == nodeId) with _ | tn
  · rw [deleteNode_missing hfind]
    exact hok
  · by_cases hr : tn.data.isRoot = true
    · rw [deleteNode_root hfind hr]
      exact hok
    · have hnr : tn.data.isRoot = false := by
        rcases hb : tn.data.isRoot with _ | _
        · rfl
        · exact absurd hb hr
      have htn : tn ∈ s.nodes := List.mem_of_find?_eq_some hfind
      have htnid : tn.id = nodeId := by simpa using List.find?_some hfind
      have hmem := mem_deleteNode_nodes hnd hok hroot hrooted hfind hnr
      have htarget_reach : Reaches s.nodes nodeId nodeId :=
        Relation.ReflTransGen.refl
      set pid := tn.data.parentId with hpid
      -- a surviving child id always resolves to a surviving node
      have hsurvive_child : ∀ n ∈ s.nodes, ¬Reaches s.nodes nodeId n.id →
          ∀ c ∈ (deleteFix pid nodeId n).data.childIds,
            ∃ m ∈ s.nodes, m.id = c ∧ ¬Reaches s.nodes nodeId c := by
        intro n hn hnre c hc
        rw [deleteFix_childIds] at hc
        by_cases hp : (some n.id == pid) = true
        · rw [if_pos hp] at hc
          rw [List.mem_filter] at hc
          have hcne : c ≠ nodeId := by simpa using hc.2
          obtain ⟨m, hm, hmid⟩ := hok.2.1 n hn c hc.1
          refine ⟨m, hm, hmid, fun hreach => ?_⟩
          exact hnre (deleted_parent_deleted hnd hok hm hn (hmid ▸ hc.1)
            (hmid ▸ hreach) (hmid ▸ hcne))
        · rw [if_neg hp] at hc
          obtain ⟨m, hm, hmid⟩ := hok.2.1 n hn c hc
          refine ⟨m, hm, hmid, fun hreach => ?_⟩
          by_cases hcne : c = nodeId
          · subst hcne
            have : tn = m := nodes_id_inj hnd htn hm (htnid.trans hmid.symm)
            have hpar : tn.data.parentId = some n.id :=
              (hok.1 n hn tn htn).mpr (htnid ▸ hc)
            rw [← hpid] at hpar
            exact hp (by simp [hpar])
          · exact hnre (deleted_parent_deleted hnd hok hm hn (hmid ▸ hc)
              (hmid ▸ hreach) (hmid ▸ hcne))
      refine ⟨?_, ?_, ?_, ?_⟩
      · intro n' hn' m' hm'
        obtain ⟨n, hn, hnre, rfl⟩ := (hmem n').mp hn'
        obtain ⟨m, hm, hmre, rfl⟩ := (hmem m').mp hm'
        rw [deleteFix_parentId, deleteFix_id, deleteFix_id, deleteFix_childIds]
        by_cases hp : (some n.id == pid) = true
        · rw [if_pos hp]
          constructor
          · intro hpar
            rw [List.mem_filter]
            refine ⟨(hok.1 n hn m hm).mp hpar, ?_⟩
            have : m.id ≠ nodeId := fun he => hmre (he ▸ htarget_reach)
            simpa using this
          · intro hcmem
            rw [List.mem_filter] at hcmem
            exact (hok.1 n hn m hm).mpr hcmem.1
        · rw [if_neg hp]
          exact hok.1 n hn m hm
      · intro n' hn' c hc
        obtain ⟨n, hn, hnre, rfl⟩ := (hmem n').mp hn'
        obtain ⟨m, hm, hmid, hmre⟩ := hsurvive_child n hn hnre c hc
        exact ⟨deleteFix pid nodeId m,
          (hmem _).mpr ⟨m, hm, hmid ▸ hmre, rfl⟩, (deleteFix_id ..).trans hmid⟩
      · intro m' hm'
        obtain ⟨m, hm, hmre, rfl⟩ := (hmem m').mp hm'
        rw [deleteFix_parentId]
        rcases hok.2.2.1 m hm with hnone | ⟨n, hn, hne⟩
        · exact Or.inl hnone
        · have hnre : ¬Reaches s.nodes nodeId n.id := by
            intro hreach
            have hchild : m.id ∈ n.data.childIds :=
              (hok.1 n hn m hm).mp hne.symm
            by_cases hmne : m.id = nodeId
            · have : tn = m := nodes_id_inj hnd htn hm (htnid.trans hmne.symm)
              subst this
              exact target_parent_survives hnd hok hroot hrooted htn htnid hn
                (hne.symm ▸ rfl) hreach
            · exact hmre (Relation.ReflTransGen.tail hreach
                ⟨n, hn, rfl, hchild⟩)
          exact Or.inr ⟨deleteFix pid nodeId n,
            (hmem _).mpr ⟨n, hn, hnre, rfl⟩,
            (congrArg some (deleteFix_id ..)).trans hne⟩
      · intro n' hn'
        obtain ⟨n, hn, hnre, rfl⟩ := (hmem n').mp hn'
        rw [deleteFix_childIds]
        by_cases hp : (some n.id == pid) = true
        · rw [if_pos hp]
          exact List.Nodup.filter _ (hok.2.2.2 n hn)
        · rw [if_neg hp]
          exact hok.2.2.2 n hn

/-- The surviving nodes still carry unique ids after a delete. -/
theorem deleteNode_nodes_nodup {s : GraphState} {nodeId : String} {tn : Node}
    (hnd : (s.nodes.map (·.id)).Nodup)
    (hfind : s.nodes.find? (fun n => n.id == nodeId) = some tn)
    (hnr : tn.data.isRoot = false) :
    ((deleteNode s nodeId).nodes.map (·.id)).Nodup := by
  rw [deleteNode_eq_of_found hfind hnr, incrementStructure_nodes]
  show ((((s.nodes.filter _).map (deleteFix tn.data.parentId nodeId))).map
    (·.id)).Nodup
  rw [List.map_map]
  have : ((·.id) ∘ deleteFix tn.data.parentId nodeId : Node → String) =
      (·.id) := by
    funext n
    exact deleteFix_id ..
  rw [this]
  exact List.Nodup.sublist
    (List.Sublist.map (fun n : Node => n.id) (List.filter_sublist s.nodes)) hnd

/-- After a successful cascading delete every surviving node still has a
finite parent chain to the root: the remaining tree is connected and
acyclic. -/
theorem deleteNode_rooted {s : GraphState} {nodeId : String} {tn : Node}
    (hnd : (s.nodes.map (·.id)).Nodup) (hok : ChildLinkOk s.nodes)
    (hroot : RootFlagOk s.nodes) (hrooted : Rooted s.nodes)
    (hfind : s.nodes.find? (fun n => n.id == nodeId) = some tn)
    (hnr : tn.data.isRoot = false) :
    ∀ m' ∈ (deleteNode s nodeId).nodes,
      ∃ f, (parentDepth (deleteNode s nodeId).nodes f m'.id).isSome := by
  have htn : tn ∈ s.nodes := List.mem_of_find?_eq_some hfind
  have htnid : tn.id = nodeId := by simpa using List.find?_some hfind
  have hmem := mem_deleteNode_nodes hnd hok hroot hrooted hfind hnr
  have hnd' := deleteNode_nodes_nodup hnd hfind hnr
  set pid := tn.data.parentId with hpid
  have hfindN : ∀ m ∈ s.nodes, ¬Reaches s.nodes nodeId m.id →
      findNode (deleteNode s nodeId).nodes m.id =
        some (deleteFix pid nodeId m) := by
    intro m hm hmre
    have hmm : deleteFix pid nodeId m ∈ (deleteNode s nodeId).nodes :=
      (hmem _).mpr ⟨m, hm, hmre, rfl⟩
    exact findNode_eq_of_mem_nodup hnd' hmm (deleteFix_id ..)
  have key : ∀ d : Nat, ∀ m ∈ s.nodes, ¬Reaches s.nodes nodeId m.id →
      ∀ f, parentDepth s.nodes f m.id = some d →
      ∃ f', (parentDepth (deleteNode s nodeId).nodes f' m.id).isSome := by
    intro d
    induction d using Nat.strong_induction_on with
    | _ d ih =>
      intro m hm hmre f hd
      by_cases hmr : m.data.isRoot = true
      · refine ⟨1, ?_⟩
        rw [show (1 : Nat) = 0 + 1 from rfl, parentDepth, hfindN m hm hmre,
          Option.some_bind, deleteFix_isRoot, hmr]
        simp
      · have hpar_ne : m.data.parentId ≠ none := fun he => hmr ((hroot m hm).mpr he)
        rcases hok.2.2.1 m hm with hnone | ⟨np, hnp, hnpe⟩
        · exact absurd hnone hpar_ne
        · have hchild : m.id ∈ np.data.childIds :=
            (hok.1 np hnp m hm).mp hnpe.symm
          have hmne : m.id ≠ nodeId := fun he =>
            hmre (he ▸ Relation.ReflTransGen.refl)
          have hnpre : ¬Reaches s.nodes nodeId np.id := by
            intro hreach
            exact hmre (Relation.ReflTransGen.tail hreach ⟨np, hnp, rfl, hchild⟩)
          obtain ⟨d', hd', hde⟩ := depth_child hnd hok hroot hnp hchild hd
          obtain ⟨f', hf'⟩ := ih d' (by omega) np hnp hnpre f hd'
          obtain ⟨dp, hdp⟩ := Option.isSome_iff_exists.mp hf'
          refine ⟨f' + 1, ?_⟩
          have hmf : m.data.isRoot = false := by
            rcases hb : m.data.isRoot with _ | _
            · rfl
            · exact absurd hb hmr
          rw [parentDepth, hfindN m hm hmre, Option.some_bind,
            deleteFix_isRoot, hmf]
          simp only [Bool.false_eq_true, if_false]
          rw [deleteFix_parentId, ← hnpe, Option.some_bind, hdp]
          rfl
  intro m' hm'
  obtain ⟨m, hm, hmre, rfl⟩ := (hmem m').mp hm'
  obtain ⟨d, hd⟩ := Option.isSome_iff_exists.mp (hrooted m hm)
  rw [deleteFix_id]
  exact key d m hm hmre s.nodes.length hd

/-- C7: on a well-formed document (unique ids, consistent links, correct root
flags, every node rooted), `deleteNode` is a no-op when the target id is
missing or belongs to the root; otherwise it removes exactly the target and
its transitive `childIds`-descendants and nothing else, leaves the surviving
nodes' links and text untouched, drops exactly the edges touching a removed
node, strips the target id from its former parent's `childIds`, and leaves
the remaining tree connected and acyclic (every survivor still has a finite
parent chain to the root) with the childIds/parentId invariant intact. -/
theorem c7_deleteNode_cascading (s : GraphState) (nodeId : String)
    (hnd : (s.nodes.map (·.id)).Nodup) (hok : ChildLinkOk s.nodes)
    (hroot : RootFlagOk s.nodes) (hrooted : Rooted s.nodes) :
    ((∀ n ∈ s.nodes, n.id ≠ nodeId) → deleteNode s nodeId = s) ∧
    (∀ tn ∈ s.nodes, tn.id = nodeId → tn.data.isRoot = true →
      deleteNode s nodeId = s) ∧
    (∀ tn ∈ s.nodes, tn.id = nodeId → tn.data.isRoot = false →
      ((∀ m ∈ s.nodes, ((∃ m' ∈ (deleteNode s nodeId).nodes, m'.id = m.id) ↔
          ¬Reaches s.nodes nodeId m.id)) ∧
       (∀ m' ∈ (deleteNode s nodeId).nodes, ∃ m ∈ s.nodes, m'.id = m.id ∧
          m'.data.parentId = m.data.parentId ∧ m'.data.text = m.data.text ∧
          m'.data.isRoot = m.data.isRoot) ∧
       (∀ e : Edge, e ∈ (deleteNode s nodeId).edges ↔ e ∈ s.edges ∧
          ¬Reaches s.nodes nodeId e.source ∧
          ¬Reaches s.nodes nodeId e.target) ∧
       (∀ n ∈ s.nodes, tn.data.parentId = some n.id →
          ∃ m' ∈ (deleteNode s nodeId).nodes, m'.id = n.id ∧
            m'.data.childIds = n.data.childIds.filter (fun c => c != nodeId)) ∧
       (∀ m' ∈ (deleteNode s nodeId).nodes,
          ∃ f, (parentDepth (deleteNode s nodeId).nodes f m'.id).isSome) ∧
       ChildLinkOk (deleteNode s nodeId).nodes)) := by
  refine ⟨?_, ?_, ?_⟩
  · intro h
    have hfind : s.nodes.find? (fun n => n.id == nodeId) = none :=
      List.find?_eq_none.mpr (fun n hn => by simp [h n hn])
    exact deleteNode_missing hfind
  · intro tn htn htnid hr
    have hfind : s.nodes.find? (fun n => n.id == nodeId) = some tn :=
      findNode_eq_of_mem_nodup hnd htn htnid
    exact deleteNode_root hfind hr
  · intro tn htn htnid hnr
    have hfind : s.nodes.find? (fun n => n.id == nodeId) = some tn :=
      findNode_eq_of_mem_nodup hnd htn htnid
    have hmem := mem_deleteNode_nodes hnd hok hroot hrooted hfind hnr
    have hiff := (collectD_spec hnd hok hroot hrooted htn htnid).1
    refine ⟨?_, ?_, ?_, ?_,
      deleteNode_rooted hnd hok hroot hrooted hfind hnr,
      childLinkOk_deleteNode nodeId hnd hok hroot hrooted⟩
    · intro m hm
      constructor
      · rintro ⟨m', hm', hm'id⟩
        obtain ⟨m2, _, hm2re, rfl⟩ := (hmem m').mp hm'
        rw [deleteFix_id] at hm'id
        exact hm'id ▸ hm2re
      · intro hmre
        exact ⟨deleteFix tn.data.parentId nodeId m,
          (hmem _).mpr ⟨m, hm, hmre, rfl⟩, deleteFix_id ..⟩
    · intro m' hm'
      obtain ⟨m, hm, _, rfl⟩ := (hmem m').mp hm'
      exact ⟨m, hm, deleteFix_id .., deleteFix_parentId ..,
        deleteFix_text .., deleteFix_isRoot ..⟩
    · intro e
      rw [deleteNode_eq_of_found hfind hnr, incrementStructure_edges]
      show e ∈ s.edges.filter _ ↔ _
      rw [List.mem_filter]
      constructor
      · rintro ⟨he, hb⟩
        simp only [Bool.and_eq_true, Bool.not_eq_true'] at hb
        refine ⟨he, ?_, ?_⟩
        · intro hr
          have : e.source ∈ deleteSet s nodeId := (hiff e.source).mpr hr
          simp [this] at hb
        · intro hr
          have : e.target ∈ deleteSet s nodeId := (hiff e.target).mpr hr
          simp [this] at hb
      · rintro ⟨he, h1, h2⟩
        refine ⟨he, ?_⟩
        have hs : e.source ∉ deleteSet s nodeId :=
          fun hmem => h1 ((hiff e.source).mp hmem)
        have ht : e.target ∉ deleteSet s nodeId :=
          fun hmem => h2 ((hiff e.target).mp hmem)
        simp [hs, ht]
    · intro n hn hpar
      have hnre : ¬Reaches s.nodes nodeId n.id :=
        target_parent_survives hnd hok hroot hrooted htn htnid hn hpar
      refine ⟨deleteFix tn.data.parentId nodeId n,
        (hmem _).mpr ⟨n, hn, hnre, rfl⟩, deleteFix_id .., ?_⟩
      rw [deleteFix_childIds, if_pos (by simp [hpar])]

/-- Graph with root `"r"` and one child `"c"` for the delete witness. -/
def c7Graph : GraphState :=
  (addChild (init initialState none "r") "r" "t" 0 "c").1

/-- The child node of `c7Graph`. -/
def c7Child : Node :=
  { id := "c", type := "loomNode", position := (0, 0),
    data := { id := "c", text := "t", parentId := some "r", childIds := [],
              isRoot := false, isGenerating := false,
              generatedTextStart := 0 },
    width := 280, height := 160 }

/-- C7 witness: deleting the leaf `"c"` from a two-node document keeps the
tree rooted and consistent and strips `"c"` from the root's `childIds`. -/
theorem c7_witness :
    (∀ m' ∈ (deleteNode c7Graph "c").nodes,
      ∃ f, (parentDepth (deleteNode c7Graph "c").nodes f m'.id).isSome) ∧
    ChildLinkOk (deleteNode c7Graph "c").nodes ∧
    (∀ n ∈ c7Graph.nodes, c7Child.data.parentId = some n.id →
      ∃ m' ∈ (deleteNode c7Graph "c").nodes, m'.id = n.id ∧
        m'.data.childIds = n.data.childIds.filter (fun c => c != "c")) := by
  have thm := (c7_deleteNode_cascading c7Graph "c" (by decide) (by decide)
    (by decide) (by decide)).2.2 c7Child (by decide) (by decide) (by decide)
  exact ⟨thm.2.2.2.2.1, thm.2.2.2.2.2, thm.2.2.2.1⟩

theorem importGraph_ok_nodes {s : GraphState} {d : ImportDoc}
    {ns : List RawNode} (hn : d.nodes = some ns)
    (hok2 : (importGraph s d).2 = .ok ()) :
    (importGraph s d).1.nodes = ns.map rawToNode := by
  rcases he : d.edges with _ | es
  · simp [importGraph, hn, he] at hok2
  · by_cases h1 : ns.length = 0
    · simp [importGraph, hn, he, h1] at hok2
    · by_cases h2 : (ns.any (fun n => (n.data.map (·.isRoot)).getD false)) = true
      · by_cases h3 : (ns.any (fun n => n.id == "" || n.data.isNone ||
            (n.data.map (fun d' => d'.text.isNone)).getD true)) = true
        · simp [importGraph, hn, he, h1, h2, h3] at hok2
        · simp [importGraph, hn, he, h1, h2, h3, incrementStructure_nodes,
            persistImmediate, rebuildIndex]
      · simp [importGraph, hn, he, h1, h2] at hok2

/-- C1 (amended): the childIds ≡ parentId-derived-relation invariant is
established by `clearAll` and by a fresh `init`, and preserved by `addChild`,
`addChildStreaming` (fresh child id) and, on well-formed documents, by
`deleteNode`.  `importGraph` and `init` from a saved graph, however, only
install the loaded nodes verbatim (validation checks neither `childIds` nor
`parentId`): the invariant holds afterwards exactly when the loaded document
already satisfied it. -/
theorem c1_childIds_matches_parent_links (s : GraphState)
    (rid parentId text : String) (gts : Nat) (childId nodeId : String)
    (d : ImportDoc) (sg : SerializedGraph) :
    ChildLinkOk ((clearAll s rid).nodes) ∧
    ChildLinkOk ((init s none rid).nodes) ∧
    ((∀ n ∈ s.nodes, n.id ≠ childId) → ChildLinkOk s.nodes →
      ChildLinkOk ((addChild s parentId text gts childId).1).nodes) ∧
    ((∀ n ∈ s.nodes, n.id ≠ childId) → ChildLinkOk s.nodes →
      ChildLinkOk ((addChildStreaming s parentId text gts childId).1).nodes) ∧
    ((s.nodes.map (·.id)).Nodup → ChildLinkOk s.nodes → RootFlagOk s.nodes →
      Rooted s.nodes → ChildLinkOk ((deleteNode s nodeId).nodes)) ∧
    (∀ ns, d.nodes = some ns → (importGraph s d).2 = .ok () →
      ((importGraph s d).1.nodes = ns.map rawToNode ∧
       (ChildLinkOk (ns.map rawToNode) →
        ChildLinkOk (importGraph s d).1.nodes))) ∧
    (ChildLinkOk sg.nodes → ChildLinkOk ((init s (some sg) rid).nodes)) := by
  refine ⟨?_, ?_, ?_, ?_, ?_, ?_, ?_⟩
  · show ChildLinkOk (incrementStructure _).nodes
    rw [incrementStructure_nodes]
    exact childLinkOk_singleton_root rid
  · show ChildLinkOk (incrementStructure _).nodes
    rw [incrementStructure_nodes]
    exact childLinkOk_singleton_root rid
  · intro hc hok
    exact childLinkOk_addChild text gts hc hok
  · intro hc hok
    exact childLinkOk_addChildStreaming text gts hc hok
  · intro hnd hok hroot hrooted
    exact childLinkOk_deleteNode nodeId hnd hok hroot hrooted
  · intro ns hn hok2
    have hnodes := importGraph_ok_nodes hn hok2
    exact ⟨hnodes, fun hOk => hnodes ▸ hOk⟩
  · intro hOk
    by_cases hlen : sg.nodes.length > 0
    · show ChildLinkOk (incrementStructure (rebuildIndex _)).nodes
      rw [incrementStructure_nodes]
      simp only [init, hlen, if_pos, rebuildIndex]
      exact childLinkOk_map _ (fun n => rfl) (fun n => rfl) (fun n => rfl) hOk
    · show ChildLinkOk (incrementStructure (rebuildIndex _)).nodes
      rw [incrementStructure_nodes]
      simp only [init, hlen, rebuildIndex]
      exact childLinkOk_singleton_root rid

/-- C1 witness: the invariant holds after `clearAll`, after adding a child
`"c2"` under the root of the two-node graph, and after deleting `"c"`. -/
theorem c1_witness :
    ChildLinkOk ((clearAll c7Graph "r").nodes) ∧
    ChildLinkOk ((addChild c7Graph "r" "t2" 0 "c2").1).nodes ∧
    ChildLinkOk ((deleteNode c7Graph "c").nodes) := by
  have thm := c1_childIds_matches_parent_links c7Graph "r" "r" "t2" 0 "c2" "c"
    { nodes := none, edges := none } { nodes := [], edges := [] }
  exact ⟨thm.1, thm.2.2.1 (by decide) (by decide),
    thm.2.2.2.2.1 (by decide) (by decide) (by decide) (by decide)⟩

/-- An import document that passes every `importGraph` validation check but
whose `childIds` do not match its `parentId` links: node `"a"` claims parent
`"r"`, yet `"r"` lists no children. -/
def badImportDoc : ImportDoc :=
  { nodes := some
      [{ id := "r", type := "loomNode", position := (0, 0),
         data := some { id := "r", text := some "", parentId := none,
                        childIds := [], isRoot := true, isGenerating := false,
                        generatedTextStart := 0 } },
       { id := "a", type := "loomNode", position := (0, 0),
         data := some { id := "a", text := some "", parentId := some "r",
                        childIds := [], isRoot := false, isGenerating := false,
                        generatedTextStart := 0 } }]
    edges := some [] }

/-- C1 counterexample: `importGraph` accepts `badImportDoc` (it validates
only arrays/non-emptiness/root/id/text), and the resulting document violates
the childIds ≡ parentId-derived invariant the claim asserts after every
operation. -/
theorem c1_counterexample :
    (importGraph initialState badImportDoc).2 = .ok () ∧
    ¬ChildLinkOk (importGraph initialState badImportDoc).1.nodes :=
  ⟨rfl, by decide⟩

/-! ### The streaming batch run (claim C9) -/

theorem str_foldl_append (ts : List String) :
    ∀ a : String, ts.foldl (· ++ ·) a = a ++ ts.foldl (· ++ ·) "" := by
  induction ts with
  | nil =>
    intro a
    simp
  | cons t ts ih =>
    intro a
    simp only [List.foldl_cons]
    rw [ih (a ++ t), ih ("" ++ t)]
    simp [String.append_assoc]

theorem str_join_cons (t : String) (ts : List String) :
    String.join (t :: ts) = t ++ String.join ts := by
  show (t :: ts).foldl (· ++ ·) "" = t ++ ts.foldl (· ++ ·) ""
  simp only [List.foldl_cons]
  rw [str_foldl_append]
  simp

theorem str_length_pos {s : String} (h : s ≠ "") : 0 < s.length := by
  rcases s with ⟨data⟩
  cases data with
  | nil => exact absurd rfl h
  | cons c cs => simp [String.length]

theorem mapGet_foldl_mapSet_of_not_mem {α : Type}
    (f : String × String → α) {reqs : List (String × String)} {x : String}
    (h : ∀ r ∈ reqs, r.1 ≠ x) (acc : List (String × α)) :
    mapGet (reqs.foldl (fun m r => mapSet m r.1 (f r)) acc) x = mapGet acc x := by
  induction reqs generalizing acc with
  | nil => rfl
  | cons r rest ih =>
    rw [List.foldl_cons, ih (fun q hq => h q (by simp [hq])),
      mapGet_mapSet_ne _ _ (Ne.symm (h r (by simp)))]

theorem mapGet_foldl_mapSet_of_mem {α : Type} (f : String × String → α)
    {reqs : List (String × String)} {x : String} {p : String}
    (hnd : (reqs.map (·.1)).Nodup) (hmem : (x, p) ∈ reqs)
    (acc : List (String × α)) :
    mapGet (reqs.foldl (fun m r => mapSet m r.1 (f r)) acc) x =
      some (f (x, p)) := by
  induction reqs generalizing acc with
  | nil => simp at hmem
  | cons r rest ih =>
    rw [List.map_cons, List.nodup_cons] at hnd
    rcases List.mem_cons.mp hmem with h | h
    · subst h
      have hrest : ∀ q ∈ rest, q.1 ≠ x := by
        intro q hq he
        exact hnd.1 (he ▸ List.mem_map_of_mem (·.1) hq)
      rw [List.foldl_cons, mapGet_foldl_mapSet_of_not_mem f hrest,
        mapGet_mapSet_self]
    · rw [List.foldl_cons]
      exact ih hnd.2 h _

theorem runEvents_append (b : BatchState) (l1 l2 : List GenEvent) :
    runEvents b (l1 ++ l2) = runEvents (runEvents b l1) l2 :=
  List.foldl_append ..

theorem onToken_spec (b : BatchState) (x tok : String) {buf : String}
    (hbuf : mapGet b.buffers x = some buf) :
    (onToken b x tok).graph = b.graph ∧
    (onToken b x tok).prompts = b.prompts ∧
    (onToken b x tok).completed = b.completed ∧
    (onToken b x tok).activeRequests = b.activeRequests ∧
    (onToken b x tok).buffers = mapSet b.buffers x (buf ++ tok) := by
  simp only [onToken, hbuf]
  by_cases hr : (mapGet b.rafScheduled x).getD false <;> simp [hr]

theorem tokenRun_spec (x : String) :
    ∀ (ts : List String) (b : BatchState) (buf : String),
      mapGet b.buffers x = some buf →
      (runEvents b (ts.map (GenEvent.token x))).graph = b.graph ∧
      (runEvents b (ts.map (GenEvent.token x))).prompts = b.prompts ∧
      (runEvents b (ts.map (GenEvent.token x))).completed = b.completed ∧
      (runEvents b (ts.map (GenEvent.token x))).activeRequests =
        b.activeRequests ∧
      mapGet (runEvents b (ts.map (GenEvent.token x))).buffers x =
        some (buf ++ String.join ts) ∧
      (∀ y, y ≠ x →
        mapGet (runEvents b (ts.map (GenEvent.token x))).buffers y =
          mapGet b.buffers y) := by
  intro ts
  induction ts with
  | nil =>
    intro b buf hbuf
    refine ⟨rfl, rfl, rfl, rfl, ?_, fun y _ => rfl⟩
    rw [show String.join [] = "" from rfl]
    simpa using hbuf
  | cons t ts ih =>
    intro b buf hbuf
    have hstep : runEvents b ((t :: ts).map (GenEvent.token x)) =
        runEvents (onToken b x t) (ts.map (GenEvent.token x)) := rfl
    obtain ⟨hg, hp, hc, ha, hb⟩ := onToken_spec b x t hbuf
    have hbuf' : mapGet (onToken b x t).buffers x = some (buf ++ t) := by
      rw [hb, mapGet_mapSet_self]
    obtain ⟨ihg, ihp, ihc, iha, ihb, ihy⟩ := ih (onToken b x t) (buf ++ t) hbuf'
    refine ⟨?_, ?_, ?_, ?_, ?_, ?_⟩
    · rw [hstep, ihg, hg]
    · rw [hstep, ihp, hp]
    · rw [hstep, ihc, hc]
    · rw [hstep, iha, ha]
    · rw [hstep, ihb, str_join_cons, ← String.append_assoc]
    · intro y hy
      rw [hstep, ihy y hy, hb, mapGet_mapSet_ne _ _ hy]

theorem markDone_spec (b : BatchState) (x : String) {n0 : Node} {buf : String}
    (hnc : x ∉ b.completed) (hbuf : mapGet b.buffers x = some buf)
    (hok : StoreOk b.graph) (hnd : (b.graph.nodes.map (·.id)).Nodup)
    (hn : n0 ∈ b.graph.nodes) (hid : n0.id = x) :
    nodeData (markDone b x).graph x =
      some { n0.data with text := buf, isGenerating := false } ∧
    (∀ y, y ≠ x → nodeData (markDone b x).graph y = nodeData b.graph y) ∧
    (markDone b x).activeRequests = b.activeRequests - 1 ∧
    (markDone b x).completed = b.completed ++ [x] ∧
    (markDone b x).buffers = b.buffers ∧
    (markDone b x).prompts = b.prompts ∧
    StoreOk (markDone b x).graph ∧
    (markDone b x).graph.nodes.map (·.id) = b.graph.nodes.map (·.id) := by
  have hc : b.completed.contains x = false := contains_eq_false_of_not_mem hnc
  have hg1ok : StoreOk (updateTextSilent b.graph x buf) :=
    storeOk_patchNode _ hok hnd
  have hg1nd : ((updateTextSilent b.graph x buf).nodes.map (·.id)).Nodup := by
    rw [updateTextSilent, patchNode_ids _ hok hnd]
    exact hnd
  have hgraph : (markDone b x).graph =
      setGenerating (updateTextSilent b.graph x buf) x false := by
    rw [markDone, if_neg (by simpa using hnc)]
    simp only [hbuf]
  have hdata : nodeData b.graph x = some n0.data := by
    rw [nodeData, findNode_eq_of_mem_nodup hnd hn hid]
    rfl
  refine ⟨?_, ?_, ?_, ?_, ?_, ?_, ?_, ?_⟩
  · rw [hgraph, setGenerating, nodeData_patchNode_self _ hg1ok hg1nd,
      updateTextSilent, nodeData_patchNode_self _ hok hnd, hdata]
    rfl
  · intro y hy
    rw [hgraph, setGenerating, nodeData_patchNode_ne _ hg1ok hg1nd hy,
      updateTextSilent, nodeData_patchNode_ne _ hok hnd hy]
  · rw [markDone, if_neg (by simpa using hnc)]
  · rw [markDone, if_neg (by simpa using hnc)]
  · rw [markDone, if_neg (by simpa using hnc)]
  · rw [markDone, if_neg (by simpa using hnc)]
  · rw [hgraph, setGenerating]
    exact storeOk_patchNode _ hg1ok hg1nd
  · rw [hgraph, setGenerating, patchNode_ids _ hg1ok hg1nd,
      updateTextSilent, patchNode_ids _ hok hnd]

theorem stepDone_graph (b : BatchState) (x : String) :
    (stepEvent b (GenEvent.done x)).graph = persist (markDone b x).graph ∧
    (stepEvent b (GenEvent.done x)).completed = (markDone b x).completed ∧
    (stepEvent b (GenEvent.done x)).activeRequests =
      (markDone b x).activeRequests ∧
    (stepEvent b (GenEvent.done x)).buffers = (markDone b x).buffers ∧
    (stepEvent b (GenEvent.done x)).prompts = (markDone b x).prompts :=
  ⟨rfl, rfl, rfl, rfl, rfl⟩

theorem nodeData_persist (g : GraphState) (y : String) :
    nodeData (persist g) y = nodeData g y := rfl

/-- Effect of one child's whole event block (its tokens, then `done`). -/
theorem block_spec (b : BatchState) (x : String) (ts : List String)
    {n0 : Node} {buf : String}
    (hnc : x ∉ b.completed) (hbuf : mapGet b.buffers x = some buf)
    (hok : StoreOk b.graph) (hnd : (b.graph.nodes.map (·.id)).Nodup)
    (hn : n0 ∈ b.graph.nodes) (hid : n0.id = x) :
    nodeData (runEvents b (ts.map (GenEvent.token x) ++
        [GenEvent.done x])).graph x =
      some { n0.data with text := buf ++ String.join ts,
                          isGenerating := false } ∧
    (∀ y, y ≠ x →
      nodeData (runEvents b (ts.map (GenEvent.token x) ++
        [GenEvent.done x])).graph y = nodeData b.graph y) ∧
    (runEvents b (ts.map (GenEvent.token x) ++ [GenEvent.done x])).completed =
      b.completed ++ [x] ∧
    (runEvents b (ts.map (GenEvent.token x) ++
      [GenEvent.done x])).activeRequests = b.activeRequests - 1 ∧
    (∀ y, y ≠ x →
      mapGet (runEvents b (ts.map (GenEvent.token x) ++
        [GenEvent.done x])).buffers y = mapGet b.buffers y) ∧
    (runEvents b (ts.map (GenEvent.token x) ++ [GenEvent.done x])).prompts =
      b.prompts ∧
    StoreOk (runEvents b (ts.map (GenEvent.token x) ++
      [GenEvent.done x])).graph ∧
    (runEvents b (ts.map (GenEvent.token x) ++
      [GenEvent.done x])).graph.nodes.map (·.id) =
        b.graph.nodes.map (·.id) := by
  set b1 := runEvents b (ts.map (GenEvent.token x)) with hb1
  obtain ⟨hg1, hp1, hc1, ha1, hbx1, hby1⟩ := tokenRun_spec x ts b buf hbuf
  have hsplit : runEvents b (ts.map (GenEvent.token x) ++ [GenEvent.done x]) =
      stepEvent b1 (GenEvent.done x) := by
    rw [runEvents_append]
    rfl
  have hn1 : n0 ∈ b1.graph.nodes := by rw [hg1]; exact hn
  have hnc1 : x ∉ b1.completed := by rw [hc1]; exact hnc
  have hok1 : StoreOk b1.graph := by rw [hg1]; exact hok
  have hnd1 : (b1.graph.nodes.map (·.id)).Nodup := by rw [hg1]; exact hnd
  obtain ⟨hdx, hdy, hda, hdc, hdb, hdp, hdok, hdids⟩ :=
    markDone_spec b1 x hnc1 hbx1 hok1 hnd1 hn1 hid
  obtain ⟨hsg, hsc, hsa, hsb, hsp⟩ := stepDone_graph b1 x
  refine ⟨?_, ?_, ?_, ?_, ?_, ?_, ?_, ?_⟩
  · rw [hsplit, hsg, nodeData_persist, hdx]
  · intro y hy
    rw [hsplit, hsg, nodeData_persist, hdy y hy, hg1]
  · rw [hsplit, hsc, hdc, hc1]
  · rw [hsplit, hsa, hda, ha1]
  · intro y hy
    rw [hsplit, hsb, hdb, hby1 y hy]
  · rw [hsplit, hsp, hdp, hp1]
  · rw [hsplit, hsg]
    exact hdok
  · rw [hsplit, hsg]
    show (persist (markDone b1 x).graph).nodes.map (·.id) = _
    rw [show (persist (markDone b1 x).graph).nodes =
      (markDone b1 x).graph.nodes from rfl, hdids, hg1]

/-- The node `addChildStreaming` constructs. -/
def streamChildNode (pid prompt : String) (gts : Nat) (cid : String) : Node :=
  { id := cid, type := "loomNode", position := (0, 0),
    data := { id := cid, text := prompt, parentId := some pid, childIds := [],
              isRoot := false, isGenerating := true,
              generatedTextStart := gts },
    width := 280, height := 160 }

theorem storeOk_pipeline_persist (X : GraphState) :
    StoreOk (incrementStructure (persist (rebuildIndex X))) := by
  constructor
  · rw [incrementStructure_nodeDataMap, incrementStructure_nodes]
    rfl
  · rw [incrementStructure_nodeIndexMap, incrementStructure_nodes]
    rfl

theorem addChildStreaming_spec {s : GraphState} {p : String} (t : String)
    (g : Nat) (c : String) (hok : StoreOk s)
    (hnd : (s.nodes.map (·.id)).Nodup) (hq : ∃ q ∈ s.nodes, q.id = p)
    (hc : ∀ n ∈ s.nodes, n.id ≠ c) :
    (addChildStreaming s p t g c).2 = c ∧
    StoreOk (addChildStreaming s p t g c).1 ∧
    (addChildStreaming s p t g c).1.nodes.map (·.id) =
      s.nodes.map (·.id) ++ [c] ∧
    nodeData (addChildStreaming s p t g c).1 c =
      some (streamChildNode p t g c).data ∧
    (∀ y, y ≠ c → y ≠ p →
      nodeData (addChildStreaming s p t g c).1 y = nodeData s y) ∧
    (∃ q' ∈ (addChildStreaming s p t g c).1.nodes, q'.id = p) := by
  obtain ⟨q, hqmem, hqid⟩ := hq
  have hiss : (findNode s.nodes p).isSome := by
    rw [← hqid]
    exact findNode_isSome_of_mem hqmem
  obtain ⟨q0, hq0⟩ := Option.isSome_iff_exists.mp hiss
  have hfq : s.nodes.find? (fun n => n.id == p) = some q0 := hq0
  set f : Node → Node := fun n =>
    if n.id == p then
      { n with data := { n.data with childIds := n.data.childIds ++ [c] } }
    else n with hf
  have hfid : ∀ n, (f n).id = n.id := by
    intro n
    by_cases h : n.id = p <;> simp [hf, h]
  have hnodes : (addChildStreaming s p t g c).1.nodes =
      s.nodes.map f ++ [streamChildNode p t g c] := by
    simp only [addChildStreaming, hfq, incrementStructure_nodes]
    rfl
  have hids : (addChildStreaming s p t g c).1.nodes.map (·.id) =
      s.nodes.map (·.id) ++ [c] := by
    rw [hnodes, List.map_append, List.map_map]
    have h1 : ((·.id) ∘ f : Node → String) = (·.id) := by
      funext n
      exact hfid n
    rw [h1]
    rfl
  refine ⟨by simp [addChildStreaming, hfq], ?_, hids, ?_, ?_, ?_⟩
  · simp only [addChildStreaming, hfq]
    exact storeOk_pipeline_persist _
  · rw [nodeData, hnodes, findNode_append, findNode_map_of_id f hfid]
    have : findNode s.nodes c = none := by
      rw [findNode, List.find?_eq_none]
      intro n hn
      simp [hc n hn]
    rw [this]
    show (findNode [streamChildNode p t g c] c).map (·.data) = _
    rw [findNode, List.find?_cons, show ((streamChildNode p t g c).id == c) =
      true by simp [streamChildNode]]
    rfl
  · intro y hyc hyp
    rw [nodeData, nodeData, hnodes, findNode_append,
      findNode_map_of_id f hfid]
    have hsing : findNode [streamChildNode p t g c] y = none := by
      rw [findNode, List.find?_cons, show ((streamChildNode p t g c).id == y) =
        false by simp [streamChildNode, Ne.symm hyc]]
      rfl
    rw [hsing]
    cases hfy : findNode s.nodes y with
    | none => rfl
    | some ny =>
      have hnyid : ny.id = y := findNode_some_id hfy
      have : f ny = ny := by
        rw [hf]
        simp [hnyid, hyp]
      simp [this]
  · refine ⟨f q, ?_, by rw [hfid]; exact hqid⟩
    rw [hnodes]
    exact List.mem_append_left _ (List.mem_map_of_mem f hqmem)

/-- Full characterisation of the placeholder-creation loop for one entry:
iterating from supply index `k`, `c` fresh streaming children are appended
under the parent, one `(id, prompt)` request per child is queued, and every
node other than the parent and the new children keeps its data. -/
theorem createForEntry_spec (e : BatchEntry) (supply : Nat → String) :
    ∀ (c k : Nat) (g : GraphState) (reqs : List (String × String)),
      StoreOk g → (g.nodes.map (·.id)).Nodup →
      e.parentId ∈ g.nodes.map (·.id) →
      (∀ j, k ≤ j → j < k + c → supply j ∉ g.nodes.map (·.id)) →
      (∀ j, k ≤ j → j < k + c → supply j ≠ "") →
      (∀ i j, k ≤ i → i < k + c → k ≤ j → j < k + c →
        supply i = supply j → i = j) →
      (createForEntry g e supply k c reqs).2.2 = k + c ∧
      (createForEntry g e supply k c reqs).2.1 =
        reqs ++ (List.range c).map (fun j => (supply (k + j), e.prompt)) ∧
      StoreOk (createForEntry g e supply k c reqs).1 ∧
      (createForEntry g e supply k c reqs).1.nodes.map (·.id) =
        g.nodes.map (·.id) ++ (List.range c).map (fun j => supply (k + j)) ∧
      ((createForEntry g e supply k c reqs).1.nodes.map (·.id)).Nodup ∧
      e.parentId ∈ (createForEntry g e supply k c reqs).1.nodes.map (·.id) ∧
      (∀ j, k ≤ j → j < k + c →
        nodeData (createForEntry g e supply k c reqs).1 (supply j) =
          some (streamChildNode e.parentId e.prompt
            e.prompt.length (supply j)).data) ∧
      (∀ y, (∀ j, k ≤ j → j < k + c → y ≠ supply j) → y ≠ e.parentId →
        nodeData (createForEntry g e supply k c reqs).1 y = nodeData g y) := by
  intro c
  induction c with
  | zero =>
    intro k g reqs hok hnd hp hfresh hne hinj
    refine ⟨rfl, by simp [createForEntry], hok, by simp [createForEntry],
      hnd, hp, ?_, fun y _ _ => rfl⟩
    intro j hj1 hj2
    omega
  | succ c ih =>
    intro k g reqs hok hnd hp hfresh hne hinj
    have hq : ∃ q ∈ g.nodes, q.id = e.parentId := List.mem_map.mp hp
    have hknotin : supply k ∉ g.nodes.map (·.id) :=
      hfresh k (le_refl k) (by omega)
    have hck : ∀ n ∈ g.nodes, n.id ≠ supply k := by
      intro n hn he
      exact hknotin (he ▸ List.mem_map_of_mem (·.id) hn)
    obtain ⟨hret, hok1, hids1, hchild1, hunch1, _⟩ :=
      addChildStreaming_spec e.prompt e.prompt.length (supply k) hok hnd hq hck
    have hstep : createForEntry g e supply k (c + 1) reqs =
        createForEntry
          (addChildStreaming g e.parentId e.prompt e.prompt.length
            (supply k)).1
          e supply (k + 1) c (reqs ++ [(supply k, e.prompt)]) := by
      show createForEntry
          (addChildStreaming g e.parentId e.prompt e.prompt.length
            (supply k)).1
          e supply (k + 1) c
          (if (addChildStreaming g e.parentId e.prompt e.prompt.length
                (supply k)).2 ≠ "" then
            reqs ++ [((addChildStreaming g e.parentId e.prompt e.prompt.length
              (supply k)).2, e.prompt)]
          else reqs) = _
      rw [hret, if_pos (hne k (le_refl k) (by omega))]
    have hnd1 : (((addChildStreaming g e.parentId e.prompt e.prompt.length
        (supply k)).1).nodes.map (·.id)).Nodup := by
      rw [hids1, List.nodup_append]
      refine ⟨hnd, List.nodup_singleton _, ?_⟩
      intro a ha hb
      rw [List.mem_singleton] at hb
      subst hb
      exact hknotin ha
    have hp1 : e.parentId ∈ ((addChildStreaming g e.parentId e.prompt
        e.prompt.length (supply k)).1).nodes.map (·.id) := by
      rw [hids1]
      exact List.mem_append_left _ hp
    have hfresh1 : ∀ j, k + 1 ≤ j → j < (k + 1) + c →
        supply j ∉ ((addChildStreaming g e.parentId e.prompt e.prompt.length
          (supply k)).1).nodes.map (·.id) := by
      intro j hj1 hj2 hmem
      rw [hids1] at hmem
      rcases List.mem_append.mp hmem with h | h
      · exact hfresh j (by omega) (by omega) h
      · rw [List.mem_singleton] at h
        have := hinj j k (by omega) (by omega) (le_refl k) (by omega) h
        omega
    have hne1 : ∀ j, k + 1 ≤ j → j < (k + 1) + c → supply j ≠ "" :=
      fun j hj1 hj2 => hne j (by omega) (by omega)
    have hinj1 : ∀ i j, k + 1 ≤ i → i < (k + 1) + c → k + 1 ≤ j →
        j < (k + 1) + c → supply i = supply j → i = j :=
      fun i j h1 h2 h3 h4 he =>
        hinj i j (by omega) (by omega) (by omega) (by omega) he
    obtain ⟨ih1, ih2, ih3, ih4, ih5, ih6, ih7, ih8⟩ :=
      ih (k + 1)
        (addChildStreaming g e.parentId e.prompt e.prompt.length (supply k)).1
        (reqs ++ [(supply k, e.prompt)]) hok1 hnd1 hp1 hfresh1 hne1 hinj1
    have hlist : ∀ (f : Nat → String × String),
        (reqs ++ [f k]) ++ (List.range c).map (fun j => f (k + 1 + j)) =
          reqs ++ (List.range (c + 1)).map (fun j => f (k + j)) := by
      intro f
      rw [List.append_assoc, List.range_succ_eq_map, List.map_cons,
        List.map_map, List.singleton_append]
      refine congrArg (reqs ++ ·) (congrArg (f k :: ·) ?_)
      refine List.map_congr_left ?_
      intro j hj
      show f (k + 1 + j) = f (k + (j + 1))
      rw [show k + 1 + j = k + (j + 1) from by omega]
    have hlist' : ∀ (f : Nat → String),
        (g.nodes.map (·.id) ++ [f k]) ++
            (List.range c).map (fun j => f (k + 1 + j)) =
          g.nodes.map (·.id) ++ (List.range (c + 1)).map (fun j => f (k + j)) := by
      intro f
      rw [List.append_assoc, List.range_succ_eq_map, List.map_cons,
        List.map_map, List.singleton_append]
      refine congrArg (g.nodes.map (·.id) ++ ·) (congrArg (f k :: ·) ?_)
      refine List.map_congr_left ?_
      intro j hj
      show f (k + 1 + j) = f (k + (j + 1))
      rw [show k + 1 + j = k + (j + 1) from by omega]
    refine ⟨?_, ?_, ?_, ?_, ?_, ?_, ?_, ?_⟩
    · rw [hstep, ih1]
      omega
    · rw [hstep, ih2]
      exact hlist (fun j => (supply j, e.prompt))
    · rw [hstep]
      exact ih3
    · rw [hstep, ih4, hids1]
      exact hlist' supply
    · rw [hstep]
      exact ih5
    · rw [hstep]
      exact ih6
    · intro j hj1 hj2
      rw [hstep]
      by_cases hjk : j = k
      · rw [hjk]
        have h1 : ∀ j', k + 1 ≤ j' → j' < (k + 1) + c →
            supply k ≠ supply j' := by
          intro j' ha hb he
          have := hinj k j' (le_refl k) (by omega) (by omega) (by omega) he
          omega
        have h2 : supply k ≠ e.parentId := by
          intro he
          exact hknotin (he ▸ hp)
        rw [ih8 (supply k) h1 h2]
        exact hchild1
      · exact ih7 j (by omega) (by omega)
    · intro y hy hyp
      rw [hstep, ih8 y (fun j' ha hb => hy j' (by omega) (by omega)) hyp]
      exact hunch1 y (hy k (le_refl k) (by omega)) hyp

theorem nodeData_some_node {s : GraphState} {x : String} {d : LoomNodeData}
    (h : nodeData s x = some d) : ∃ n ∈ s.nodes, n.id = x ∧ n.data = d := by
  rw [nodeData] at h
  cases hf : findNode s.nodes x with
  | none =>
    rw [hf] at h
    simp at h
  | some n =>
    rw [hf] at h
    exact ⟨n, findNode_mem hf, findNode_some_id hf, by simpa using h⟩

/-- The canonical sequential event script delivered by `i` mocked streams:
stream `j` delivers its tokens `toks j` and then its `done`, one stream after
the other. -/
def scriptFor (supply : Nat → String) (toks : Nat → List String) :
    Nat → List GenEvent
  | 0 => []
  | i + 1 => scriptFor supply toks i ++
      ((toks i).map (GenEvent.token (supply i)) ++ [GenEvent.done (supply i)])

/-- Running the first `i` stream blocks: each processed child ends with its
buffer flushed into its text and generating cleared, everything else in the
store is untouched, and the bookkeeping (completed set, counter, prompts,
unprocessed buffers) evolves as expected. -/
theorem blocks_spec (supply : Nat → String) (toks : Nat → List String)
    (count : Nat) (bufv : Nat → String) (childData : Nat → LoomNodeData)
    (b0 : BatchState)
    (hinj : ∀ i < count, ∀ j < count, supply i = supply j → i = j)
    (hc0 : b0.completed = [])
    (hok0 : StoreOk b0.graph)
    (hnd0 : (b0.graph.nodes.map (·.id)).Nodup)
    (hbuf0 : ∀ j < count, mapGet b0.buffers (supply j) = some (bufv j))
    (hchild : ∀ j < count, nodeData b0.graph (supply j) = some (childData j)) :
    ∀ i, i ≤ count →
      (runEvents b0 (scriptFor supply toks i)).completed =
        (List.range i).map supply ∧
      (runEvents b0 (scriptFor supply toks i)).prompts = b0.prompts ∧
      (runEvents b0 (scriptFor supply toks i)).activeRequests =
        b0.activeRequests - i ∧
      StoreOk (runEvents b0 (scriptFor supply toks i)).graph ∧
      (runEvents b0 (scriptFor supply toks i)).graph.nodes.map (·.id) =
        b0.graph.nodes.map (·.id) ∧
      (∀ j, i ≤ j → j < count →
        mapGet (runEvents b0 (scriptFor supply toks i)).buffers (supply j) =
          some (bufv j)) ∧
      (∀ j, j < i →
        nodeData (runEvents b0 (scriptFor supply toks i)).graph (supply j) =
          some { childData j with text := bufv j ++ String.join (toks j),
                                  isGenerating := false }) ∧
      (∀ y, (∀ j, j < i → y ≠ supply j) →
        nodeData (runEvents b0 (scriptFor supply toks i)).graph y =
          nodeData b0.graph y) := by
  intro i
  induction i with
  | zero =>
    intro _
    refine ⟨by simpa using hc0, rfl, by simp [runEvents, scriptFor], hok0, rfl,
      fun j _ hj2 => hbuf0 j hj2, fun j hj => absurd hj (by omega),
      fun y _ => rfl⟩
  | succ i ihi =>
    intro hle
    obtain ⟨ic, ip, ia, iok, iids, ibuf, ichild, iunch⟩ := ihi (by omega)
    have hicount : i < count := by omega
    have hne_i : ∀ j, j < i → supply i ≠ supply j := by
      intro j hj he
      have := hinj i hicount j (by omega) he
      omega
    have hdata_i : nodeData (runEvents b0 (scriptFor supply toks i)).graph
        (supply i) = some (childData i) := by
      rw [iunch (supply i) hne_i]
      exact hchild i hicount
    obtain ⟨n0, hn0mem, hn0id, hn0data⟩ := nodeData_some_node hdata_i
    have hnc : supply i ∉ (runEvents b0 (scriptFor supply toks i)).completed := by
      rw [ic]
      intro hmem
      obtain ⟨j, hj, he⟩ := List.mem_map.mp hmem
      rw [List.mem_range] at hj
      have := hinj j (by omega) i hicount he
      omega
    have hbuf_i : mapGet (runEvents b0 (scriptFor supply toks i)).buffers
        (supply i) = some (bufv i) := ibuf i (le_refl i) hicount
    have hnd_i : ((runEvents b0
        (scriptFor supply toks i)).graph.nodes.map (·.id)).Nodup := by
      rw [iids]
      exact hnd0
    obtain ⟨bx, bgy, bc, ba, bbuf, bp, bok, bids⟩ :=
      block_spec (runEvents b0 (scriptFor supply toks i)) (supply i) (toks i)
        hnc hbuf_i iok hnd_i hn0mem hn0id
    have hsplit : runEvents b0 (scriptFor supply toks (i + 1)) =
        runEvents (runEvents b0 (scriptFor supply toks i))
          ((toks i).map (GenEvent.token (supply i)) ++
            [GenEvent.done (supply i)]) := by
      rw [show scriptFor supply toks (i + 1) = scriptFor supply toks i ++
        ((toks i).map (GenEvent.token (supply i)) ++
          [GenEvent.done (supply i)]) from rfl, runEvents_append]
    refine ⟨?_, ?_, ?_, ?_, ?_, ?_, ?_, ?_⟩
    · rw [hsplit, bc, ic, List.range_succ, List.map_append]
      simp
    · rw [hsplit, bp, ip]
    · rw [hsplit, ba, ia]
      omega
    · rw [hsplit]
      exact bok
    · rw [hsplit, bids, iids]
    · intro j hj1 hj2
      have hne' : supply j ≠ supply i := by
        intro he
        have := hinj j hj2 i hicount he
        omega
      rw [hsplit, bbuf (supply j) hne']
      exact ibuf j (by omega) hj2
    · intro j hj
      by_cases hji : j = i
      · rw [hji, hsplit, bx, hn0data]
      · have hji' : j < i := by omega
        have hne' : supply j ≠ supply i := by
          intro he
          have := hinj j (by omega) i hicount he
          omega
        rw [hsplit, bgy (supply j) hne']
        exact ichild j hji'
    · intro y hy
      have hyne : y ≠ supply i := hy i (by omega)
      rw [hsplit, bgy y hyne]
      exact iunch y (fun j hj => hy j (by omega))

theorem foldl_resolve_of_completed (msg : String) :
    ∀ (reqs : List (String × String)) (b : BatchState),
      (∀ r ∈ reqs, r.1 ∈ b.completed) →
      reqs.foldl (fun b r =>
        if b.completed.contains r.1 then b else markError b r.1 msg) b = b := by
  intro reqs
  induction reqs with
  | nil =>
    intro b _
    rfl
  | cons r rest ih =>
    intro b h
    rw [List.foldl_cons, if_pos (contains_eq_true_of_mem (h r (by simp)))]
    exact ih b (fun q hq => h q (by simp [hq]))

/-- The `BatchState` seeded at the start of `runBatchGeneration` once the
placeholders exist: per-id buffers and prompts, no id completed, the counter
at the number of live requests. -/
def seedBatch (g0 : GraphState) (reqs : List (String × String)) : BatchState :=
  { graph := g0
    buffers := reqs.foldl (fun m r => mapSet m r.1 r.2) []
    prompts := reqs.foldl (fun m r => mapSet m r.1 r.2) []
    rafScheduled := reqs.foldl (fun m r => mapSet m r.1 false) []
    completed := []
    activeRequests := reqs.length
    rafQueue := [] }

theorem nodeData_isSome_of_mem_ids {s : GraphState} {x : String}
    (h : x ∈ s.nodes.map (·.id)) : (nodeData s x).isSome := by
  obtain ⟨n, hn, hid⟩ := List.mem_map.mp h
  have hs := findNode_isSome_of_mem hn
  rw [hid] at hs
  obtain ⟨n0, hn0⟩ := Option.isSome_iff_exists.mp hs
  rw [nodeData, hn0]
  rfl

/-- With credentials configured and a non-blank prompt, `generateForNode`
reaches the batch run and wraps it in `.ok`, clearing the source's generating
flag at the end. -/
theorem generateForNode_reduce (g : GraphState) (settings : LoomSettings)
    (nodeId : String) (supply : Nat → String) (evs : List GenEvent)
    (hkey : settings.apiKey ≠ "")
    (htrim : (getPrompt g nodeId).trim ≠ "") :
    generateForNode g settings nodeId supply evs =
      .ok { runBatchGeneration (setError (setGenerating g nodeId true)
              nodeId none)
              [{ parentId := nodeId, prompt := getPrompt g nodeId,
                 count := settings.numGenerations }] supply evs with
            graph := setGenerating
              (runBatchGeneration (setError (setGenerating g nodeId true)
                nodeId none)
                [{ parentId := nodeId, prompt := getPrompt g nodeId,
                   count := settings.numGenerations }] supply evs).graph
              nodeId false } := by
  simp only [generateForNode]
  rw [if_neg (by simp [hkey]), if_neg htrim]

/-- When the placeholder loop queued at least one request and every queued id
reaches the completed set under the event script, `runBatchGeneration` is the
plain event fold: the orphan sweep finds nothing and changes nothing. -/
theorem runBatchGeneration_reduce (g : GraphState) (entries : List BatchEntry)
    (supply : Nat → String) (evs : List GenEvent)
    (hne : ((createAll g entries supply 0 []).2.1).isEmpty = false)
    (hall : ∀ r ∈ (createAll g entries supply 0 []).2.1,
      r.1 ∈ (runEvents (seedBatch (createAll g entries supply 0 []).1
        (createAll g entries supply 0 []).2.1) evs).completed) :
    runBatchGeneration g entries supply evs =
      runEvents (seedBatch (createAll g entries supply 0 []).1
        (createAll g entries supply 0 []).2.1) evs := by
  have hany : ((createAll g entries supply 0 []).2.1).any
      (fun r => !((runEvents (seedBatch (createAll g entries supply 0 []).1
        (createAll g entries supply 0 []).2.1) evs).completed.contains r.1)) =
      false := by
    rw [List.any_eq_false]
    intro r hr
    rw [contains_eq_true_of_mem (hall r hr)]
    simp
  have hfold := foldl_resolve_of_completed "Stream ended without response"
    ((createAll g entries supply 0 []).2.1)
    (runEvents (seedBatch (createAll g entries supply 0 []).1
      (createAll g entries supply 0 []).2.1) evs) hall
  have hseed : seedBatch (createAll g entries supply 0 []).1
      (createAll g entries supply 0 []).2.1 =
      { graph := (createAll g entries supply 0 []).1
        buffers := ((createAll g entries supply 0 []).2.1).foldl
          (fun m r => mapSet m r.1 r.2) []
        prompts := ((createAll g entries supply 0 []).2.1).foldl
          (fun m r => mapSet m r.1 r.2) []
        rafScheduled := ((createAll g entries supply 0 []).2.1).foldl
          (fun m r => mapSet m r.1 false) []
        completed := []
        activeRequests := ((createAll g entries supply 0 []).2.1).length
        rafQueue := [] } := rfl
  simp only [runBatchGeneration]
  rw [if_neg (by simp [hne]), ← hseed]
  rw [hany]
  rw [if_neg (by simp)]
  exact hfold

/-- C9: on a node with a non-blank prompt and a configured API key,
`generateForNode` with `count = numGenerations` mocked streams (each
delivering at least one token and then completing) succeeds, creates exactly
`count` new children and no other node, each child ending with parent the
source node, `generatedTextStart` the prompt length, generating cleared, and
text the source prompt followed by the non-empty streamed completion (the
prompt as a strict prefix); afterwards the source node's generating flag is
false. -/
theorem c9_generateForNode_children_and_completion
    (g : GraphState) (settings : LoomSettings) (nodeId : String)
    (supply : Nat → String) (toks : Nat → List String)
    (hkey : settings.apiKey ≠ "")
    (hok : StoreOk g) (hnd : (g.nodes.map (·.id)).Nodup)
    (hsrc : nodeId ∈ g.nodes.map (·.id))
    (htrim : (getPrompt g nodeId).trim ≠ "")
    (hcount : 1 ≤ settings.numGenerations)
    (hfresh : ∀ j < settings.numGenerations, supply j ∉ g.nodes.map (·.id))
    (hne : ∀ j < settings.numGenerations, supply j ≠ "")
    (hinj : ∀ i < settings.numGenerations, ∀ j < settings.numGenerations,
      supply i = supply j → i = j)
    (htoks : ∀ j < settings.numGenerations, String.join (toks j) ≠ "") :
    ∃ b, generateForNode g settings nodeId supply
        (scriptFor supply toks settings.numGenerations) = .ok b ∧
      b.graph.nodes.map (·.id) =
        g.nodes.map (·.id) ++ (List.range settings.numGenerations).map supply ∧
      (∀ j < settings.numGenerations,
        nodeData b.graph (supply j) =
          some { id := supply j,
                 text := getPrompt g nodeId ++ String.join (toks j),
                 parentId := some nodeId, childIds := [], isRoot := false,
                 isGenerating := false,
                 generatedTextStart := (getPrompt g nodeId).length,
                 error := none }) ∧
      (∀ j < settings.numGenerations, ∃ rest, rest ≠ "" ∧
        (nodeData b.graph (supply j)).map (·.text) =
          some (getPrompt g nodeId ++ rest)) ∧
      (∃ d, nodeData b.graph nodeId = some d ∧ d.isGenerating = false) := by
  have hok1 : StoreOk (setGenerating g nodeId true) :=
    storeOk_patchNode _ hok hnd
  have hids1 : (setGenerating g nodeId true).nodes.map (·.id) =
      g.nodes.map (·.id) := patchNode_ids _ hok hnd
  have hnd1 : ((setGenerating g nodeId true).nodes.map (·.id)).Nodup := by
    rw [hids1]
    exact hnd
  have hok2 : StoreOk (setError (setGenerating g nodeId true) nodeId none) := storeOk_patchNode _ hok1 hnd1
  have hids2 : (setError (setGenerating g nodeId true) nodeId none).nodes.map (·.id) = g.nodes.map (·.id) := by
    rw [show (setError (setGenerating g nodeId true) nodeId none).nodes.map (·.id) =
      (setGenerating g nodeId true).nodes.map (·.id) from
      patchNode_ids _ hok1 hnd1, hids1]
  have hnd2 : ((setError (setGenerating g nodeId true) nodeId none).nodes.map (·.id)).Nodup := by
    rw [hids2]
    exact hnd
  obtain ⟨e1, e2, e3, e4, e5, e6, e7, e8⟩ :=
    createForEntry_spec
      { parentId := nodeId, prompt := getPrompt g nodeId, count := settings.numGenerations }
      supply settings.numGenerations 0 (setError (setGenerating g nodeId true) nodeId none) []
      hok2 hnd2 (by rw [hids2]; exact hsrc)
      (by intro j hja hjb; rw [hids2]; exact hfresh j (by omega))
      (fun j hja hjb => hne j (by omega))
      (fun i j hia hib hja hjb he => hinj i (by omega) j (by omega) he)
  have hreqs : (createForEntry (setError (setGenerating g nodeId true) nodeId none)
      { parentId := nodeId, prompt := getPrompt g nodeId, count := settings.numGenerations }
      supply 0 settings.numGenerations []).2.1 = ((List.range settings.numGenerations).map
      (fun j => (supply j, getPrompt g nodeId))) := by
    rw [e2, List.nil_append]
    exact List.map_congr_left (fun j _ => by rw [Nat.zero_add])
  have hidsF : (createForEntry (setError (setGenerating g nodeId true) nodeId none)
      { parentId := nodeId, prompt := getPrompt g nodeId, count := settings.numGenerations }
      supply 0 settings.numGenerations []).1.nodes.map (·.id) =
      g.nodes.map (·.id) ++ (List.range settings.numGenerations).map supply := by
    rw [e4, hids2]
    exact congrArg (g.nodes.map (·.id) ++ ·)
      (List.map_congr_left (fun j _ => by rw [Nat.zero_add]))
  have hndL : (((List.range settings.numGenerations).map
      (fun j => (supply j, getPrompt g nodeId))).map (·.1)).Nodup := by
    rw [List.map_map]
    exact List.Nodup.map_on
      (fun i hi j hj he =>
        hinj i (List.mem_range.mp hi) j (List.mem_range.mp hj) he)
      (List.nodup_range _)
  have hbuf0 : ∀ j < settings.numGenerations,
      mapGet (seedBatch (createForEntry (setError (setGenerating g nodeId true) nodeId none)
      { parentId := nodeId, prompt := getPrompt g nodeId, count := settings.numGenerations }
      supply 0 settings.numGenerations []).1
      ((List.range settings.numGenerations).map
      (fun j => (supply j, getPrompt g nodeId)))).buffers (supply j) = some (getPrompt g nodeId) := by
    intro j hj
    show mapGet (((List.range settings.numGenerations).map
      (fun j => (supply j, getPrompt g nodeId))).foldl (fun m r => mapSet m r.1 r.2) []) (supply j) =
      some (getPrompt g nodeId)
    exact mapGet_foldl_mapSet_of_mem (fun r => r.2) hndL
      (List.mem_map_of_mem _ (List.mem_range.mpr hj)) []
  have hchild0 : ∀ j < settings.numGenerations,
      nodeData (seedBatch (createForEntry (setError (setGenerating g nodeId true) nodeId none)
      { parentId := nodeId, prompt := getPrompt g nodeId, count := settings.numGenerations }
      supply 0 settings.numGenerations []).1
      ((List.range settings.numGenerations).map
      (fun j => (supply j, getPrompt g nodeId)))).graph (supply j) =
        some (streamChildNode nodeId (getPrompt g nodeId)
          (getPrompt g nodeId).length (supply j)).data := by
    intro j hj
    have h7 := e7 j (by omega) (by omega)
    exact h7
  obtain ⟨m1, m2, m3, m4, m5, m6, m7, m8⟩ :=
    blocks_spec supply toks settings.numGenerations
      (fun _ => getPrompt g nodeId)
      (fun j => (streamChildNode nodeId (getPrompt g nodeId)
        (getPrompt g nodeId).length (supply j)).data)
      (seedBatch (createForEntry (setError (setGenerating g nodeId true) nodeId none)
      { parentId := nodeId, prompt := getPrompt g nodeId, count := settings.numGenerations }
      supply 0 settings.numGenerations []).1
      ((List.range settings.numGenerations).map
      (fun j => (supply j, getPrompt g nodeId))))
      hinj rfl e3 e5 hbuf0 hchild0 settings.numGenerations (le_refl _)
  have hFne : ((createForEntry (setError (setGenerating g nodeId true) nodeId none)
      { parentId := nodeId, prompt := getPrompt g nodeId, count := settings.numGenerations }
      supply 0 settings.numGenerations []).2.1).isEmpty = false := by
    rw [hreqs]
    obtain ⟨m, hm⟩ : ∃ m, settings.numGenerations = m + 1 :=
      ⟨settings.numGenerations - 1, by omega⟩
    rw [hm]
    simp [List.range_succ]
  have hca2 : (createAll (setError (setGenerating g nodeId true) nodeId none)
      [{ parentId := nodeId, prompt := getPrompt g nodeId, count := settings.numGenerations }]
      supply 0 []).2.1 = (createForEntry (setError (setGenerating g nodeId true) nodeId none)
      { parentId := nodeId, prompt := getPrompt g nodeId, count := settings.numGenerations }
      supply 0 settings.numGenerations []).2.1 := rfl
  have hca1 : (createAll (setError (setGenerating g nodeId true) nodeId none)
      [{ parentId := nodeId, prompt := getPrompt g nodeId, count := settings.numGenerations }]
      supply 0 []).1 = (createForEntry (setError (setGenerating g nodeId true) nodeId none)
      { parentId := nodeId, prompt := getPrompt g nodeId, count := settings.numGenerations }
      supply 0 settings.numGenerations []).1 := rfl
  have hseedrw : seedBatch
      (createAll (setError (setGenerating g nodeId true) nodeId none)
        [{ parentId := nodeId, prompt := getPrompt g nodeId, count := settings.numGenerations }]
        supply 0 []).1
      (createAll (setError (setGenerating g nodeId true) nodeId none)
        [{ parentId := nodeId, prompt := getPrompt g nodeId, count := settings.numGenerations }]
        supply 0 []).2.1 = (seedBatch (createForEntry (setError (setGenerating g nodeId true) nodeId none)
      { parentId := nodeId, prompt := getPrompt g nodeId, count := settings.numGenerations }
      supply 0 settings.numGenerations []).1
      ((List.range settings.numGenerations).map
      (fun j => (supply j, getPrompt g nodeId)))) := by
    rw [hca1, hca2, hreqs]
  have hall : ∀ r ∈ (createAll (setError (setGenerating g nodeId true) nodeId none)
      [{ parentId := nodeId, prompt := getPrompt g nodeId, count := settings.numGenerations }]
      supply 0 []).2.1,
      r.1 ∈ (runEvents (seedBatch
        (createAll (setError (setGenerating g nodeId true) nodeId none)
          [{ parentId := nodeId, prompt := getPrompt g nodeId, count := settings.numGenerations }]
          supply 0 []).1
        (createAll (setError (setGenerating g nodeId true) nodeId none)
          [{ parentId := nodeId, prompt := getPrompt g nodeId, count := settings.numGenerations }]
          supply 0 []).2.1)
        (scriptFor supply toks settings.numGenerations)).completed := by
    rw [hseedrw, hca2, hreqs, m1]
    intro r hr
    obtain ⟨j, hj, he⟩ := List.mem_map.mp hr
    subst he
    exact List.mem_map_of_mem supply hj
  have hrun : runBatchGeneration (setError (setGenerating g nodeId true) nodeId none)
      [{ parentId := nodeId, prompt := getPrompt g nodeId, count := settings.numGenerations }]
      supply (scriptFor supply toks settings.numGenerations) =
      (runEvents (seedBatch (createForEntry (setError (setGenerating g nodeId true) nodeId none)
      { parentId := nodeId, prompt := getPrompt g nodeId, count := settings.numGenerations }
      supply 0 settings.numGenerations []).1
      ((List.range settings.numGenerations).map
      (fun j => (supply j, getPrompt g nodeId))))
      (scriptFor supply toks settings.numGenerations)) := by
    rw [runBatchGeneration_reduce (setError (setGenerating g nodeId true) nodeId none)
      [{ parentId := nodeId, prompt := getPrompt g nodeId, count := settings.numGenerations }]
      supply _ (by rw [hca2]; exact hFne) hall, hseedrw]
  have hgen : generateForNode g settings nodeId supply
      (scriptFor supply toks settings.numGenerations) =
      .ok { (runEvents (seedBatch (createForEntry (setError (setGenerating g nodeId true) nodeId none)
      { parentId := nodeId, prompt := getPrompt g nodeId, count := settings.numGenerations }
      supply 0 settings.numGenerations []).1
      ((List.range settings.numGenerations).map
      (fun j => (supply j, getPrompt g nodeId))))
      (scriptFor supply toks settings.numGenerations)) with
        graph := setGenerating (runEvents (seedBatch (createForEntry (setError (setGenerating g nodeId true) nodeId none)
      { parentId := nodeId, prompt := getPrompt g nodeId, count := settings.numGenerations }
      supply 0 settings.numGenerations []).1
      ((List.range settings.numGenerations).map
      (fun j => (supply j, getPrompt g nodeId))))
      (scriptFor supply toks settings.numGenerations)).graph nodeId false } := by
    rw [generateForNode_reduce g settings nodeId supply _ hkey htrim, hrun]
  have hndB1 : ((runEvents (seedBatch (createForEntry (setError (setGenerating g nodeId true) nodeId none)
      { parentId := nodeId, prompt := getPrompt g nodeId, count := settings.numGenerations }
      supply 0 settings.numGenerations []).1
      ((List.range settings.numGenerations).map
      (fun j => (supply j, getPrompt g nodeId))))
      (scriptFor supply toks settings.numGenerations)).graph.nodes.map (·.id)).Nodup := by
    rw [m5]
    exact e5
  refine ⟨{ (runEvents (seedBatch (createForEntry (setError (setGenerating g nodeId true) nodeId none)
      { parentId := nodeId, prompt := getPrompt g nodeId, count := settings.numGenerations }
      supply 0 settings.numGenerations []).1
      ((List.range settings.numGenerations).map
      (fun j => (supply j, getPrompt g nodeId))))
      (scriptFor supply toks settings.numGenerations)) with
    graph := setGenerating (runEvents (seedBatch (createForEntry (setError (setGenerating g nodeId true) nodeId none)
      { parentId := nodeId, prompt := getPrompt g nodeId, count := settings.numGenerations }
      supply 0 settings.numGenerations []).1
      ((List.range settings.numGenerations).map
      (fun j => (supply j, getPrompt g nodeId))))
      (scriptFor supply toks settings.numGenerations)).graph nodeId false }, hgen, ?_, ?_, ?_, ?_⟩
  · show (setGenerating (runEvents (seedBatch (createForEntry (setError (setGenerating g nodeId true) nodeId none)
      { parentId := nodeId, prompt := getPrompt g nodeId, count := settings.numGenerations }
      supply 0 settings.numGenerations []).1
      ((List.range settings.numGenerations).map
      (fun j => (supply j, getPrompt g nodeId))))
      (scriptFor supply toks settings.numGenerations)).graph nodeId false).nodes.map (·.id) = _
    rw [setGenerating, patchNode_ids _ m4 hndB1, m5]
    exact hidsF
  · intro j hj
    have hjne : supply j ≠ nodeId := by
      intro he
      exact hfresh j hj (he ▸ hsrc)
    show nodeData (setGenerating (runEvents (seedBatch (createForEntry (setError (setGenerating g nodeId true) nodeId none)
      { parentId := nodeId, prompt := getPrompt g nodeId, count := settings.numGenerations }
      supply 0 settings.numGenerations []).1
      ((List.range settings.numGenerations).map
      (fun j => (supply j, getPrompt g nodeId))))
      (scriptFor supply toks settings.numGenerations)).graph nodeId false) (supply j) = _
    rw [setGenerating, nodeData_patchNode_ne _ m4 hndB1 hjne, m7 j hj]
    rfl
  · intro j hj
    refine ⟨String.join (toks j), htoks j hj, ?_⟩
    have hjne : supply j ≠ nodeId := by
      intro he
      exact hfresh j hj (he ▸ hsrc)
    show (nodeData (setGenerating (runEvents (seedBatch (createForEntry (setError (setGenerating g nodeId true) nodeId none)
      { parentId := nodeId, prompt := getPrompt g nodeId, count := settings.numGenerations }
      supply 0 settings.numGenerations []).1
      ((List.range settings.numGenerations).map
      (fun j => (supply j, getPrompt g nodeId))))
      (scriptFor supply toks settings.numGenerations)).graph nodeId false) (supply j)).map
      (·.text) = _
    rw [setGenerating, nodeData_patchNode_ne _ m4 hndB1 hjne, m7 j hj]
    rfl
  · have hmemB1 : nodeId ∈ (runEvents (seedBatch (createForEntry (setError (setGenerating g nodeId true) nodeId none)
      { parentId := nodeId, prompt := getPrompt g nodeId, count := settings.numGenerations }
      supply 0 settings.numGenerations []).1
      ((List.range settings.numGenerations).map
      (fun j => (supply j, getPrompt g nodeId))))
      (scriptFor supply toks settings.numGenerations)).graph.nodes.map (·.id) := by
      rw [m5]
      have hm : nodeId ∈ (createForEntry (setError (setGenerating g nodeId true) nodeId none)
      { parentId := nodeId, prompt := getPrompt g nodeId, count := settings.numGenerations }
      supply 0 settings.numGenerations []).1.nodes.map (·.id) := by
        rw [hidsF]
        exact List.mem_append_left _ hsrc
      exact hm
    obtain ⟨d0, hd0⟩ :=
      Option.isSome_iff_exists.mp (nodeData_isSome_of_mem_ids hmemB1)
    refine ⟨applyPatch d0 { isGenerating := some false }, ?_, rfl⟩
    show nodeData (setGenerating (runEvents (seedBatch (createForEntry (setError (setGenerating g nodeId true) nodeId none)
      { parentId := nodeId, prompt := getPrompt g nodeId, count := settings.numGenerations }
      supply 0 settings.numGenerations []).1
      ((List.range settings.numGenerations).map
      (fun j => (supply j, getPrompt g nodeId))))
      (scriptFor supply toks settings.numGenerations)).graph nodeId false) nodeId = _
    rw [setGenerating, nodeData_patchNode_self _ m4 hndB1, hd0]
    rfl

/-- A one-root store (root text "Once") with freshly built indices. -/
def c9Graph : GraphState :=
  rebuildIndex
    { nodes := [{ id := "r", type := "loomNode", position := (0, 0),
                  data := { id := "r", text := "Once", parentId := none,
                            childIds := [], isRoot := true,
                            isGenerating := false, generatedTextStart := 0 } }]
      edges := []
      nodeDataMap := []
      nodeIndexMap := []
      structureVersion := 0
      structureScheduled := false
      persistTimerPending := false
      persistedGraph := none }

def c9Settings : LoomSettings :=
  { apiKey := "k", apiBaseUrl := "", numGenerations := 1 }

theorem c9_takeWhile_eval :
    Substring.takeWhileAux "Once" "Once".endPos Char.isWhitespace ⟨0⟩ = ⟨0⟩ := by
  rw [Substring.takeWhileAux]
  simp only [show Char.isWhitespace ("Once".get ⟨0⟩) = false from by decide]
  simp

theorem c9_takeRightWhile_eval :
    Substring.takeRightWhileAux "Once" ⟨0⟩ Char.isWhitespace "Once".endPos =
      "Once".endPos := by
  rw [Substring.takeRightWhileAux]
  simp only [show (!Char.isWhitespace
    ("Once".get ("Once".prev "Once".endPos))) = true from by decide]
  simp

/-- The root prompt of `c9Graph` survives trimming (`String.trim` recurses
with well-founded fuel, so the two auxiliary scans are evaluated by hand). -/
theorem c9_trim : (getPrompt c9Graph "r").trim ≠ "" := by
  show ("Once".toSubstring.trim).toString ≠ ""
  rw [show "Once".toSubstring.trim = ⟨"Once", ⟨0⟩, "Once".endPos⟩ from by
    rw [show "Once".toSubstring = ⟨"Once", ⟨0⟩, "Once".endPos⟩ from rfl,
      Substring.trim]
    rw [c9_takeWhile_eval, c9_takeRightWhile_eval]]
  decide

/-- C9 witness: one mocked stream (token " upon a time", then done) against
the root of `c9Graph` creates exactly one child of the root whose final text
extends the prompt, with the root's generating flag cleared. -/
theorem c9_witness :
    ∃ b, generateForNode c9Graph c9Settings "r" (fun _ => "c1")
        (scriptFor (fun _ => "c1") (fun _ => [" upon a time"])
          c9Settings.numGenerations) = .ok b ∧
      b.graph.nodes.map (·.id) = c9Graph.nodes.map (·.id) ++
        (List.range c9Settings.numGenerations).map (fun _ => "c1") ∧
      (∀ j < c9Settings.numGenerations,
        nodeData b.graph "c1" =
          some { id := "c1",
                 text := getPrompt c9Graph "r" ++ String.join [" upon a time"],
                 parentId := some "r", childIds := [], isRoot := false,
                 isGenerating := false,
                 generatedTextStart := (getPrompt c9Graph "r").length,
                 error := none }) ∧
      (∀ j < c9Settings.numGenerations, ∃ rest, rest ≠ "" ∧
        (nodeData b.graph "c1").map (·.text) =
          some (getPrompt c9Graph "r" ++ rest)) ∧
      (∃ d, nodeData b.graph "r" = some d ∧ d.isGenerating = false) :=
  c9_generateForNode_children_and_completion c9Graph c9Settings "r"
    (fun _ => "c1") (fun _ => [" upon a time"])
    (by decide) (by decide) (by decide) (by decide) c9_trim (by decide)
    (by decide) (by decide) (by decide) (by decide)
